import Mathlib

/-!
Beam LED-matrix driver: a verification development.

Shallow embedding of `src/beam.cpp` / `src/beam.h`.

* Machine integers are naturals; every store into a `uint8_t` / `uint16_t`
  location is reduced `% 256` / `% 65536` where the source performs the store.
* C arrays are lists (`cs`, `cscolumn`, `segmentmask`, `BEAM_ADDRESS`); an index
  is read with `getD _ 0` and written with `List.set`.
* A `const uint8_t *` that the code only reads is a function from the offset to
  the byte (`currentFrame`), or the list of bytes from the pointer onwards
  (`fontptr`).
* The bus is observed at the level of `sendWriteCmd` calls (`WriteCmd`) and of
  `writeFrame` calls.
* The data tables of `charactermap.h` (font) and `frames.h` (animation frames)
  are parameters: `Font` and `frameList`.
* The two constructors of `class Beam` are `Beam.newGroup` (multi-chip) and
  `Beam.newSingle` (single address).
-/

namespace BeamDriver

/-! ## Constants of `beam.h` -/

def MAXFRAME : Nat := 36

/-- The address table `BEAM_ADDRESS[]`. -/
def BEAM_ADDRESS : List Nat := [0x36, 0x34, 0x30, 0x37]

def PIC : Nat := 0x00
def MOV : Nat := 0x01
def MOVMODE : Nat := 0x02
def FRAMETIME : Nat := 0x03
def DISPLAYO : Nat := 0x04
def CURSRC : Nat := 0x05
def CFG : Nat := 0x06
def IRQMASK : Nat := 0x07
def IRQFRAME : Nat := 0x08
def SHDN : Nat := 0x09
def CLKSYNC : Nat := 0x0B
def CTRL : Nat := 0xC0
def REGSEL : Nat := 0xFD

def PICTURE : Nat := 0x01
def MOVIE : Nat := 0x02
def SCROLL : Nat := 0x03
def FADEOFF : Nat := 0x00
def FADEON : Nat := 0x01

def RIGHT : Nat := 0
def LEFT : Nat := 1

/-! ## Driver state -/

/-- The data members of `class Beam` that the driver logic reads or writes.
`BEAM` is the index into `BEAM_ADDRESS` the member pointer `BEAM` points at. -/
structure Beam where
  BEAM : Nat
  cs : List Nat
  segmentmask : List Nat
  cscolumn : List Nat
  activeBeams : Nat
  _gblMode : Nat
  _syncMode : Nat
  _lastFrameWrite : Nat
  _scrollMode : Nat
  _scrollDir : Nat
  _fadeMode : Nat
  _frameDelay : Nat
  _beamMode : Nat
  _numLoops : Nat
  _beamCount : Nat
  deriving DecidableEq

/-- One call `sendWriteCmd(addr, ramsection, subreg, subregdata)`; every
argument is a `uint8_t`. -/
structure WriteCmd where
  addr : Nat
  ramsection : Nat
  subreg : Nat
  subregdata : Nat
  deriving DecidableEq

/-- The expression `BEAM[b]`. -/
def Beam.addrOf (self : Beam) (b : Nat) : Nat :=
  BEAM_ADDRESS.getD (self.BEAM + b) 0

/-! ## Constructors -/

/-- `Beam::Beam(int rstpin, int irqpin, int numberOfBeams)`; `mem` is the
object's storage before construction (the constructor leaves the other members
untouched). -/
def Beam.newGroup (mem : Beam) (numberOfBeams : Int) : Beam :=
  let numberOfBeams : Int :=
    if numberOfBeams ≤ 0 ∨ 4 ≤ numberOfBeams then 1 else numberOfBeams
  { mem with
    BEAM := 0
    activeBeams := (numberOfBeams % 256).toNat
    _beamCount := (numberOfBeams % 256).toNat
    _gblMode := 1 }

/-- The search loop of the single-address constructor:
`for (b = 0; b < sizeof(BEAM_ADDRESS); b++) if (BEAM_ADDRESS[b] == beamAddress) ...`;
`none` is the `NULL` the pointer keeps when nothing matches. -/
def findAddress (beamAddress : Nat) : Nat → Nat → Option Nat
  | 0, _ => none
  | fuel + 1, b =>
    if BEAM_ADDRESS.getD b 0 = beamAddress then some b
    else findAddress beamAddress fuel (b + 1)

/-- `Beam::Beam(int rstpin, int irqpin, uint8_t syncMode, uint8_t beamAddress)`;
the argument `syncMode` is not read. -/
def Beam.newSingle (mem : Beam) (_syncModeArg beamAddress : Nat) : Beam :=
  let found := findAddress beamAddress BEAM_ADDRESS.length 0
  { mem with
    _syncMode := 0
    _beamCount := 1
    activeBeams := 1
    BEAM := match found with
      | some b => b
      | none => 0
    _gblMode := 0 }

/-! ## `begin` -/

/-- The loop `for (s = 0; s < 8; s++) segmentmask[s] = 0x0001 << (7 - s)`. -/
def initSegmentmask (segmentmask : List Nat) : List Nat :=
  (List.range 8).foldl (fun m s => m.set s ((0x0001 <<< (7 - s)) % 65536)) segmentmask

/-- `Beam::begin`: `memset(cs, 0, sizeof(cs))` and the segment-mask loop. -/
def Beam.begin (self : Beam) : Beam :=
  { self with
    cs := List.replicate 12 0
    segmentmask := initSegmentmask self.segmentmask }

/-! ## Frame buffer encoder -/

/-- The packing loop of `print`:
`for (j = 0; j < 12; j++) cs[j] = (cscolumn[j*2]) | (cscolumn[j*2+1] << 5)`. -/
def packColumns (cs cscolumn : List Nat) : List Nat :=
  (List.range 12).foldl
    (fun cs j =>
      cs.set j ((cscolumn.getD (j * 2) 0 ||| (cscolumn.getD (j * 2 + 1) 0 <<< 5)) % 65536))
    cs

/-- The clearing loop that follows every flush:
`for (x = 0; x < 12; x++) { cs[x] = 0; cscolumn[x*2] = 0; cscolumn[x*2+1] = 0; }`. -/
def clearLoop (cs cscolumn : List Nat) : List Nat × List Nat :=
  (List.range 12).foldl
    (fun (st : List Nat × List Nat) x =>
      (st.1.set x 0x00, (st.2.set (x * 2) 0x00).set (x * 2 + 1) 0x00))
    (cs, cscolumn)

/-- `Beam::writeFrame(addr, f)` with register array `cs`: the 24 `sendWriteCmd`
calls, in order. -/
def writeFrame (cs : List Nat) (addr f : Nat) : List WriteCmd :=
  let p := f % 256
  (List.range 12).flatMap (fun j =>
    [ { addr := addr, ramsection := (p + 1) % 256, subreg := (2 * j) % 256,
        subregdata := cs.getD j 0 &&& 0xFF },
      { addr := addr, ramsection := (p + 1) % 256, subreg := (2 * j + 1) % 256,
        subregdata := (cs.getD j 0 &&& 0x300) >>> 8 } ])

/-- One iteration of a transpose loop of `convertFrame` for the register group
`cs[k .. k+3]`, at loop counter `y` and source offset `n`. -/
def convertRow (segmentmask : List Nat) (currentFrame : Nat → Nat) (k y n : Nat)
    (cs : List Nat) : List Nat :=
  let i := if y < 6 then 1 else 0
  let cs := cs.set (k + 0) ((cs.getD (k + 0) 0 |||
    ((((currentFrame n &&& segmentmask.getD (0 + i) 0) % 65536) <<< (3 + i)) >>> y)) % 65536)
  let cs := cs.set (k + 1) ((cs.getD (k + 1) 0 |||
    ((((currentFrame n &&& segmentmask.getD (2 + i) 0) % 65536) <<< (5 + i)) >>> y)) % 65536)
  let cs := cs.set (k + 2) ((cs.getD (k + 2) 0 |||
    ((((currentFrame n &&& segmentmask.getD (4 + i) 0) % 65536) <<< (7 + i)) >>> y)) % 65536)
  let cs := cs.set (k + 3) ((cs.getD (k + 3) 0 |||
    ((((currentFrame n &&& segmentmask.getD (6 + i) 0) % 65536) <<< (9 + i)) >>> y)) % 65536)
  cs

/-- One of the three loops `for (y = 10; y > 0; --y)` of `convertFrame`: register
group `cs[k .. k+3]`, source offset starting at `n0` and reset to `n0` once it
exceeds `wrap`. -/
def convertPass (segmentmask : List Nat) (currentFrame : Nat → Nat) (k n0 wrap : Nat)
    (cs : List Nat) : List Nat :=
  ([10, 9, 8, 7, 6, 5, 4, 3, 2, 1].foldl
    (fun (st : List Nat × Nat) y =>
      let cs := convertRow segmentmask currentFrame k y st.2 st.1
      let n := st.2 + 3
      (cs, if n > wrap then n0 else n))
    (cs, n0)).1

/-- `Beam::convertFrame(currentFrame)`: CS0 to CS3, CS4 to CS7, CS8 to CS11. -/
def convertFrame (segmentmask : List Nat) (currentFrame : Nat → Nat) (cs : List Nat) :
    List Nat :=
  let cs := convertPass segmentmask currentFrame 0 0 12 cs
  let cs := convertPass segmentmask currentFrame 4 1 13 cs
  let cs := convertPass segmentmask currentFrame 8 2 14 cs
  cs

/-! ## Text layout engine -/

/-- The font table `charactermap`: row index to the bytes of the row, which the
code reads up to the sentinel `0xFF`. -/
abbrev Font := Nat → List Nat

/-- The column bytes of a font row: what precedes the sentinel `0xFF`. -/
def glyphColumns (row : List Nat) : List Nat :=
  row.takeWhile (fun v => v ≠ 0xFF)

/-- C `toupper` on a byte (the "C" locale). -/
def toupper (c : Nat) : Nat :=
  if 97 ≤ c ∧ c ≤ 122 then c - 32 else c

/-- Character selection at the head of the loop of `print`, for the byte `c`
(`char` is unsigned on the target): `some row` when `fontptr` is set to
`charactermap[row]`, `none` for the branch `i++; continue;`. -/
def resolveChar (c : Nat) : Option Nat :=
  let asciiVal := toupper c
  if 32 ≤ asciiVal ∧ asciiVal ≤ 96 then some (asciiVal - 32)
  else if c = 0xC3 then none
  else if c = 0x84 ∨ c = 0xA4 then some 65
  else if c = 0x96 ∨ c = 0xB6 then some 66
  else if c = 0x9C ∨ c = 0xBC then some 67
  else if c = 0x9F then some 68
  else some 0

/-- The loop `while (cscount < 24 && *fontptr != 0xFF) { cscolumn[cscount] = *fontptr;
fontptr++; cscount++; }`; the result is `(cscolumn, cscount, fontptr)`. A row
that ends without sentinel stops the loop. -/
def fillLoop : List Nat → Nat → List Nat → List Nat × Nat × List Nat
  | cscolumn, cscount, [] => (cscolumn, cscount, [])
  | cscolumn, cscount, v :: fontptr =>
    if cscount < 24 ∧ v ≠ 0xFF then
      fillLoop (cscolumn.set cscount v) (cscount + 1) fontptr
    else (cscolumn, cscount, v :: fontptr)

/-- A frame flushed by the rendering loop: the value of `frame`, the
accumulator `cscolumn[0..23]` it was packed from, the packed `cs[]`, and the
calls `writeFrame(addr, f)` in order. -/
structure Flush where
  frame : Nat
  columns : List Nat
  cs : List Nat
  calls : List (Nat × Nat)
  deriving DecidableEq

/-- The `sendWriteCmd` calls of a flush. -/
def Flush.cmds (fl : Flush) : List WriteCmd :=
  fl.calls.flatMap (fun call => writeFrame fl.cs call.1 call.2)

/-- Loop variables of `print`: the object, `frame` and `cscount`. -/
structure LoopState where
  beam : Beam
  frame : Nat
  cscount : Nat
  deriving DecidableEq

/-- The flush block of `print` (it occurs twice, for a full frame and at the
end of the string): pack `cs[]`, `writeFrame(BEAM[b], frame + (_beamCount - b))`
for every chip, set `_lastFrameWrite`, clear `cs[]` and `cscolumn[]`. -/
def flushFrame (self : Beam) (frame : Nat) : Flush × Beam :=
  let cs := packColumns self.cs self.cscolumn
  let calls := (List.range self._beamCount).map
    (fun b => (self.addrOf b, (frame + (self._beamCount - b)) % 256))
  let cleared := clearLoop cs self.cscolumn
  ({ frame := frame, columns := self.cscolumn.take 24, cs := cs, calls := calls },
   { self with
     cs := cleared.1
     cscolumn := cleared.2
     _lastFrameWrite := (frame + self._beamCount) % 256 })

/-- The first part of the body of the `while` loop of `print`, once `fontptr` is
set: the fill loop and the block `if (cscount > 23) { ... }` (frame-full flush,
`frame++`, `cscount = 0`, and the wrap-continuation of the current glyph). -/
def renderChar (fontptr : List Nat) (st : LoopState) : List Flush × LoopState :=
  let filled := fillLoop st.beam.cscolumn st.cscount fontptr
  let st : LoopState := { st with beam := { st.beam with cscolumn := filled.1 },
                                  cscount := filled.2.1 }
  let fontptr := filled.2.2
  if st.cscount > 23 then
    let fl := flushFrame st.beam st.frame
    let st : LoopState := { beam := fl.2, frame := st.frame + 1, cscount := 0 }
    if fontptr.headD 0xFF ≠ 0xFF then
      let wrapped := fillLoop st.beam.cscolumn st.cscount fontptr
      ([fl.1], { st with beam := { st.beam with cscolumn := wrapped.1 },
                         cscount := wrapped.2.1 })
    else ([fl.1], st)
  else ([], st)

/-- The body of the `while` loop of `print` once `fontptr` is set: `renderChar`
and then the block `if (stringLen == i) { ... }`, the end-of-string flush
(`atEnd` is that test, after `i++`). -/
def printBody (fontptr : List Nat) (atEnd : Bool) (st : LoopState) :
    List Flush × LoopState :=
  let full := renderChar fontptr st
  if atEnd then
    let fl := flushFrame full.2.beam full.2.frame
    (full.1 ++ [fl.1], { full.2 with beam := fl.2 })
  else full

/-- The rendering loop of `print`,
`while ((i < stringLen) && frame < 36) { ... }`, over the bytes of `text` from
index `i` on; the result is the frames flushed, in order, and the final loop
variables. -/
def printLoop (font : Font) : List Nat → LoopState → List Flush × LoopState
  | [], st => ([], st)
  | c :: rest, st =>
    if st.frame < 36 then
      match resolveChar c with
      | none => printLoop font rest st
      | some row =>
        let body := printBody (font row) rest.isEmpty st
        let tail := printLoop font rest body.2
        (body.1 ++ tail.1, tail.2)
    else ([], st)

/-! ## Device configuration -/

/-- `Beam::setPrintDefaults(mode, startFrame, numFrames, numLoops, frameDelay,
scrollDir, fadeMode)`: the `sendWriteCmd` calls in order, and the object after
the call. The arguments are bytes. -/
def Beam.setPrintDefaults (self : Beam)
    (mode startFrame _numFrames numLoops frameDelay scrollDir fadeMode : Nat) :
    List WriteCmd × Beam :=
  let self : Beam := { self with
    _scrollMode := 1
    _scrollDir := scrollDir
    _fadeMode := fadeMode
    _frameDelay := frameDelay
    _beamMode := mode
    _numLoops := numLoops }
  if mode = MOVIE ∨ mode = SCROLL then
    let movieData := (0 <<< 7 ||| 1 <<< 6 ||| startFrame) % 256
    let moviemodeData := (0 <<< 7 ||| 0 <<< 6 ||| self._lastFrameWrite) % 256
    let frameData :=
      if mode = MOVIE then (0 <<< 7 ||| 0 <<< 6 ||| 0 <<< 5 ||| 0 <<< 4 ||| frameDelay) % 256
      else (fadeMode <<< 7 ||| scrollDir <<< 6 ||| 0 <<< 5 ||| self._scrollMode <<< 4
              ||| frameDelay) % 256
    let displayData := (self._numLoops <<< 5 ||| 0 <<< 4 ||| 0x0B) % 256
    let currsrcData :=
      if self._beamCount = 4 then 0x08
      else if self._beamCount = 3 then 0x10
      else if self._beamCount = 2 then 0x20
      else if self._beamCount = 1 then 0x20
      else 0x15
    let push : List WriteCmd :=
      if self._scrollDir = LEFT then
        (List.range self._beamCount).flatMap (fun b =>
          [ { addr := self.addrOf b, ramsection := CTRL, subreg := MOV,
              subregdata := movieData },
            { addr := self.addrOf b, ramsection := CTRL, subreg := MOVMODE,
              subregdata := moviemodeData },
            { addr := self.addrOf b, ramsection := CTRL, subreg := CURSRC,
              subregdata := currsrcData },
            { addr := self.addrOf b, ramsection := CTRL, subreg := FRAMETIME,
              subregdata := frameData },
            { addr := self.addrOf b, ramsection := CTRL, subreg := DISPLAYO,
              subregdata := displayData } ] ++
          (if b ≠ 3 then
            [ { addr := self.addrOf b, ramsection := CTRL, subreg := SHDN,
                subregdata := 0x02 } ]
           else []))
      else []
    let sync : List WriteCmd :=
      if self._gblMode = 1 ∧ self._beamCount > 1 then
        if self._scrollDir = LEFT then
          ({ addr := self.addrOf (self._beamCount - 1), ramsection := CTRL,
             subreg := CLKSYNC, subregdata := 0x02 } : WriteCmd) ::
          (List.range (self._beamCount - 1)).map (fun b =>
            { addr := self.addrOf b, ramsection := CTRL, subreg := CLKSYNC,
              subregdata := 0x01 })
        else
          ({ addr := self.addrOf 0, ramsection := CTRL,
             subreg := CLKSYNC, subregdata := 0x02 } : WriteCmd) ::
          (List.range (self._beamCount - 1)).map (fun d =>
            { addr := self.addrOf (1 + d), ramsection := CTRL, subreg := CLKSYNC,
              subregdata := 0x01 })
      else []
    (push ++ sync, self)
  else ([], self)

/-- `Beam::display()`: the `sendWriteCmd` calls in order. -/
def Beam.display (self : Beam) : List WriteCmd :=
  let pictureData := (0 <<< 7 ||| 1 <<< 6 ||| self._beamCount) % 256
  let displayData := (0 <<< 7 ||| 0 <<< 6 ||| 0 <<< 5 ||| 0 <<< 4 ||| 0x0B) % 256
  let currsrcData :=
    if self._beamCount = 1 then 0x20
    else if self._beamCount = 2 then 0x15
    else if self._beamCount = 3 then 0x10
    else if self._beamCount = 4 then 0x08
    else 0x00
  (List.range self._beamCount).flatMap (fun b =>
    [ { addr := self.addrOf b, ramsection := CTRL, subreg := PIC,
        subregdata := pictureData },
      { addr := self.addrOf b, ramsection := CTRL, subreg := CURSRC,
        subregdata := currsrcData },
      { addr := self.addrOf b, ramsection := CTRL, subreg := DISPLAYO,
        subregdata := displayData } ]) ++
  (List.range self._beamCount).map (fun b =>
    { addr := self.addrOf b, ramsection := CTRL, subreg := SHDN, subregdata := 0x03 })

/-! ## Initialisation and the render calls -/

/-- `Beam::initializeBeam(baddr)` with register array `cs`. -/
def initializeBeam (cs : List Nat) (baddr : Nat) : List WriteCmd :=
  ({ addr := baddr, ramsection := CTRL, subreg := CFG, subregdata := 0x01 } : WriteCmd) ::
  ((List.range 36).flatMap (fun i => writeFrame cs baddr i) ++
   (List.range 6).flatMap (fun d =>
     (List.range 0x18).map (fun j =>
       ({ addr := baddr, ramsection := 0x40 + d, subreg := j, subregdata := 0x00 } : WriteCmd)) ++
     (List.range (0x9c - 0x18)).map (fun e =>
       ({ addr := baddr, ramsection := 0x40 + d, subreg := 0x18 + e,
          subregdata := 0xFF } : WriteCmd))))

/-- `Beam::initBeam()`. -/
def Beam.initBeam (self : Beam) : List WriteCmd :=
  (List.range self._beamCount).flatMap (fun b => initializeBeam self.cs (self.addrOf b))

/-- What a call of `print` does, in order: the writes of `initBeam` and of the
frame-clearing loop, the frames flushed by the rendering loop, the writes of
`setPrintDefaults`, and the object after the call. -/
structure PrintResult where
  setup : List WriteCmd
  flushes : List Flush
  config : List WriteCmd
  beam : Beam

/-- `Beam::print(text)`; `text` is the bytes of the C string before its
terminator. -/
def Beam.print (self : Beam) (font : Font) (text : List Nat) : PrintResult :=
  let init := self.initBeam
  let self : Beam := { self with cs := List.replicate 12 0 }
  let clear := (List.range 36).flatMap (fun i =>
    (List.range self._beamCount).flatMap (fun b => writeFrame self.cs (self.addrOf b) i))
  let loop := printLoop font text { beam := self, frame := 0, cscount := 0 }
  let cfg := loop.2.beam.setPrintDefaults SCROLL 0 6 7 5 1 0
  { setup := init ++ clear, flushes := loop.1, config := cfg.1, beam := cfg.2 }

/-- All `sendWriteCmd` calls of a `print`, in order. -/
def PrintResult.cmds (r : PrintResult) : List WriteCmd :=
  r.setup ++ r.flushes.flatMap Flush.cmds ++ r.config

/-- An animation frame written by `draw`: the loop index `i`, the converted
`cs[]`, and the calls `writeFrame(addr, f)` in order. -/
structure DrawFrame where
  index : Nat
  cs : List Nat
  calls : List (Nat × Nat)
  deriving DecidableEq

/-- The loop `for (i = 0; i < 36; ++i)` of `draw`, from index `i` for `fuel`
iterations; `frameList` gives each animation bitmap as offset-to-byte. The
store `_lastFrameWrite = i + _beamCount - 1` into a `uint8_t` is
`(i + _beamCount + 255) % 256`. -/
def drawLoop (frameList : Nat → Nat → Nat) : Nat → Nat → Beam → List DrawFrame × Beam
  | 0, _, self => ([], self)
  | fuel + 1, i, self =>
    let cs := convertFrame self.segmentmask (frameList i) self.cs
    let calls := (List.range self._beamCount).map
      (fun b => (self.addrOf b, (i + (self._beamCount - 1 - b)) % 256))
    let self : Beam := { self with
      cs := List.replicate 12 0
      _lastFrameWrite := (i + self._beamCount + 255) % 256 }
    let tail := drawLoop frameList fuel (i + 1) self
    ({ index := i, cs := cs, calls := calls } :: tail.1, tail.2)

/-- What a call of `draw` does: the writes of `initBeam`, the frames written,
the writes of `setPrintDefaults`, and the object after the call. -/
structure DrawResult where
  setup : List WriteCmd
  frames : List DrawFrame
  config : List WriteCmd
  beam : Beam

/-- `Beam::draw()`. -/
def Beam.draw (self : Beam) (frameList : Nat → Nat → Nat) : DrawResult :=
  let init := self.initBeam
  let loop := drawLoop frameList 36 0 self
  let cfg := loop.2.setPrintDefaults MOVIE 1 20 7 2 1 0
  { setup := init, frames := loop.1, config := cfg.1, beam := cfg.2 }

/-- The object storage with every member zero (a statically allocated `Beam`
before its constructor runs). -/
def Beam.zeroed : Beam :=
  { BEAM := 0, cs := List.replicate 12 0, segmentmask := List.replicate 8 0,
    cscolumn := List.replicate 25 0, activeBeams := 0, _gblMode := 0, _syncMode := 0,
    _lastFrameWrite := 0, _scrollMode := 0, _scrollDir := 0, _fadeMode := 0,
    _frameDelay := 0, _beamMode := 0, _numLoops := 0, _beamCount := 0 }

/-! ## The frame-targeted variant `printFrame` -/

/-- Character selection at the head of the loop of `printFrame` (the source
repeats the code of `print`): `some row` when `fontptr` is set to
`charactermap[row]`, `none` for the branch `i++; continue;`. -/
def resolveCharFrame (c : Nat) : Option Nat :=
  let asciiVal := toupper c
  if 32 ≤ asciiVal ∧ asciiVal ≤ 96 then some (asciiVal - 32)
  else if c = 0xC3 then none
  else if c = 0x84 ∨ c = 0xA4 then some 65
  else if c = 0x96 ∨ c = 0xB6 then some 66
  else if c = 0x9C ∨ c = 0xBC then some 67
  else if c = 0x9F then some 68
  else some 0

/-- The flush block of `printFrame`: pack `cs[]`, `writeFrame(BEAM[b], frame)` for
every chip, clear `cs[]` and `cscolumn[]`; then `frame++` and
`_lastFrameWrite = frame` (the incremented value, stored in a `uint8_t`). -/
def flushTargetFrame (self : Beam) (frame : Nat) : Flush × Beam :=
  let cs := packColumns self.cs self.cscolumn
  let calls := (List.range self._beamCount).map (fun b => (self.addrOf b, frame % 256))
  let cleared := clearLoop cs self.cscolumn
  ({ frame := frame, columns := self.cscolumn.take 24, cs := cs, calls := calls },
   { self with
     cs := cleared.1
     cscolumn := cleared.2
     _lastFrameWrite := (frame + 1) % 256 })

/-- What a call of `printFrame` does, in order: the frames flushed, the writes
of `setPrintDefaults` (none when the loop runs to its end without the early
return), whether the early `return` was taken, and the object after the call. -/
structure PrintFrameResult where
  flushes : List Flush
  config : List WriteCmd
  returnedEarly : Bool
  beam : Beam

/-- The loop `while ((i < stringLen) && frame < 36) { ... }` of `printFrame`
over the bytes of `text` from index `i` on. -/
def printFrameLoop (font : Font) (frameToPrint : Nat) :
    List Nat → LoopState → PrintFrameResult
  | [], st => { flushes := [], config := [], returnedEarly := false, beam := st.beam }
  | c :: rest, st =>
    if st.frame < 36 then
      match resolveCharFrame c with
      | none => printFrameLoop font frameToPrint rest st
      | some row =>
        let filled := fillLoop st.beam.cscolumn st.cscount (font row)
        let st : LoopState := { st with beam := { st.beam with cscolumn := filled.1 },
                                        cscount := filled.2.1 }
        if st.cscount > 23 then
          let fl := flushTargetFrame st.beam st.frame
          let st : LoopState := { beam := fl.2, frame := st.frame + 1, cscount := 0 }
          if frameToPrint ≠ 0 ∧ st.frame > frameToPrint then
            let cfg := st.beam.setPrintDefaults SCROLL 0 st.beam._lastFrameWrite 7 15 1 1
            { flushes := [fl.1], config := cfg.1, returnedEarly := true, beam := cfg.2 }
          else
            let tail := printFrameLoop font frameToPrint rest st
            { tail with flushes := fl.1 :: tail.flushes }
        else printFrameLoop font frameToPrint rest st
    else { flushes := [], config := [], returnedEarly := false, beam := st.beam }

/-- `Beam::printFrame(frameToPrint, text)`; `frameToPrint` is a byte. -/
def Beam.printFrame (self : Beam) (font : Font) (frameToPrint : Nat) (text : List Nat) :
    PrintFrameResult :=
  printFrameLoop font frameToPrint text { beam := self, frame := frameToPrint, cscount := 0 }

/-! ## Playback configuration calls -/

/-- `Beam::setScroll(direction, fade)`: the `sendWriteCmd` calls and the object
after the call. -/
def Beam.setScroll (self : Beam) (direction fade : Nat) : List WriteCmd × Beam :=
  if direction ≠ RIGHT ∧ direction ≠ LEFT then ([], self)
  else
    let self : Beam := { self with _scrollDir := direction, _fadeMode := fade, _scrollMode := 1 }
    let frameData := (self._fadeMode <<< 7 ||| self._scrollDir <<< 6 ||| 0 <<< 5
      ||| self._scrollMode <<< 4 ||| self._frameDelay) % 256
    ((List.range self._beamCount).map (fun b =>
        { addr := self.addrOf b, ramsection := CTRL, subreg := FRAMETIME,
          subregdata := frameData }),
     self)

/-- `Beam::setSpeed(speed)`. -/
def Beam.setSpeed (self : Beam) (speed : Nat) : List WriteCmd × Beam :=
  if speed < 1 ∨ 15 < speed then ([], self)
  else
    let self : Beam := { self with _scrollMode := if self._beamMode = MOVIE then 0 else 1 }
    let self : Beam := { self with _frameDelay := speed }
    let frameData := (self._fadeMode <<< 7 ||| self._scrollDir <<< 6 ||| 0 <<< 5
      ||| self._scrollMode <<< 4 ||| self._frameDelay) % 256
    ((List.range self._beamCount).map (fun b =>
        { addr := self.addrOf b, ramsection := CTRL, subreg := FRAMETIME,
          subregdata := frameData }),
     self)

/-- `Beam::setLoops(loops)`. -/
def Beam.setLoops (self : Beam) (loops : Nat) : List WriteCmd × Beam :=
  if loops < 1 ∨ 7 < loops then ([], self)
  else
    let self : Beam := { self with _numLoops := loops }
    let displayData := (self._numLoops <<< 5 ||| 0 <<< 4 ||| 0x0B) % 256
    ((List.range self._beamCount).map (fun b =>
        { addr := self.addrOf b, ramsection := CTRL, subreg := DISPLAYO,
          subregdata := displayData }),
     self)

/-- `Beam::setMode(mode)`. -/
def Beam.setMode (self : Beam) (mode : Nat) : List WriteCmd × Beam :=
  if mode ≠ MOVIE ∧ mode ≠ SCROLL then ([], self)
  else
    let self : Beam := { self with _beamMode := mode }
    let frameData :=
      if mode = MOVIE then (0 <<< 7 ||| 0 <<< 6 ||| 0 <<< 5 ||| 0 <<< 4 ||| self._frameDelay) % 256
      else if mode = SCROLL then
        (self._fadeMode <<< 7 ||| self._scrollDir <<< 6 ||| 0 <<< 5
          ||| self._scrollMode <<< 4 ||| self._frameDelay) % 256
      else 0
    ((List.range self._beamCount).map (fun b =>
        { addr := self.addrOf b, ramsection := CTRL, subreg := FRAMETIME,
          subregdata := frameData }),
     self)

/-! ## Cascading start: `play` and `checkStatus` -/

/-- The expression `BEAM[idx]` for a signed index; an index that leaves the
address table reads as 0. -/
def Beam.addrAt (self : Beam) (idx : Int) : Nat :=
  if 0 ≤ (self.BEAM : Int) + idx then BEAM_ADDRESS.getD ((self.BEAM : Int) + idx).toNat 0 else 0

/-- The call `sendWriteCmd(BEAM[idx], CTRL, SHDN, 0x03)` that starts a chip. -/
def Beam.startCmd (self : Beam) (idx : Int) : WriteCmd :=
  { addr := self.addrAt idx, ramsection := CTRL, subreg := SHDN, subregdata := 0x03 }

/-- What one call of `checkStatus` does: the chip index it reads the status
from, the chip index it starts (if any), its return value and the object after
the call. -/
structure StatusResult where
  readIndex : Int
  started : Option Int
  ret : Nat
  beam : Beam

/-- `Beam::checkStatus()`; `status` is the byte `sendReadCmd(BEAM[activeBeams - 1],
CTRL, 0x0F)` returns. The comparison is made in `int`; `--activeBeams` is a
`uint8_t` decrement. -/
def Beam.checkStatus (self : Beam) (status : Nat) : StatusResult :=
  let readIndex : Int := (self.activeBeams : Int) - 1
  if ((status >>> 2 : Nat) : Int) = (self._beamCount : Int) - (self.activeBeams : Int) + 1 then
    let activeBeams := (self.activeBeams + 255) % 256
    let started : Int := (activeBeams : Int) - 1
    if activeBeams ≤ 1 then
      { readIndex := readIndex, started := some started, ret := 1,
        beam := { self with activeBeams := self._beamCount } }
    else
      { readIndex := readIndex, started := some started, ret := 0,
        beam := { self with activeBeams := activeBeams } }
  else
    { readIndex := readIndex, started := none, ret := 0, beam := self }

/-- What a call of `play` has done when it returns: the chip indices it wrote
the start value to, in order, and the object after the call. -/
structure PlayResult where
  started : List Int
  beam : Beam

/-- The loop `while (checkStatus() != 1) { delay(10); }` of `play`; `reads` are
the status bytes the successive calls of `checkStatus` read. `none`: the loop
has not ended when the reads are used up. -/
def playLoop : List Nat → Beam → Option PlayResult
  | [], _ => none
  | status :: reads, self =>
    let r := self.checkStatus status
    if r.ret ≠ 1 then
      (playLoop reads r.beam).map
        (fun t => { t with started := r.started.toList ++ t.started })
    else some { started := r.started.toList, beam := r.beam }

/-- The chip index of the first `sendWriteCmd` of `play`: `_beamCount - 1` when
`_scrollDir == LEFT`, else 0. -/
def Beam.firstStart (self : Beam) : Int :=
  if self._scrollDir = LEFT then (self._beamCount : Int) - 1 else 0

/-- `Beam::play()` with the status bytes read by its polling loop. -/
def Beam.play (self : Beam) (reads : List Nat) : Option PlayResult :=
  let first : Int := self.firstStart
  if self._beamCount > 1 then
    (playLoop reads self).map (fun t => { t with started := first :: t.started })
  else some { started := [first], beam := self }

/-- The `sendWriteCmd` calls of a `play`, in order. -/
def PlayResult.cmds (r : PlayResult) : List WriteCmd :=
  r.started.map r.beam.startCmd

/-! ## Register transaction layer -/

/-- Bus-level outcome of one call of `sendWriteCmd`: the value of the static
`errCount` after the call, whether the data write `i2cwrite(addr, subreg,
subregdata)` was issued, and whether `_wire->reset()` was invoked. -/
structure WriteOutcome where
  errCount : Nat
  dataWritten : Bool
  reset : Bool
  deriving DecidableEq

/-- `Beam::sendWriteCmd` on the bus: `errCount` is the static counter at entry,
`selectStatus` the value `i2cwrite(addr, REGSEL, ramsection)` returns (0 is
success). -/
def sendWriteCmd (errCount selectStatus : Nat) : WriteOutcome :=
  if selectStatus = 0 then { errCount := 0, dataWritten := true, reset := false }
  else { errCount := errCount + 1, dataWritten := false, reset := decide (errCount > 50) }

/-- Successive calls of `sendWriteCmd`, given the status of each section-select
write. -/
def sendWriteRun : Nat → List Nat → List WriteOutcome
  | _, [] => []
  | errCount, selectStatus :: rest =>
    let out := sendWriteCmd errCount selectStatus
    out :: sendWriteRun out.errCount rest

/-- The bus as seen by one call of `sendReadCmd`: for each evaluation of the
wait-loop condition the pair (`_wire->available()`, `millis() - _ms`), then the
result of `_wire->available()` in the `if` that follows the loop, and the value
`_wire->read()` returns. -/
structure ReadOracle where
  polls : List (Bool × Nat)
  available : Bool
  received : Nat

/-- The wait loop `for (_ms = millis(); !_wire->available() && millis() - _ms < 250;
Particle.process());`: the number of `Particle.process()` calls; `none`: the loop
has not ended when the samples are used up. -/
def waitLoop : List (Bool × Nat) → Option Nat
  | [] => none
  | (avail, elapsed) :: rest =>
    if ¬ avail ∧ elapsed < 250 then (waitLoop rest).map (fun n => n + 1) else some 0

/-- What `sendReadCmd` returns: the byte, and the number of `_wire->reset()`
calls. -/
structure ReadOutcome where
  value : Nat
  resets : Nat
  deriving DecidableEq

/-- `Beam::sendReadCmd` on the bus. -/
def sendReadCmd (bus : ReadOracle) : Option ReadOutcome :=
  match waitLoop bus.polls with
  | none => none
  | some _ =>
    if bus.available then some { value := bus.received % 256, resets := 0 }
    else some { value := 0, resets := 1 }

/-! ## Reference notions used in the statements -/

/-- The glyph column stream of a text: the columns of the glyphs the bytes
resolve to, in string order (a skipped byte contributes nothing). -/
def glyphStream (font : Font) (text : List Nat) : List Nat :=
  text.flatMap (fun c =>
    match resolveChar c with
    | some row => glyphColumns (font row)
    | none => [])

/-- The column data of a list of flushed frames, concatenated in flush order. -/
def flushedColumns (fls : List Flush) : List Nat :=
  fls.flatMap Flush.columns

/-- A sample font table: every row is a glyph of three lit columns and one
blank kerning column, then the sentinel. -/
def sampleFont : Font := fun _ => [0x1F, 0x05, 0x1F, 0x00, 0xFF]

/-- An accumulator with a column value that does not fit in five bits:
`cscolumn[0] = 0x20`, every other entry zero. -/
def overwideColumns : List Nat := 0x20 :: List.replicate 24 0

/-- The value a chip reassembles for register `j` from the two data bytes
`writeFrame` sends for it (low byte, then bits 9:8). -/
def wireRegister (cmds : List WriteCmd) (j : Nat) : Nat :=
  (cmds.getD (2 * j) ⟨0, 0, 0, 0⟩).subregdata |||
    ((cmds.getD (2 * j + 1) ⟨0, 0, 0, 0⟩).subregdata <<< 8)

/-- Bit field [4:0] of a register value. -/
def fieldLow (r : Nat) : Nat := r &&& 0x1F

/-- Bit field [9:5] of a register value. -/
def fieldHigh (r : Nat) : Nat := (r >>> 5) &&& 0x1F

/-- Pixel of a 15-byte row-major bitmap (5 rows of 3 bytes, most significant
bit first): row `r`, column `x`. -/
def pixel (currentFrame : Nat → Nat) (r x : Nat) : Bool :=
  (currentFrame (3 * r + x / 8)).testBit (7 - x % 8)

/-- Column `x` of a bitmap as a five-bit column value, row `r` in bit `r`. -/
def bitmapColumn (currentFrame : Nat → Nat) (x : Nat) : Nat :=
  (List.range 5).foldl (fun acc r => acc ||| ((pixel currentFrame r x).toNat <<< r)) 0

/-- The 24 columns of a bitmap. -/
def bitmapColumns (currentFrame : Nat → Nat) : List Nat :=
  (List.range 24).map (bitmapColumn currentFrame)

/-- A sample animation bitmap (15 bytes). -/
def sampleBitmap : Nat → Nat :=
  fun n => [0x80, 0x00, 0x01, 0x40, 0xFF, 0x00, 0x00, 0x18, 0x00, 0x3C, 0x00, 0x81,
            0x00, 0x7E, 0xA5].getD n 0

/-- The term one loop iteration of `convertFrame` ORs into register `m` of
its group, at loop counter `y` and source offset `n`. -/
def transposeTerm (segmentmask : List Nat) (currentFrame : Nat → Nat) (m y n : Nat) : Nat :=
  (((currentFrame n &&& segmentmask.getD (2 * m + (if y < 6 then 1 else 0)) 0) % 65536)
      <<< (2 * m + 3 + (if y < 6 then 1 else 0))) >>> y

/-- What a transpose loop of `convertFrame` does to one register of its group:
the pair is (register value, source offset). -/
def registerFold (masks : List Nat) (fr : Nat → Nat) (m n0 wrap : Nat) :
    List Nat → Nat × Nat → Nat × Nat
  | [], st => st
  | y :: ys, st =>
    registerFold masks fr m n0 wrap ys
      ((st.1 ||| transposeTerm masks fr m y st.2) % 65536,
       if st.2 + 3 > wrap then n0 else st.2 + 3)

/-- A text of eleven printable bytes ("Hello World"). -/
def sampleText : List Nat := [72, 101, 108, 108, 111, 32, 87, 111, 114, 108, 100]

/-- An accumulator of 24 five-bit column values: six glyphs of `sampleFont`. -/
def sampleColumns : List Nat :=
  [0x1F, 0x05, 0x1F, 0x00, 0x1F, 0x05, 0x1F, 0x00, 0x1F, 0x05, 0x1F, 0x00,
   0x1F, 0x05, 0x1F, 0x00, 0x1F, 0x05, 0x1F, 0x00, 0x1F, 0x05, 0x1F, 0x00]

/-- The frame `print` flushes for the text "AB" on a group of two chips with
`sampleFont`. -/
def sampleFlush : Flush :=
  { frame := 0
    columns := [31, 5, 31, 0, 31, 5, 31, 0, 0, 0, 0, 0, 0, 0, 0, 0, 0, 0, 0, 0, 0, 0, 0, 0]
    cs := [191, 31, 191, 31, 0, 0, 0, 0, 0, 0, 0, 0]
    calls := [(0x36, 2), (0x34, 1)] }

/-- The indices at which the search loop of the single-address constructor
reads `BEAM_ADDRESS[b]`, in order. -/
def findAddressReads (beamAddress : Nat) : Nat → Nat → List Nat
  | 0, _ => []
  | fuel + 1, b =>
    if BEAM_ADDRESS.getD b 0 = beamAddress then [b]
    else b :: findAddressReads beamAddress fuel (b + 1)

/-- Character resolution in the words of the specification: with
`u = toupper c`, a byte with `32 ≤ u ≤ 96` is font row `u - 32`; otherwise the
lead byte 0xC3 contributes no glyph, the trail bytes select the accented rows,
and every other byte is the blank glyph, row 0. -/
def resolveCharSpec (c : Nat) : Option Nat :=
  if 32 ≤ toupper c ∧ toupper c ≤ 96 then some (toupper c - 32)
  else
    match c with
    | 0xC3 => none
    | 0x84 => some 65
    | 0xA4 => some 65
    | 0x96 => some 66
    | 0xB6 => some 66
    | 0x9C => some 67
    | 0xBC => some 67
    | 0x9F => some 68
    | _ => some 0

/-- A bus on which no data arrives: the wait of `sendReadCmd` ends when 250 ms
have passed. -/
def timeoutBus : ReadOracle :=
  { polls := [(false, 0), (false, 100), (false, 250)], available := false, received := 0 }

/-- A group of two chips after `begin()`. -/
def sampleGroup : Beam := (Beam.newGroup Beam.zeroed 2).begin

/-- A single chip after `begin()`. -/
def sampleSingle : Beam := (Beam.newGroup Beam.zeroed 1).begin

/-- The single-address object for the fourth table address, 0x37, after
`begin()`. -/
def sampleBeamD : Beam := (Beam.newSingle Beam.zeroed 0 0x37).begin

/-- Loop invariant of the rendering loop: the accumulator holds the pending
columns `pend` in its first `cscount` entries and zero elsewhere. -/
def Accumulating (st : LoopState) (pend : List Nat) : Prop :=
  st.cscount = pend.length ∧ pend.length < 24 ∧
    st.beam.cscolumn = pend ++ List.replicate (25 - pend.length) 0

/-! ## Auxiliary lemmas: loops over arrays -/

theorem foldl_set_range {α : Type} (f : Nat → α) :
    ∀ (n : Nat) (l : List α), n ≤ l.length →
      (List.range n).foldl (fun acc j => acc.set j (f j)) l
        = (List.range n).map f ++ l.drop n := by
  intro n
  induction n with
  | zero => intro l _; simp
  | succ n ih =>
    intro l hl
    have hn : n < l.length := by omega
    rw [List.range_succ, List.foldl_append, ih l (by omega)]
    simp only [List.foldl_cons, List.foldl_nil, List.map_append, List.map_cons, List.map_nil]
    rw [List.set_append_right _ _ (by simp)]
    simp only [List.length_map, List.length_range, Nat.sub_self, List.append_assoc,
      List.singleton_append]
    rw [List.drop_eq_getElem_cons hn]
    rfl

theorem initSegmentmask_eq (m : List Nat) (h : m.length = 8) : initSegmentmask m = [128,64,32,16,8,4,2,1] := by
  unfold initSegmentmask
  rw [foldl_set_range _ 8 m (by omega), List.drop_of_length_le (by omega)]
  decide



theorem convertRow_length (masks : List Nat) (fr : Nat → Nat) (k y n : Nat) (cs : List Nat) :
    (convertRow masks fr k y n cs).length = cs.length := by
  simp [convertRow]

theorem convertRow_getD (masks : List Nat) (fr : Nat → Nat) (k y n : Nat) (cs : List Nat)
    (hk : k + 3 < cs.length) (idx : Nat) :
    (convertRow masks fr k y n cs).getD idx 0 =
      if k ≤ idx ∧ idx < k + 4 then
        (cs.getD idx 0 ||| transposeTerm masks fr (idx - k) y n) % 65536
      else cs.getD idx 0 := by
  have h0 : k < cs.length := by omega
  have h1 : k + 1 < cs.length := by omega
  have h2 : k + 2 < cs.length := by omega
  by_cases e0 : idx = k
  · subst e0
    simp [convertRow, transposeTerm, List.getD_eq_getElem?_getD, List.getElem?_set, h0, h1, h2, hk]
  by_cases e1 : idx = k + 1
  · subst e1
    simp [convertRow, transposeTerm, List.getD_eq_getElem?_getD, List.getElem?_set, h0, h1, h2, hk]
  by_cases e2 : idx = k + 2
  · subst e2
    simp [convertRow, transposeTerm, List.getD_eq_getElem?_getD, List.getElem?_set, h0, h1, h2, hk]
  by_cases e3 : idx = k + 3
  · subst e3
    simp [convertRow, transposeTerm, List.getD_eq_getElem?_getD, List.getElem?_set, h0, h1, h2, hk]
  have hout : ¬ (k ≤ idx ∧ idx < k + 4) := by omega
  have n0 : ¬ (k = idx) := fun h => e0 h.symm
  have n1 : ¬ (k + 1 = idx) := fun h => e1 h.symm
  have n2 : ¬ (k + 2 = idx) := fun h => e2 h.symm
  have n3 : ¬ (k + 3 = idx) := fun h => e3 h.symm
  simp [convertRow, List.getD_eq_getElem?_getD, List.getElem?_set, hout, n0, n1, n2, n3]

theorem foldl_convert_getD (masks : List Nat) (fr : Nat → Nat) (k n0 wrap : Nat) (idx : Nat) :
    ∀ (ys : List Nat) (cs : List Nat) (n : Nat), k + 3 < cs.length →
      ((ys.foldl
        (fun (st : List Nat × Nat) y =>
          let cs := convertRow masks fr k y st.2 st.1
          let n := st.2 + 3
          (cs, if n > wrap then n0 else n))
        (cs, n)).1).getD idx 0 =
      if k ≤ idx ∧ idx < k + 4 then
        (registerFold masks fr (idx - k) n0 wrap ys (cs.getD idx 0, n)).1
      else cs.getD idx 0 := by
  intro ys
  induction ys with
  | nil => intro cs n _; simp [registerFold]
  | cons y ys ih =>
    intro cs n hk
    simp only [List.foldl_cons]
    rw [ih _ _ (by rw [convertRow_length]; exact hk)]
    rw [convertRow_getD masks fr k y n cs hk idx]
    by_cases hin : k ≤ idx ∧ idx < k + 4
    · simp only [hin, and_self, if_true, registerFold]
    · simp only [hin, if_false]

theorem convertPass_getD (masks : List Nat) (fr : Nat → Nat) (k n0 wrap : Nat) (cs : List Nat)
    (hk : k + 3 < cs.length) (idx : Nat) :
    (convertPass masks fr k n0 wrap cs).getD idx 0 =
      if k ≤ idx ∧ idx < k + 4 then
        (registerFold masks fr (idx - k) n0 wrap [10, 9, 8, 7, 6, 5, 4, 3, 2, 1]
          (cs.getD idx 0, n0)).1
      else cs.getD idx 0 := by
  unfold convertPass
  exact foldl_convert_getD masks fr k n0 wrap idx _ cs n0 hk

theorem foldl_convert_length (masks : List Nat) (fr : Nat → Nat) (k n0 wrap : Nat) :
    ∀ (ys : List Nat) (cs : List Nat) (n : Nat),
      ((ys.foldl
        (fun (st : List Nat × Nat) y =>
          let cs := convertRow masks fr k y st.2 st.1
          let n := st.2 + 3
          (cs, if n > wrap then n0 else n))
        (cs, n)).1).length = cs.length := by
  intro ys
  induction ys with
  | nil => intro cs n; rfl
  | cons y ys ih =>
    intro cs n
    simp only [List.foldl_cons]
    rw [ih, convertRow_length]

theorem convertPass_length (masks : List Nat) (fr : Nat → Nat) (k n0 wrap : Nat) (cs : List Nat) :
    (convertPass masks fr k n0 wrap cs).length = cs.length := by
  unfold convertPass
  exact foldl_convert_length masks fr k n0 wrap _ cs n0

theorem shifted_bit (b q s y j : Nat) (hq : q < 16) :
    ((((b &&& 2 ^ q) % 65536) <<< s) >>> y).testBit j = (decide (y + j = q + s) && b.testBit q) := by
  rw [show (65536 : Nat) = 2 ^ 16 from rfl]
  simp only [Nat.testBit_shiftRight, Nat.testBit_shiftLeft, Nat.testBit_mod_two_pow,
    Nat.testBit_and, Nat.testBit_two_pow]
  by_cases h : y + j = q + s
  · have e : y + j - s = q := by omega
    have g : y + j ≥ s := by omega
    simp [h, e, g, hq]
  · by_cases g : y + j ≥ s
    · have e : ¬ (q = y + j - s) := by omega
      simp [h, e]
    · simp [h, g]

theorem transposeTerm_testBit (fr : Nat → Nat) (m y n j : Nat) (hm : m < 4) :
    (transposeTerm [128, 64, 32, 16, 8, 4, 2, 1] fr m y n).testBit j =
      (decide (y + j = 10) && (fr n).testBit (7 - (2 * m + (if y < 6 then 1 else 0)))) := by
  unfold transposeTerm
  by_cases hy : y < 6
  · interval_cases m
    · simpa [hy] using shifted_bit (fr n) 6 4 y j (by omega)
    · simpa [hy] using shifted_bit (fr n) 4 6 y j (by omega)
    · simpa [hy] using shifted_bit (fr n) 2 8 y j (by omega)
    · simpa [hy] using shifted_bit (fr n) 0 10 y j (by omega)
  · interval_cases m
    · simpa [hy] using shifted_bit (fr n) 7 3 y j (by omega)
    · simpa [hy] using shifted_bit (fr n) 5 5 y j (by omega)
    · simpa [hy] using shifted_bit (fr n) 3 7 y j (by omega)
    · simpa [hy] using shifted_bit (fr n) 1 9 y j (by omega)

theorem testBit_mod_65536 (x j : Nat) :
    (x % 65536).testBit j = (decide (j < 16) && x.testBit j) :=
  Nat.testBit_mod_two_pow x 16 j

theorem registerFold_testBit (fr : Nat → Nat) (m n0 j : Nat) (hm : m < 4) (hn : n0 < 3) :
    ((registerFold [128, 64, 32, 16, 8, 4, 2, 1] fr m n0 (12 + n0)
        [10, 9, 8, 7, 6, 5, 4, 3, 2, 1] (0, n0)).1).testBit j =
      if j < 5 then (fr (n0 + 3 * j)).testBit (7 - 2 * m)
      else if j < 10 then (fr (n0 + 3 * (j - 5))).testBit (6 - 2 * m)
      else false := by
  have key : ∀ y n, (transposeTerm [128, 64, 32, 16, 8, 4, 2, 1] fr m y n).testBit j =
      (decide (y + j = 10) && (fr n).testBit (7 - (2 * m + (if y < 6 then 1 else 0)))) :=
    fun y n => transposeTerm_testBit fr m y n j hm
  by_cases h10 : j < 10
  · interval_cases n0 <;>
      simp only [registerFold, testBit_mod_65536, Nat.testBit_or, Nat.zero_testBit, key,
        Nat.reduceAdd, Nat.reduceGT, Nat.reduceLT, if_true, if_false, reduceIte] <;>
      interval_cases j <;> simp
  · have h5 : ¬ (j < 5) := by omega
    interval_cases n0 <;>
      simp [registerFold, testBit_mod_65536, transposeTerm_testBit, hm, h10, h5] <;> omega

theorem bitmapColumn_testBit (fr : Nat → Nat) (x j : Nat) :
    (bitmapColumn fr x).testBit j = (decide (j < 5) && pixel fr j x) := by
  unfold bitmapColumn
  simp only [List.range, List.range.loop, List.foldl_cons, List.foldl_nil, Nat.testBit_or,
    Nat.zero_testBit, Nat.testBit_shiftLeft, Nat.testBit_bool_to_nat]
  by_cases h : j < 5
  · interval_cases j <;> simp
  · have h1 : ¬ (j - 1 = 0) := by omega
    have h2 : ¬ (j - 2 = 0) := by omega
    have h3 : ¬ (j - 3 = 0) := by omega
    have h4 : ¬ (j - 4 = 0) := by omega
    have h0 : ¬ (j = 0) := by omega
    simp [h, h0, h1, h2, h3, h4]

theorem convertFrame_getD (fr : Nat → Nat) (k : Nat) (hk : k < 12) :
    (convertFrame [128, 64, 32, 16, 8, 4, 2, 1] fr (List.replicate 12 0)).getD k 0 =
      (registerFold [128, 64, 32, 16, 8, 4, 2, 1] fr (k % 4) (k / 4) (12 + k / 4)
        [10, 9, 8, 7, 6, 5, 4, 3, 2, 1] (0, k / 4)).1 := by
  unfold convertFrame
  simp only []
  rw [convertPass_getD _ _ _ _ _ _ (by simp [convertPass_length]),
    convertPass_getD _ _ _ _ _ _ (by simp [convertPass_length]),
    convertPass_getD _ _ _ _ _ _ (by simp)]
  interval_cases k <;> simp

theorem convertFrame_testBit (fr : Nat → Nat) (k j : Nat) (hk : k < 12) :
    ((convertFrame [128, 64, 32, 16, 8, 4, 2, 1] fr (List.replicate 12 0)).getD k 0).testBit j =
      if j < 5 then pixel fr j (2 * k)
      else if j < 10 then pixel fr (j - 5) (2 * k + 1)
      else false := by
  rw [convertFrame_getD fr k hk, registerFold_testBit fr _ _ j (Nat.mod_lt _ (by omega)) (by omega)]
  unfold pixel
  have e1 : ∀ r, 3 * r + 2 * k / 8 = k / 4 + 3 * r := by intro r; omega
  have e2 : ∀ r, 3 * r + (2 * k + 1) / 8 = k / 4 + 3 * r := by intro r; omega
  have e3 : 7 - 2 * k % 8 = 7 - 2 * (k % 4) := by omega
  have e4 : 7 - (2 * k + 1) % 8 = 6 - 2 * (k % 4) := by omega
  rw [e1, e2, e3, e4]

/-! ## Auxiliary lemmas: the wire format -/


theorem wire_low_ten (x : Nat) :
    (x &&& 0xFF) ||| (((x &&& 0x300) >>> 8) <<< 8) = x % 1024 := by
  apply Nat.eq_of_testBit_eq
  intro i
  rw [show (0xFF : Nat) = 2 ^ 8 - 1 from rfl, show (0x300 : Nat) = (2 ^ 2 - 1) <<< 8 from rfl,
    show (1024 : Nat) = 2 ^ 10 from rfl]
  simp only [Nat.testBit_or, Nat.testBit_and, Nat.testBit_shiftLeft, Nat.testBit_shiftRight,
    Nat.testBit_two_pow_sub_one, Nat.testBit_mod_two_pow]
  by_cases h8 : i < 8
  · have : ¬ (i ≥ 8) := by omega
    have h10 : i < 10 := by omega
    simp [h8, this, h10]
  · have h8' : i ≥ 8 := by omega
    by_cases h10 : i < 10
    · have e : 8 + (i - 8) = i := by omega
      have : i - 8 < 2 := by omega
      simp [h8, h8', h10, e, this]
    · have : ¬ (i - 8 < 2) := by omega
      simp [h8, h8', h10, this]

theorem low_field (c0 c1 : Nat) :
    ((c0 ||| c1 <<< 5) % 65536 % 1024) &&& 0x1F = c0 &&& 0x1F := by
  apply Nat.eq_of_testBit_eq
  intro i
  rw [show (0x1F : Nat) = 2 ^ 5 - 1 from rfl, show (65536 : Nat) = 2 ^ 16 from rfl,
    show (1024 : Nat) = 2 ^ 10 from rfl]
  simp only [Nat.testBit_or, Nat.testBit_and, Nat.testBit_shiftLeft, Nat.testBit_shiftRight,
    Nat.testBit_two_pow_sub_one, Nat.testBit_mod_two_pow]
  by_cases h5 : i < 5
  · have : ¬ (i ≥ 5) := by omega
    have h10 : i < 10 := by omega
    have h16 : i < 16 := by omega
    simp [h5, this, h10, h16]
  · simp [h5]

theorem high_field (c0 c1 : Nat) :
    (((c0 ||| c1 <<< 5) % 65536 % 1024) >>> 5) &&& 0x1F = ((c0 >>> 5) ||| c1) &&& 0x1F := by
  apply Nat.eq_of_testBit_eq
  intro i
  rw [show (0x1F : Nat) = 2 ^ 5 - 1 from rfl, show (65536 : Nat) = 2 ^ 16 from rfl,
    show (1024 : Nat) = 2 ^ 10 from rfl]
  simp only [Nat.testBit_or, Nat.testBit_and, Nat.testBit_shiftLeft, Nat.testBit_shiftRight,
    Nat.testBit_two_pow_sub_one, Nat.testBit_mod_two_pow]
  by_cases h5 : i < 5
  · have h10 : 5 + i < 10 := by omega
    have h16 : 5 + i < 16 := by omega
    have e : 5 + i - 5 = i := by omega
    have : 5 + i ≥ 5 := by omega
    simp [h5, this, h10, h16, e]
  · simp [h5]

theorem packColumns_eq (cs cscolumn : List Nat) (h : cs.length = 12) :
    packColumns cs cscolumn = (List.range 12).map (fun j =>
      (cscolumn.getD (j * 2) 0 ||| (cscolumn.getD (j * 2 + 1) 0 <<< 5)) % 65536) := by
  unfold packColumns
  rw [foldl_set_range _ 12 cs (by omega)]
  rw [List.drop_of_length_le (by omega)]
  simp

theorem packColumns_getD (cs cscolumn : List Nat) (h : cs.length = 12) (j : Nat) (hj : j < 12) :
    (packColumns cs cscolumn).getD j 0 =
      (cscolumn.getD (j * 2) 0 ||| (cscolumn.getD (j * 2 + 1) 0 <<< 5)) % 65536 := by
  rw [packColumns_eq cs cscolumn h]
  simp [List.getD_eq_getElem?_getD, hj]


/-! ## Auxiliary lemmas: the accumulator and the rendering loop -/


theorem foldl_pair {α β γ : Type} (f : α → γ → α) (g : β → γ → β) :
    ∀ (xs : List γ) (a : α) (b : β),
      xs.foldl (fun (st : α × β) x => (f st.1 x, g st.2 x)) (a, b)
        = (xs.foldl f a, xs.foldl g b) := by
  intro xs
  induction xs with
  | nil => intro a b; rfl
  | cons x xs ih => intro a b; simp only [List.foldl_cons, ih]

theorem foldl_set_pairs (v : Nat) :
    ∀ (n : Nat) (l : List Nat),
      (List.range n).foldl (fun c x => (c.set (x * 2) v).set (x * 2 + 1) v) l
        = (List.range (2 * n)).foldl (fun c j => c.set j v) l := by
  intro n
  induction n with
  | zero => intro l; rfl
  | succ n ih =>
    intro l
    rw [List.range_succ, List.foldl_append, ih,
      show 2 * (n + 1) = (2 * n + 1) + 1 from by omega, List.range_succ, List.range_succ,
      List.foldl_append, List.foldl_append]
    simp [Nat.mul_comm]

theorem clearLoop_snd (cs cscolumn : List Nat) (h : 24 ≤ cscolumn.length) :
    (clearLoop cs cscolumn).2 = List.replicate 24 0 ++ cscolumn.drop 24 := by
  unfold clearLoop
  rw [foldl_pair (fun (c : List Nat) x => c.set x 0x00)
    (fun (c : List Nat) x => (c.set (x * 2) 0x00).set (x * 2 + 1) 0x00)]
  simp only []
  rw [foldl_set_pairs 0 12 cscolumn, foldl_set_range (fun _ => 0) 24 cscolumn h]
  rfl

theorem clearLoop_fst (cs cscolumn : List Nat) (h : cs.length = 12) :
    (clearLoop cs cscolumn).1 = List.replicate 12 0 := by
  unfold clearLoop
  rw [foldl_pair (fun (c : List Nat) x => c.set x 0x00)
    (fun (c : List Nat) x => (c.set (x * 2) 0x00).set (x * 2 + 1) 0x00)]
  simp only []
  rw [foldl_set_range (fun _ => 0) 12 cs (by omega), List.drop_of_length_le (by omega)]
  rfl

theorem glyphColumns_cons_pos (v : Nat) (fp : List Nat) (h : v ≠ 0xFF) :
    glyphColumns (v :: fp) = v :: glyphColumns fp := by
  simp [glyphColumns, List.takeWhile_cons, h]

theorem glyphColumns_cons_neg (fp : List Nat) : glyphColumns (0xFF :: fp) = [] := by
  simp [glyphColumns, List.takeWhile_cons]

theorem glyphColumns_drop : ∀ (fp : List Nat) (n : Nat), n ≤ (glyphColumns fp).length →
    glyphColumns (fp.drop n) = (glyphColumns fp).drop n := by
  intro fp
  induction fp with
  | nil => intro n _; simp [glyphColumns]
  | cons v fp ih =>
    intro n hn
    cases n with
    | zero => rfl
    | succ n =>
      by_cases hv : v = 0xFF
      · subst hv
        rw [glyphColumns_cons_neg] at hn
        simp at hn
      · rw [glyphColumns_cons_pos v fp hv] at hn ⊢
        simp only [List.drop_succ_cons]
        exact ih n (by simpa using hn)

theorem headD_ne_sentinel (fp : List Nat) :
    fp.headD 0xFF ≠ 0xFF ↔ glyphColumns fp ≠ [] := by
  cases fp with
  | nil => simp [glyphColumns]
  | cons v fp =>
    by_cases hv : v = 0xFF
    · subst hv; simp [glyphColumns_cons_neg]
    · simp [glyphColumns_cons_pos v fp hv, hv]

theorem fillLoop_spec : ∀ (fp pend : List Nat) (z : Nat),
    pend.length ≤ 24 → 24 - pend.length ≤ z →
    fillLoop (pend ++ List.replicate z 0) pend.length fp =
      (pend ++ (glyphColumns fp).take (24 - pend.length)
          ++ List.replicate (z - min (24 - pend.length) (glyphColumns fp).length) 0,
       pend.length + min (24 - pend.length) (glyphColumns fp).length,
       fp.drop (min (24 - pend.length) (glyphColumns fp).length)) := by
  intro fp
  induction fp with
  | nil => intro pend z _ _; simp [fillLoop, glyphColumns]
  | cons v fp ih =>
    intro pend z hlen hz
    unfold fillLoop
    by_cases hc : pend.length < 24 ∧ v ≠ 0xFF
    · rw [if_pos hc]
      obtain ⟨hlt, hv⟩ := hc
      have hz1 : 1 ≤ z := by omega
      have hset : (pend ++ List.replicate z 0).set pend.length v
          = (pend ++ [v]) ++ List.replicate (z - 1) 0 := by
        rw [List.set_append_right _ _ (Nat.le_refl _), Nat.sub_self]
        obtain ⟨z', rfl⟩ : ∃ z', z = z' + 1 := ⟨z - 1, by omega⟩
        simp [List.replicate_succ]
      have hl : (pend ++ [v]).length = pend.length + 1 := by simp
      rw [hset, ← hl, ih (pend ++ [v]) (z - 1) (by rw [hl]; omega) (by rw [hl]; omega)]
      rw [glyphColumns_cons_pos v fp hv, hl]
      have e1 : 24 - pend.length = (24 - (pend.length + 1)) + 1 := by omega
      have e2 : min (24 - pend.length) ((v :: glyphColumns fp).length)
          = min (24 - (pend.length + 1)) (glyphColumns fp).length + 1 := by
        simp only [List.length_cons]; omega
      rw [e2]
      refine Prod.ext ?_ (Prod.ext ?_ ?_)
      · simp only []
        rw [e1, List.take_succ_cons]
        have : z - 1 - min (24 - (pend.length + 1)) (glyphColumns fp).length
            = z - (min (24 - (pend.length + 1)) (glyphColumns fp).length + 1) := by omega
        rw [this]
        simp
      · simp only []; omega
      · simp only [List.drop_succ_cons]
    · rw [if_neg hc]
      by_cases hlt : pend.length < 24
      · have hv : v = 0xFF := by
          by_contra h; exact hc ⟨hlt, h⟩
        subst hv
        simp [glyphColumns_cons_neg]
      · have : 24 - pend.length = 0 := by omega
        simp [this]

theorem flushFrame_columns (self : Beam) (frame : Nat) :
    (flushFrame self frame).1.columns = self.cscolumn.take 24 := by
  simp only [flushFrame]

theorem flushFrame_frame (self : Beam) (frame : Nat) :
    (flushFrame self frame).1.frame = frame := by
  simp only [flushFrame]

theorem flushFrame_calls (self : Beam) (frame : Nat) :
    (flushFrame self frame).1.calls = (List.range self._beamCount).map
      (fun b => (self.addrOf b, (frame + (self._beamCount - b)) % 256)) := by
  simp only [flushFrame]

theorem flushFrame_cscolumn (self : Beam) (frame : Nat) (h : 24 ≤ self.cscolumn.length) :
    (flushFrame self frame).2.cscolumn = List.replicate 24 0 ++ self.cscolumn.drop 24 := by
  simp only [flushFrame]
  exact clearLoop_snd _ _ h

theorem flushFrame_beamCount (self : Beam) (frame : Nat) :
    (flushFrame self frame).2._beamCount = self._beamCount := by
  simp only [flushFrame]

theorem flushFrame_BEAM (self : Beam) (frame : Nat) :
    (flushFrame self frame).2.BEAM = self.BEAM := by
  simp only [flushFrame]

/-- Columns of an accumulator that holds `pend` and is zero elsewhere. -/
theorem take_pending (pend : List Nat) (h : pend.length ≤ 24) :
    (pend ++ List.replicate (25 - pend.length) 0).take 24
      = pend ++ List.replicate (24 - pend.length) 0 := by
  rw [List.take_append_eq_append_take, List.take_of_length_le h, List.take_replicate]
  congr 2
  omega

theorem drop_pending (pend : List Nat) (h : pend.length ≤ 24) :
    (pend ++ List.replicate (25 - pend.length) 0).drop 24 = [0] := by
  rw [List.drop_append_eq_append_drop, List.drop_of_length_le h, List.drop_replicate]
  have : 25 - pend.length - (24 - pend.length) = 1 := by omega
  rw [this]
  rfl

theorem renderChar_spec (fontptr : List Nat) (st : LoopState) (pend : List Nat)
    (hinv : Accumulating st pend) (hg : (glyphColumns fontptr).length ≤ 24) :
    ∃ pend', Accumulating (renderChar fontptr st).2 pend' ∧
      flushedColumns (renderChar fontptr st).1 ++ pend' = pend ++ glyphColumns fontptr ∧
      (renderChar fontptr st).2.frame = st.frame + (renderChar fontptr st).1.length ∧
      24 * (renderChar fontptr st).1.length + pend'.length
        = pend.length + (glyphColumns fontptr).length := by
  obtain ⟨beam, frame, cscount⟩ := st
  obtain ⟨hcnt, hlt, hcols⟩ := hinv
  have hcnt' : cscount = pend.length := hcnt
  have hcols' : beam.cscolumn = pend ++ List.replicate (25 - pend.length) 0 := hcols
  clear hcnt hcols
  subst hcnt'
  change ∃ pend', Accumulating (renderChar fontptr ⟨beam, frame, pend.length⟩).2 pend' ∧
      flushedColumns (renderChar fontptr ⟨beam, frame, pend.length⟩).1 ++ pend'
        = pend ++ glyphColumns fontptr ∧
      (renderChar fontptr ⟨beam, frame, pend.length⟩).2.frame
        = frame + (renderChar fontptr ⟨beam, frame, pend.length⟩).1.length ∧
      24 * (renderChar fontptr ⟨beam, frame, pend.length⟩).1.length + pend'.length
        = pend.length + (glyphColumns fontptr).length
  have hfill := fillLoop_spec fontptr pend (25 - pend.length) (by omega) (by omega)
  rw [← hcols'] at hfill
  by_cases hfit : pend.length + (glyphColumns fontptr).length < 24
  · -- the glyph fits: no flush
    have hmin : min (24 - pend.length) (glyphColumns fontptr).length
        = (glyphColumns fontptr).length := by omega
    have hno : ¬ (pend.length + (glyphColumns fontptr).length > 23) := by omega
    refine ⟨pend ++ glyphColumns fontptr, ?_, ?_, ?_, ?_⟩
    · simp only [renderChar, hfill, hmin, hno, if_false]
      refine ⟨by simp, by simp; omega, ?_⟩
      simp only []
      rw [List.take_of_length_le (by omega)]
      congr 1
      simp; omega
    · simp [renderChar, hfill, hmin, hno, flushedColumns]
    · simp [renderChar, hfill, hmin, hno]
    · simp [renderChar, hfill, hmin, hno]
  · -- the glyph completes the frame: flush and wrap-continuation
    have hmin : min (24 - pend.length) (glyphColumns fontptr).length = 24 - pend.length := by omega
    have hyes : pend.length + (24 - pend.length) > 23 := by omega
    have hg' : glyphColumns (fontptr.drop (24 - pend.length))
        = (glyphColumns fontptr).drop (24 - pend.length) :=
      glyphColumns_drop fontptr _ (by omega)
    have hP : (pend ++ (glyphColumns fontptr).take (24 - pend.length)).length = 24 := by
      simp; omega
    have hcols1 : pend ++ (glyphColumns fontptr).take (24 - pend.length)
          ++ List.replicate (25 - pend.length - (24 - pend.length)) 0
        = (pend ++ (glyphColumns fontptr).take (24 - pend.length))
          ++ List.replicate (25 - (pend ++ (glyphColumns fontptr).take (24 - pend.length)).length) 0 := by
      rw [hP]; congr 2; omega
    have htake := take_pending (pend ++ (glyphColumns fontptr).take (24 - pend.length)) (by omega)
    have hdrop := drop_pending (pend ++ (glyphColumns fontptr).take (24 - pend.length)) (by omega)
    rw [← hcols1] at htake hdrop
    rw [hP] at htake
    simp only [Nat.sub_self, List.replicate_zero, List.append_nil] at htake
    have hlen1 : 24 ≤ (pend ++ (glyphColumns fontptr).take (24 - pend.length)
          ++ List.replicate (25 - pend.length - (24 - pend.length)) 0).length := by
      simp; omega
    refine ⟨(glyphColumns fontptr).drop (24 - pend.length), ?_, ?_, ?_, ?_⟩
    · simp only [renderChar, hfill, hmin, hyes, if_true]
      by_cases hh : (fontptr.drop (24 - pend.length)).headD 0xFF ≠ 0xFF
      · rw [if_pos hh]
        simp only []
        rw [flushFrame_cscolumn _ _ hlen1, hdrop]
        have hfill2 := fillLoop_spec (fontptr.drop (24 - pend.length)) [] 25 (by simp) (by simp)
        simp only [List.nil_append, List.length_nil, Nat.sub_zero, Nat.zero_add] at hfill2
        rw [show List.replicate 24 0 ++ [0] = List.replicate 25 0 from rfl, hfill2, hg']
        have hl : ((glyphColumns fontptr).drop (24 - pend.length)).length < 24 := by
          simp; omega
        refine ⟨by simp only []; omega, hl, ?_⟩
        simp only []
        rw [List.take_of_length_le (by omega)]
        congr 2
        omega
      · rw [if_neg hh]
        have hnil : (glyphColumns fontptr).drop (24 - pend.length) = [] := by
          rw [← hg']
          by_contra hne
          exact hh ((headD_ne_sentinel _).mpr hne)
        rw [hnil]
        refine ⟨rfl, by simp, ?_⟩
        simp only []
        rw [flushFrame_cscolumn _ _ hlen1, hdrop]
        rfl
    · have hfl : flushedColumns (renderChar fontptr ⟨beam, frame, pend.length⟩).1
          = pend ++ (glyphColumns fontptr).take (24 - pend.length) := by
        simp only [renderChar, hfill, hmin, hyes, if_true]
        by_cases hh : (fontptr.drop (24 - pend.length)).headD 0xFF ≠ 0xFF
        · rw [if_pos hh]
          simp only [flushedColumns, List.flatMap_cons, List.flatMap_nil, List.append_nil,
            flushFrame_columns]
          exact htake
        · rw [if_neg hh]
          simp only [flushedColumns, List.flatMap_cons, List.flatMap_nil, List.append_nil,
            flushFrame_columns]
          exact htake
      rw [hfl, List.append_assoc, List.take_append_drop]
    · simp only [renderChar, hfill, hmin, hyes, if_true]
      by_cases hh : (fontptr.drop (24 - pend.length)).headD 0xFF ≠ 0xFF
      · rw [if_pos hh]; rfl
      · rw [if_neg hh]; rfl
    · have hlen : (renderChar fontptr ⟨beam, frame, pend.length⟩).1.length = 1 := by
        simp only [renderChar, hfill, hmin, hyes, if_true]
        by_cases hh : (fontptr.drop (24 - pend.length)).headD 0xFF ≠ 0xFF
        · rw [if_pos hh]; rfl
        · rw [if_neg hh]; rfl
      rw [hlen]
      simp
      omega

theorem flushedColumns_append (a b : List Flush) :
    flushedColumns (a ++ b) = flushedColumns a ++ flushedColumns b := by
  simp [flushedColumns]

theorem glyphStream_cons (font : Font) (c : Nat) (rest : List Nat) (row : Nat)
    (h : resolveChar c = some row) :
    glyphStream font (c :: rest) = glyphColumns (font row) ++ glyphStream font rest := by
  simp [glyphStream, h]

theorem printBody_end_spec (fontptr : List Nat) (st : LoopState) (pend : List Nat)
    (hinv : Accumulating st pend) (hg : (glyphColumns fontptr).length ≤ 24) :
    flushedColumns (printBody fontptr true st).1
        = pend ++ glyphColumns fontptr
          ++ List.replicate (24 - (pend.length + (glyphColumns fontptr).length) % 24) 0 ∧
    (printBody fontptr true st).1.length
        = (pend.length + (glyphColumns fontptr).length) / 24 + 1 := by
  obtain ⟨pend', hinv', hcols, _, hlen⟩ := renderChar_spec fontptr st pend hinv hg
  obtain ⟨_, hlt', hacc⟩ := hinv'
  simp only [printBody, if_true, flushedColumns_append, List.length_append, List.length_singleton]
  constructor
  · simp only [flushedColumns, List.flatMap_cons, List.flatMap_nil, List.append_nil,
      flushFrame_columns]
    rw [hacc, take_pending pend' (by omega), ← List.append_assoc]
    have := hcols
    simp only [flushedColumns] at this
    rw [this]
    congr 2
    omega
  · omega

theorem printLoop_cons_some (font : Font) (c : Nat) (rest : List Nat) (st : LoopState)
    (row : Nat) (hf : st.frame < 36) (hr : resolveChar c = some row) :
    printLoop font (c :: rest) st =
      ((printBody (font row) rest.isEmpty st).1
          ++ (printLoop font rest (printBody (font row) rest.isEmpty st).2).1,
       (printLoop font rest (printBody (font row) rest.isEmpty st).2).2) := by
  rw [printLoop, if_pos hf, hr]

theorem printLoop_cons_none (font : Font) (c : Nat) (rest : List Nat) (st : LoopState)
    (hf : st.frame < 36) (hr : resolveChar c = none) :
    printLoop font (c :: rest) st = printLoop font rest st := by
  rw [printLoop, if_pos hf, hr]

theorem printLoop_stop (font : Font) (text : List Nat) (st : LoopState)
    (hf : ¬ st.frame < 36) : printLoop font text st = ([], st) := by
  cases text with
  | nil => rfl
  | cons c rest => rw [printLoop, if_neg hf]

theorem glyphStream_cons_none (font : Font) (c : Nat) (rest : List Nat)
    (h : resolveChar c = none) :
    glyphStream font (c :: rest) = glyphStream font rest := by
  simp [glyphStream, h]

/-- The rendering loop, characterised: when the last byte of the text selects a
glyph and is reached before 36 frames are complete, the flushed column data is
the pending columns, then the glyph stream, then the zero padding of the final
frame, and the number of flushed frames is one more than the number of
completed frames. -/
theorem printLoop_columns (font : Font) (hfont : ∀ row, (glyphColumns (font row)).length ≤ 24) :
    ∀ (text : List Nat) (st : LoopState) (pend : List Nat),
      Accumulating st pend →
      (∀ h : text ≠ [], resolveChar (text.getLast h) ≠ none) →
      24 * st.frame + pend.length + (glyphStream font text.dropLast).length < 864 →
      text ≠ [] →
      flushedColumns (printLoop font text st).1
          = pend ++ glyphStream font text
            ++ List.replicate (24 - (pend.length + (glyphStream font text).length) % 24) 0 ∧
      (printLoop font text st).1.length
          = (pend.length + (glyphStream font text).length) / 24 + 1 := by
  intro text
  induction text with
  | nil => intro st pend _ _ _ hne; exact absurd rfl hne
  | cons c rest ih =>
    intro st pend hinv hlast hbound _
    have hframe : st.frame < 36 := by omega
    cases rest with
    | nil =>
      obtain ⟨row, hrow⟩ : ∃ row, resolveChar c = some row := by
        cases h : resolveChar c with
        | none => exact absurd h (hlast (by simp))
        | some row => exact ⟨row, rfl⟩
      have hend := printBody_end_spec (font row) st pend hinv (hfont row)
      rw [glyphStream_cons font c [] row hrow, printLoop_cons_some font c [] st row hframe hrow]
      simp only [printLoop, List.isEmpty_nil, List.append_nil, glyphStream,
        List.flatMap_nil, List.length_nil, Nat.add_zero]
      simpa [List.append_assoc] using hend
    | cons c' rest' =>
      have hlast' : ∀ h : c' :: rest' ≠ [], resolveChar ((c' :: rest').getLast h) ≠ none := by
        intro h
        have := hlast (by simp)
        rwa [List.getLast_cons h] at this
      have hdrop : (c :: c' :: rest').dropLast = c :: (c' :: rest').dropLast := by
        simp [List.dropLast]
      rw [hdrop] at hbound
      cases hrow : resolveChar c with
      | none =>
        rw [glyphStream_cons_none font c _ hrow] at hbound ⊢
        rw [printLoop_cons_none font c _ st hframe hrow]
        exact ih st pend hinv hlast' hbound (by simp)
      | some row =>
        rw [glyphStream_cons font c _ row hrow] at hbound ⊢
        simp only [List.length_append] at hbound ⊢
        rw [printLoop_cons_some font c _ st row hframe hrow]
        obtain ⟨pend', hinv', hcols, hfr, hlen⟩ :=
          renderChar_spec (font row) st pend hinv (hfont row)
        have hlt' : pend'.length < 24 := hinv'.2.1
        have hbody : printBody (font row) (c' :: rest').isEmpty st = renderChar (font row) st := by
          simp [printBody]
        rw [hbody]
        have hih := ih (renderChar (font row) st).2 pend' hinv' hlast'
          (by rw [hfr]; omega) (by simp)
        simp only [flushedColumns_append, List.length_append]
        rw [hih.1, hih.2]
        constructor
        · have hn : 24 - (pend'.length + (glyphStream font (c' :: rest')).length) % 24
              = 24 - (pend.length + ((glyphColumns (font row)).length
                  + (glyphStream font (c' :: rest')).length)) % 24 := by omega
          rw [hn, ← List.append_assoc, ← List.append_assoc, hcols]
          simp only [List.append_assoc]
        · omega

theorem addrOf_congr (a b : Beam) (h : a.BEAM = b.BEAM) (i : Nat) : a.addrOf i = b.addrOf i := by
  simp [Beam.addrOf, h]

theorem renderChar_shape (fontptr : List Nat) (st : LoopState) :
    (renderChar fontptr st).2.beam._beamCount = st.beam._beamCount ∧
    (renderChar fontptr st).2.beam.BEAM = st.beam.BEAM ∧
    (((renderChar fontptr st).1 = [] ∧ (renderChar fontptr st).2.frame = st.frame) ∨
     (∃ fl, (renderChar fontptr st).1 = [fl] ∧ fl.frame = st.frame ∧
        fl.calls = (List.range st.beam._beamCount).map
          (fun b => (st.beam.addrOf b, (st.frame + (st.beam._beamCount - b)) % 256)) ∧
        (renderChar fontptr st).2.frame = st.frame + 1)) := by
  by_cases h1 : (fillLoop st.beam.cscolumn st.cscount fontptr).2.1 > 23
  · by_cases h2 : (fillLoop st.beam.cscolumn st.cscount fontptr).2.2.headD 0xFF ≠ 0xFF
    · simp only [renderChar]
      rw [if_pos h1, if_pos h2]
      dsimp only
      refine ⟨?_, ?_, Or.inr ⟨_, rfl, ?_, ?_, ?_⟩⟩
      · rw [flushFrame_beamCount]
      · rw [flushFrame_BEAM]
      · rw [flushFrame_frame]
      · rw [flushFrame_calls]
        simp only [Beam.addrOf]
      · rfl
    · simp only [renderChar]
      rw [if_pos h1, if_neg h2]
      dsimp only
      refine ⟨?_, ?_, Or.inr ⟨_, rfl, ?_, ?_, ?_⟩⟩
      · rw [flushFrame_beamCount]
      · rw [flushFrame_BEAM]
      · rw [flushFrame_frame]
      · rw [flushFrame_calls]
        simp only [Beam.addrOf]
      · rfl
  · simp only [renderChar]
    rw [if_neg h1]
    dsimp only
    exact ⟨rfl, rfl, Or.inl ⟨rfl, rfl⟩⟩

theorem printBody_beam (fontptr : List Nat) (atEnd : Bool) (st : LoopState) :
    (printBody fontptr atEnd st).2.beam._beamCount = st.beam._beamCount ∧
    (printBody fontptr atEnd st).2.beam.BEAM = st.beam.BEAM := by
  obtain ⟨h1, h2, _⟩ := renderChar_shape fontptr st
  unfold printBody
  simp only []
  cases atEnd with
  | false => exact ⟨h1, h2⟩
  | true =>
    simp only [if_true]
    exact ⟨by rw [flushFrame_beamCount]; exact h1, by rw [flushFrame_BEAM]; exact h2⟩

theorem printLoop_beam (font : Font) : ∀ (text : List Nat) (st : LoopState),
    (printLoop font text st).2.beam._beamCount = st.beam._beamCount ∧
    (printLoop font text st).2.beam.BEAM = st.beam.BEAM := by
  intro text
  induction text with
  | nil => intro st; exact ⟨rfl, rfl⟩
  | cons c rest ih =>
    intro st
    by_cases hf : st.frame < 36
    · cases hr : resolveChar c with
      | none => rw [printLoop_cons_none font c rest st hf hr]; exact ih st
      | some row =>
        rw [printLoop_cons_some font c rest st row hf hr]
        obtain ⟨h1, h2⟩ := printBody_beam (font row) rest.isEmpty st
        obtain ⟨h3, h4⟩ := ih (printBody (font row) rest.isEmpty st).2
        exact ⟨h3.trans h1, h4.trans h2⟩
    · rw [printLoop_stop font _ st hf]; exact ⟨rfl, rfl⟩

/-- Every frame the rendering loop flushes carries the running frame number,
which is at most 36, and is written to chip `b` at `frame + (_beamCount - b)`. -/
theorem printLoop_frames (font : Font) : ∀ (text : List Nat) (st : LoopState) (k : Nat)
    (fl : Flush), (printLoop font text st).1[k]? = some fl →
      fl.frame = st.frame + k ∧ fl.frame ≤ 36 ∧
      fl.calls = (List.range st.beam._beamCount).map
        (fun b => (st.beam.addrOf b, (st.frame + k + (st.beam._beamCount - b)) % 256)) := by
  intro text
  induction text with
  | nil => intro st k fl h; simp [printLoop] at h
  | cons c rest ih =>
    intro st k fl h
    by_cases hf : st.frame < 36
    · cases hr : resolveChar c with
      | none =>
        rw [printLoop_cons_none font c rest st hf hr] at h
        exact ih st k fl h
      | some row =>
        rw [printLoop_cons_some font c rest st row hf hr] at h
        simp only [] at h
        obtain ⟨hG, hB, hshape⟩ := renderChar_shape (font row) st
        cases rest with
        | nil =>
          simp only [List.isEmpty_nil, printLoop, List.append_nil, printBody, if_true] at h
          rcases hshape with ⟨hnil, hfr⟩ | ⟨fl0, hone, hfr0, hcalls0, hfr⟩
          · rw [hnil] at h
            cases k with
            | zero =>
              simp only [List.nil_append, List.getElem?_cons_zero, Option.some.injEq] at h
              subst h
              refine ⟨by simp [flushFrame_frame, hfr], by simp [flushFrame_frame, hfr]; omega, ?_⟩
              rw [flushFrame_calls, hfr, hG]
              simp [Beam.addrOf, hB]
            | succ k => simp at h
          · rw [hone] at h
            cases k with
            | zero =>
              simp only [List.singleton_append, List.getElem?_cons_zero, Option.some.injEq] at h
              subst h
              exact ⟨by simp [hfr0], by omega, by simpa using hcalls0⟩
            | succ k =>
              cases k with
              | zero =>
                simp only [List.singleton_append, List.getElem?_cons_succ,
                  List.getElem?_cons_zero, Option.some.injEq] at h
                subst h
                refine ⟨by simp [flushFrame_frame, hfr], by simp [flushFrame_frame, hfr]; omega, ?_⟩
                rw [flushFrame_calls, hfr, hG]
                simp [Beam.addrOf, hB]
              | succ k => simp at h
        | cons c' rest' =>
          have hbody : printBody (font row) (c' :: rest').isEmpty st = renderChar (font row) st := by
            simp [printBody]
          rw [hbody] at h
          rcases hshape with ⟨hnil, hfr⟩ | ⟨fl0, hone, hfr0, hcalls0, hfr⟩
          · rw [hnil, List.nil_append] at h
            have := ih _ k fl h
            rw [hfr, hG] at this
            simpa [Beam.addrOf, hB] using this
          · rw [hone] at h
            cases k with
            | zero =>
              simp only [List.singleton_append, List.getElem?_cons_zero, Option.some.injEq] at h
              subst h
              exact ⟨by simp [hfr0], by omega, by simpa using hcalls0⟩
            | succ k =>
              simp only [List.singleton_append, List.getElem?_cons_succ] at h
              have := ih _ k fl h
              rw [hfr, hG] at this
              have e : st.frame + 1 + k = st.frame + (k + 1) := by omega
              rw [e] at this
              simpa [Beam.addrOf, hB] using this
    · rw [printLoop_stop font _ st hf] at h
      simp at h

theorem writeFrame_wireRegister (cs : List Nat) (addr f j : Nat) (hj : j < 12) :
    wireRegister (writeFrame cs addr f) j = cs.getD j 0 % 1024 := by
  rw [← wire_low_ten]
  unfold wireRegister writeFrame
  interval_cases j <;> rfl

theorem convertFrame_length (masks : List Nat) (fr : Nat → Nat) (cs : List Nat) :
    (convertFrame masks fr cs).length = cs.length := by
  simp [convertFrame, convertPass_length]

theorem packColumns_bitmap_testBit (fr : Nat → Nat) (k j : Nat) (hk : k < 12) :
    ((packColumns (List.replicate 12 0) (bitmapColumns fr)).getD k 0).testBit j =
      if j < 5 then pixel fr j (2 * k)
      else if j < 10 then pixel fr (j - 5) (2 * k + 1)
      else false := by
  rw [packColumns_getD _ _ (by simp) k hk, testBit_mod_65536]
  have h0 : (bitmapColumns fr).getD (k * 2) 0 = bitmapColumn fr (2 * k) := by
    have : k * 2 < 24 := by omega
    simp [bitmapColumns, List.getD_eq_getElem?_getD, this, Nat.mul_comm]
  have h1 : (bitmapColumns fr).getD (k * 2 + 1) 0 = bitmapColumn fr (2 * k + 1) := by
    have : k * 2 + 1 < 24 := by omega
    simp [bitmapColumns, List.getD_eq_getElem?_getD, this, Nat.mul_comm]
  rw [h0, h1]
  simp only [Nat.testBit_or, Nat.testBit_shiftLeft, bitmapColumn_testBit]
  by_cases h5 : j < 5
  · have : ¬ (j ≥ 5) := by omega
    have : j < 16 := by omega
    simp [*]
  · by_cases h10 : j < 10
    · have : j ≥ 5 := by omega
      have : j - 5 < 5 := by omega
      have : j < 16 := by omega
      simp [*]
    · have : ¬ (j - 5 < 5) := by omega
      simp [*]

/-! ## Auxiliary lemmas: whole render calls -/

theorem resolveChar_printable (c : Nat) (h : 32 ≤ c ∧ c ≤ 126) : resolveChar c ≠ none := by
  obtain ⟨h1, h2⟩ := h
  interval_cases c <;> decide

theorem resolveChar_eq_none (c : Nat) : resolveChar c = none ↔ c = 0xC3 := by
  constructor
  · intro h
    by_contra hc
    unfold resolveChar at h
    simp only [] at h
    split_ifs at h
  · intro h
    subst h
    decide

theorem accumulating_zero (self : Beam) (frame : Nat) (h : self.cscolumn = List.replicate 25 0) :
    Accumulating { beam := { self with cs := List.replicate 12 0 }, frame := frame, cscount := 0 }
      [] :=
  ⟨rfl, by decide, h⟩

theorem print_flushes (self : Beam) (font : Font) (text : List Nat) :
    (self.print font text).flushes =
      (printLoop font text
        { beam := { self with cs := List.replicate 12 0 }, frame := 0, cscount := 0 }).1 := rfl

theorem glyphStream_dropLast_le (font : Font) (text : List Nat) :
    (glyphStream font text.dropLast).length ≤ (glyphStream font text).length := by
  induction text with
  | nil => simp [glyphStream]
  | cons c rest ih =>
    cases rest with
    | nil => simp [glyphStream]
    | cons c' rest' =>
      have : (c :: c' :: rest').dropLast = c :: (c' :: rest').dropLast := by simp [List.dropLast]
      rw [this]
      simp only [glyphStream, List.flatMap_cons, List.length_append] at ih ⊢
      omega

theorem glyphStream_dropLast_ge (font : Font)
    (hfont : ∀ row, (glyphColumns (font row)).length ≤ 24) (text : List Nat) :
    (glyphStream font text).length ≤ (glyphStream font text.dropLast).length + 24 := by
  induction text with
  | nil => simp [glyphStream]
  | cons c rest ih =>
    cases rest with
    | nil =>
      cases hr : resolveChar c with
      | none => simp [glyphStream, hr]
      | some row =>
        have := hfont row
        simp [glyphStream, hr]
        omega
    | cons c' rest' =>
      have : (c :: c' :: rest').dropLast = c :: (c' :: rest').dropLast := by simp [List.dropLast]
      rw [this]
      simp only [glyphStream, List.flatMap_cons, List.length_append] at ih ⊢
      omega

theorem drawLoop_frames (frameList : Nat → Nat → Nat) : ∀ (fuel i : Nat) (self : Beam) (f : Nat),
    f < fuel →
    ∃ dfr, (drawLoop frameList fuel i self).1[f]? = some dfr ∧ dfr.index = i + f ∧
      dfr.calls = (List.range self._beamCount).map
        (fun b => (self.addrOf b, (i + f + (self._beamCount - 1 - b)) % 256)) := by
  intro fuel
  induction fuel with
  | zero => intro i self f hf; omega
  | succ fuel ih =>
    intro i self f hf
    cases f with
    | zero =>
      refine ⟨{ index := i, cs := convertFrame self.segmentmask (frameList i) self.cs,
                calls := (List.range self._beamCount).map
                  (fun b => (self.addrOf b, (i + (self._beamCount - 1 - b)) % 256)) }, ?_, rfl, ?_⟩
      · simp only [drawLoop, List.getElem?_cons_zero]
      · simp only [Nat.add_zero]
    | succ f =>
      obtain ⟨dfr, h1, h2, h3⟩ := ih (i + 1)
        { self with cs := List.replicate 12 0,
                    _lastFrameWrite := (i + self._beamCount + 255) % 256 } f (by omega)
      refine ⟨dfr, ?_, by omega, ?_⟩
      · simpa [drawLoop] using h1
      · rw [h3]
        have e : i + 1 + f = i + (f + 1) := by omega
        simp only [Beam.addrOf, e]

theorem drawLoop_beam (frameList : Nat → Nat → Nat) : ∀ (fuel i : Nat) (self : Beam),
    (drawLoop frameList fuel i self).2._beamCount = self._beamCount ∧
    (drawLoop frameList fuel i self).2.BEAM = self.BEAM := by
  intro fuel
  induction fuel with
  | zero => intro i self; exact ⟨rfl, rfl⟩
  | succ fuel ih =>
    intro i self
    simp only [drawLoop]
    exact ih (i + 1) _

theorem setPrintDefaults_cursrc (self : Beam)
    (mode startFrame numFrames numLoops frameDelay fadeMode : Nat)
    (hmode : mode = MOVIE ∨ mode = SCROLL) (hG : self._beamCount = 2) :
    ((self.setPrintDefaults mode startFrame numFrames numLoops frameDelay LEFT fadeMode).1.filter
        (fun c => c.subreg = CURSRC)).map (fun c => c.subregdata) = [0x20, 0x20] := by
  unfold Beam.setPrintDefaults
  simp only [hmode, if_true, hG]
  simp only [List.filter_append, List.map_append]
  split_ifs <;>
    first
    | omega
    | simp [List.range, List.range.loop, CURSRC, MOV, MOVMODE, FRAMETIME, DISPLAYO, SHDN,
        CLKSYNC, LEFT]

theorem setPrintDefaults_cscolumn (self : Beam)
    (mode startFrame numFrames numLoops frameDelay scrollDir fadeMode : Nat) :
    (self.setPrintDefaults mode startFrame numFrames numLoops frameDelay scrollDir
      fadeMode).2.cscolumn = self.cscolumn := by
  unfold Beam.setPrintDefaults
  simp only []
  split <;> rfl

theorem print_beam_cscolumn (self : Beam) (font : Font) (text : List Nat) :
    (self.print font text).beam.cscolumn =
      (printLoop font text
        { beam := { self with cs := List.replicate 12 0 }, frame := 0, cscount := 0 }).2.beam.cscolumn := by
  simp only [Beam.print]
  exact setPrintDefaults_cscolumn _ _ _ _ _ _ _ _

theorem printLoop_skip_last (font : Font) (st : LoopState) :
    printLoop font [0xC3] st = ([], st) := by
  by_cases hf : st.frame < 36
  · rw [printLoop_cons_none font _ _ st hf (by decide)]
    rfl
  · exact printLoop_stop font _ st hf

/-! ## Auxiliary lemmas: character selection and the frame-targeted loop -/

theorem resolveChar_eq_spec (c : Nat) : resolveChar c = resolveCharSpec c := by
  unfold resolveChar resolveCharSpec
  simp only []
  by_cases h : 32 ≤ toupper c ∧ toupper c ≤ 96
  · rw [if_pos h, if_pos h]
  · rw [if_neg h, if_neg h]
    by_cases h0 : c = 0xC3
    · subst h0; rfl
    by_cases h1 : c = 0x84
    · subst h1; rfl
    by_cases h2 : c = 0xA4
    · subst h2; rfl
    by_cases h3 : c = 0x96
    · subst h3; rfl
    by_cases h4 : c = 0xB6
    · subst h4; rfl
    by_cases h5 : c = 0x9C
    · subst h5; rfl
    by_cases h6 : c = 0xBC
    · subst h6; rfl
    by_cases h7 : c = 0x9F
    · subst h7; rfl
    simp only [h0, h1, h2, h3, h4, h5, h6, h7, if_false, or_self]

theorem resolveCharFrame_eq (c : Nat) : resolveCharFrame c = resolveChar c := rfl

theorem resolveChar_toupper (c : Nat) : resolveChar (toupper c) = resolveChar c := by
  by_cases h : 97 ≤ c ∧ c ≤ 122
  · obtain ⟨h1, h2⟩ := h
    interval_cases c <;> rfl
  · have : toupper c = c := by simp [toupper, h]
    rw [this]

theorem printFrameLoop_stop (font : Font) (k : Nat) (text : List Nat) (st : LoopState)
    (hf : ¬ st.frame < 36) :
    printFrameLoop font k text st
      = { flushes := [], config := [], returnedEarly := false, beam := st.beam } := by
  cases text with
  | nil => rfl
  | cons c rest => rw [printFrameLoop, if_neg hf]

theorem take_set_succ (acc : List Nat) (n v : Nat) (h : n < acc.length) :
    (acc.set n v).take (n + 1) = acc.take n ++ [v] := by
  induction acc generalizing n with
  | nil => simp at h
  | cons a acc ih =>
    cases n with
    | zero => simp
    | succ n =>
      simp only [List.set_cons_succ, List.take_succ_cons, List.cons_append]
      rw [ih n (by simpa using h)]

/-- The fill loop on an accumulator with arbitrary content: the columns written
so far are kept, the glyph columns follow them up to column 24. -/
theorem fillLoop_take : ∀ (fp acc : List Nat) (n : Nat), n ≤ 24 → 24 ≤ acc.length →
    (fillLoop acc n fp).2.1 = n + min (24 - n) (glyphColumns fp).length ∧
    (fillLoop acc n fp).1.length = acc.length ∧
    (fillLoop acc n fp).1.take (n + min (24 - n) (glyphColumns fp).length)
      = acc.take n ++ (glyphColumns fp).take (24 - n) := by
  intro fp
  induction fp with
  | nil => intro acc n _ _; simp [fillLoop, glyphColumns]
  | cons v fp ih =>
    intro acc n hn hacc
    unfold fillLoop
    by_cases hc : n < 24 ∧ v ≠ 0xFF
    · rw [if_pos hc]
      obtain ⟨hlt, hv⟩ := hc
      obtain ⟨h1, h2, h3⟩ := ih (acc.set n v) (n + 1) (by omega) (by simpa using hacc)
      rw [glyphColumns_cons_pos v fp hv]
      have e2 : min (24 - n) ((v :: glyphColumns fp).length)
          = min (24 - (n + 1)) (glyphColumns fp).length + 1 := by
        simp only [List.length_cons]; omega
      have e3 : n + (min (24 - (n + 1)) (glyphColumns fp).length + 1)
          = n + 1 + min (24 - (n + 1)) (glyphColumns fp).length := by omega
      have e1 : 24 - n = (24 - (n + 1)) + 1 := by omega
      rw [e2, e3]
      refine ⟨h1, by rw [h2]; simp, ?_⟩
      rw [h3, take_set_succ acc n v (by omega), e1, List.take_succ_cons]
      simp
    · rw [if_neg hc]
      by_cases hlt : n < 24
      · have hv : v = 0xFF := by
          by_contra h; exact hc ⟨hlt, h⟩
        subst hv
        simp [glyphColumns_cons_neg]
      · have : 24 - n = 0 := by omega
        simp [this]

theorem printFrameLoop_cons_none (font : Font) (k c : Nat) (rest : List Nat) (st : LoopState)
    (hf : st.frame < 36) (h : resolveCharFrame c = none) :
    printFrameLoop font k (c :: rest) st = printFrameLoop font k rest st := by
  rw [printFrameLoop, if_pos hf, h]

theorem printFrameLoop_cons_some (font : Font) (k c : Nat) (rest : List Nat) (st : LoopState)
    (row : Nat) (hf : st.frame < 36) (h : resolveCharFrame c = some row) :
    printFrameLoop font k (c :: rest) st =
      if (fillLoop st.beam.cscolumn st.cscount (font row)).2.1 > 23 then
        if k ≠ 0 ∧ st.frame + 1 > k then
          { flushes := [(flushTargetFrame { st.beam with
                cscolumn := (fillLoop st.beam.cscolumn st.cscount (font row)).1 } st.frame).1],
            config := ((flushTargetFrame { st.beam with
                cscolumn := (fillLoop st.beam.cscolumn st.cscount (font row)).1 }
                  st.frame).2.setPrintDefaults SCROLL 0
                (flushTargetFrame { st.beam with
                  cscolumn := (fillLoop st.beam.cscolumn st.cscount (font row)).1 }
                    st.frame).2._lastFrameWrite 7 15 1 1).1,
            returnedEarly := true,
            beam := ((flushTargetFrame { st.beam with
                cscolumn := (fillLoop st.beam.cscolumn st.cscount (font row)).1 }
                  st.frame).2.setPrintDefaults SCROLL 0
                (flushTargetFrame { st.beam with
                  cscolumn := (fillLoop st.beam.cscolumn st.cscount (font row)).1 }
                    st.frame).2._lastFrameWrite 7 15 1 1).2 }
        else
          { printFrameLoop font k rest
              { beam := (flushTargetFrame { st.beam with
                  cscolumn := (fillLoop st.beam.cscolumn st.cscount (font row)).1 } st.frame).2,
                frame := st.frame + 1, cscount := 0 } with
            flushes := (flushTargetFrame { st.beam with
                cscolumn := (fillLoop st.beam.cscolumn st.cscount (font row)).1 } st.frame).1 ::
              (printFrameLoop font k rest
                { beam := (flushTargetFrame { st.beam with
                    cscolumn := (fillLoop st.beam.cscolumn st.cscount (font row)).1 } st.frame).2,
                  frame := st.frame + 1, cscount := 0 }).flushes }
      else
        printFrameLoop font k rest
          { st with
            beam := { st.beam with
              cscolumn := (fillLoop st.beam.cscolumn st.cscount (font row)).1 }
            cscount := (fillLoop st.beam.cscolumn st.cscount (font row)).2.1 } := by
  rw [printFrameLoop, if_pos hf, h]

/-- The loop of `printFrame` for a target frame other than 0: it flushes one
frame, the first 24 columns of what is pending plus the glyph stream, and takes
the early return. -/
theorem printFrameLoop_target (font : Font) (k : Nat) (hk0 : k ≠ 0) (hk : k < 36) :
    ∀ (text : List Nat) (st : LoopState) (pend : List Nat),
      st.frame = k → st.cscount = pend.length → pend.length < 24 →
      24 ≤ st.beam.cscolumn.length → st.beam.cscolumn.take pend.length = pend →
      24 ≤ (pend ++ glyphStream font text).length →
      ∃ fl, (printFrameLoop font k text st).flushes = [fl] ∧ fl.frame = k ∧
        fl.columns = (pend ++ glyphStream font text).take 24 ∧
        fl.calls = (List.range st.beam._beamCount).map (fun b => (st.beam.addrOf b, k)) ∧
        (printFrameLoop font k text st).returnedEarly = true ∧
        ∃ acc, fl.cs = packColumns st.beam.cs acc ∧ acc.take 24 = fl.columns := by
  intro text
  induction text with
  | nil =>
    intro st pend _ _ hlt _ _ hlen
    simp [glyphStream] at hlen
    omega
  | cons c rest ih =>
    intro st pend hframe hcount hlt hacc hpend hlen
    have hf : st.frame < 36 := by omega
    cases hr : resolveCharFrame c with
    | none =>
      rw [printFrameLoop_cons_none font k c rest st hf hr]
      rw [glyphStream_cons_none font c rest hr] at hlen ⊢
      exact ih st pend hframe hcount hlt hacc hpend hlen
    | some row =>
      rw [printFrameLoop_cons_some font k c rest st row hf hr]
      rw [glyphStream_cons font c rest row hr] at hlen ⊢
      obtain ⟨h1, h2, h3⟩ := fillLoop_take (font row) st.beam.cscolumn st.cscount
        (by omega) hacc
      rw [hcount] at h1 h2 h3
      rw [hcount]
      rw [hpend] at h3
      by_cases hfull : (fillLoop st.beam.cscolumn pend.length (font row)).2.1 > 23
      · rw [if_pos hfull, if_pos ⟨hk0, by omega⟩]
        have hm : pend.length + min (24 - pend.length) (glyphColumns (font row)).length = 24 := by
          omega
        rw [hm] at h3
        refine ⟨_, rfl, ?_, ?_, ?_, rfl, ⟨(fillLoop st.beam.cscolumn pend.length (font row)).1,
          by simp only [flushTargetFrame], by simp only [flushTargetFrame]⟩⟩
        · simp only [flushTargetFrame]
          exact hframe
        · simp only [flushTargetFrame]
          rw [h3, List.take_append_eq_append_take,
            List.take_of_length_le (Nat.le_of_lt hlt),
            List.take_append_eq_append_take]
          have : 24 - pend.length - (glyphColumns (font row)).length = 0 := by omega
          rw [this]
          simp
        · simp only [flushTargetFrame]
          rw [hframe, Nat.mod_eq_of_lt (by omega)]
          rfl
      · rw [if_neg hfull]
        have hm : min (24 - pend.length) (glyphColumns (font row)).length
            = (glyphColumns (font row)).length := by omega
        have hlt2 : (pend ++ glyphColumns (font row)).length < 24 := by
          simp only [List.length_append]; omega
        rw [hm] at h3
        have hlen2 : (pend ++ glyphColumns (font row)).length
            = pend.length + (glyphColumns (font row)).length := by simp
        have := ih
          { st with
            beam := { st.beam with
              cscolumn := (fillLoop st.beam.cscolumn pend.length (font row)).1 }
            cscount := (fillLoop st.beam.cscolumn pend.length (font row)).2.1 }
          (pend ++ glyphColumns (font row)) hframe (by simp only []; rw [h1, hm, hlen2]) hlt2
          (by simp only []; omega)
          (by
            simp only []
            rw [hlen2, h3, List.take_of_length_le (by omega)])
          (by rw [List.append_assoc]; exact hlen)
        rw [List.append_assoc] at this
        exact this

/-- The loop of `printFrame` with target index 0 never takes the early
return. -/
theorem printFrameLoop_zero (font : Font) : ∀ (text : List Nat) (st : LoopState),
    (printFrameLoop font 0 text st).returnedEarly = false ∧
    (printFrameLoop font 0 text st).config = [] := by
  intro text
  induction text with
  | nil => intro st; exact ⟨rfl, rfl⟩
  | cons c rest ih =>
    intro st
    by_cases hf : st.frame < 36
    · cases hr : resolveCharFrame c with
      | none => rw [printFrameLoop_cons_none font 0 c rest st hf hr]; exact ih st
      | some row =>
        rw [printFrameLoop_cons_some font 0 c rest st row hf hr]
        have h0 : ¬ ((0 : Nat) ≠ 0 ∧ st.frame + 1 > 0) := fun h => h.1 rfl
        rw [if_neg h0]
        split_ifs
        · exact ih _
        · exact ih _
    · rw [printFrameLoop_stop font 0 _ st hf]; exact ⟨rfl, rfl⟩

theorem getD_take (acc : List Nat) (n i : Nat) (h : i < n) :
    (acc.take n).getD i 0 = acc.getD i 0 := by
  rw [List.getD_eq_getElem?_getD, List.getD_eq_getElem?_getD, List.getElem?_take_of_lt h]

/-- Packing reads the first 24 columns only and overwrites all 12 registers. -/
theorem packColumns_take (cs acc : List Nat) (h : cs.length = 12) :
    packColumns cs acc = packColumns (List.replicate 12 0) (acc.take 24) := by
  rw [packColumns_eq cs acc h, packColumns_eq _ _ (List.length_replicate 12 0)]
  apply List.map_congr_left
  intro j hj
  have hj12 := List.mem_range.mp hj
  rw [getD_take acc 24 (j * 2) (by omega), getD_take acc 24 (j * 2 + 1) (by omega)]

/-! ## Auxiliary lemmas: configuration pushes -/

theorem filter_flatMap_singleton {α β : Type} (l : List α) (f : α → List β) (p : β → Bool) :
    (l.flatMap f).filter p = l.flatMap (fun a => (f a).filter p) := by
  induction l with
  | nil => rfl
  | cons a l ih => simp [List.flatMap_cons, List.filter_append, ih]

theorem flatMap_cond_singleton {α β : Type} (l : List α) (q : α → Bool) (g : α → β) :
    l.flatMap (fun a => if q a then [g a] else []) = (l.filter q).map g := by
  induction l with
  | nil => rfl
  | cons a l ih =>
    by_cases h : q a <;> simp [List.flatMap_cons, List.filter_cons, h, ih]

theorem range_filter_ne_last (n : Nat) :
    (List.range (n + 1)).filter (fun b => decide (b ≠ n)) = List.range n := by
  rw [List.range_succ, List.filter_append]
  have h1 : (List.range n).filter (fun b => decide (b ≠ n)) = List.range n := by
    rw [List.filter_eq_self]
    intro a ha
    have := List.mem_range.mp ha
    simp; omega
  rw [h1]
  simp

theorem range_filter_ne_zero (n : Nat) :
    (List.range (n + 1)).filter (fun b => decide (b ≠ 0)) = (List.range n).map (fun d => 1 + d) := by
  rw [List.range_succ_eq_map, List.filter_cons]
  simp only [ne_eq, not_true_eq_false, decide_False, Bool.false_eq_true, if_false]
  rw [List.filter_eq_self.mpr]
  · apply List.map_congr_left
    intro a _
    omega
  · intro a ha
    obtain ⟨b, _, rfl⟩ := List.mem_map.mp ha
    simp

/-- The writes to the shutdown register in a configuration push. -/
theorem setPrintDefaults_shdn (self : Beam)
    (mode startFrame numFrames numLoops frameDelay fadeMode : Nat)
    (hmode : mode = MOVIE ∨ mode = SCROLL) :
    (self.setPrintDefaults mode startFrame numFrames numLoops frameDelay LEFT fadeMode).1.filter
        (fun c => c.subreg = SHDN)
      = ((List.range self._beamCount).filter (fun b => b ≠ 3)).map
          (fun b => { addr := self.addrOf b, ramsection := CTRL, subreg := SHDN,
                      subregdata := 0x02 }) := by
  unfold Beam.setPrintDefaults
  simp only [hmode, if_true]
  rw [List.filter_append]
  have hsync : ∀ l : List WriteCmd, (∀ c ∈ l, c.subreg = CLKSYNC) →
      l.filter (fun c => decide (c.subreg = SHDN)) = [] := by
    intro l hl
    rw [List.filter_eq_nil_iff]
    intro c hc
    rw [hl c hc]
    decide
  refine (congrArg₂ (fun a b => a ++ b) ?_ (hsync _ ?_)).trans (List.append_nil _)
  · rw [filter_flatMap_singleton, ← flatMap_cond_singleton]
    apply List.flatMap_congr
    intro b _
    by_cases hb : b = 3
    · subst hb
      simp [List.filter_cons, SHDN, MOV, MOVMODE, CURSRC, FRAMETIME, DISPLAYO]
    · simp [List.filter_cons, SHDN, MOV, MOVMODE, CURSRC, FRAMETIME, DISPLAYO, hb, Beam.addrOf]
  · intro c hc
    split_ifs at hc
    · rcases List.mem_cons.mp hc with h | h
      · rw [h]
      · obtain ⟨_, _, rfl⟩ := List.mem_map.mp h; rfl
    · simp at hc

theorem setPrintDefaults_beam (self : Beam)
    (mode startFrame numFrames numLoops frameDelay scrollDir fadeMode : Nat) :
    (self.setPrintDefaults mode startFrame numFrames numLoops frameDelay scrollDir fadeMode).2
      = { self with _scrollMode := 1, _scrollDir := scrollDir, _fadeMode := fadeMode,
                    _frameDelay := frameDelay, _beamMode := mode, _numLoops := numLoops } := by
  unfold Beam.setPrintDefaults
  simp only []
  split <;> rfl

/-- The writes to the clock-sync register in a configuration push. -/
theorem setPrintDefaults_clksync (self : Beam)
    (mode startFrame numFrames numLoops frameDelay scrollDir fadeMode : Nat)
    (hmode : mode = MOVIE ∨ mode = SCROLL) :
    (self.setPrintDefaults mode startFrame numFrames numLoops frameDelay scrollDir fadeMode).1.filter
        (fun c => c.subreg = CLKSYNC)
      = if self._gblMode = 1 ∧ self._beamCount > 1 then
          if scrollDir = LEFT then
            ({ addr := self.addrOf (self._beamCount - 1), ramsection := CTRL,
               subreg := CLKSYNC, subregdata := 0x02 } : WriteCmd) ::
            (List.range (self._beamCount - 1)).map (fun b =>
              { addr := self.addrOf b, ramsection := CTRL, subreg := CLKSYNC,
                subregdata := 0x01 })
          else
            ({ addr := self.addrOf 0, ramsection := CTRL,
               subreg := CLKSYNC, subregdata := 0x02 } : WriteCmd) ::
            (List.range (self._beamCount - 1)).map (fun d =>
              { addr := self.addrOf (1 + d), ramsection := CTRL, subreg := CLKSYNC,
                subregdata := 0x01 })
        else [] := by
  unfold Beam.setPrintDefaults
  simp only [hmode, if_true]
  rw [List.filter_append]
  have hpush : ∀ l : List WriteCmd, (∀ c ∈ l, c.subreg ≠ CLKSYNC) →
      l.filter (fun c => decide (c.subreg = CLKSYNC)) = [] := by
    intro l hl
    rw [List.filter_eq_nil_iff]
    intro c hc
    simpa using hl c hc
  have hsync : ∀ l : List WriteCmd, (∀ c ∈ l, c.subreg = CLKSYNC) →
      l.filter (fun c => decide (c.subreg = CLKSYNC)) = l := by
    intro l hl
    rw [List.filter_eq_self]
    intro c hc
    simpa using hl c hc
  refine (congrArg₂ (fun a b => a ++ b) (hpush _ ?_) (hsync _ ?_)).trans ?_
  · intro c hc
    by_cases hdir : scrollDir = LEFT
    · rw [if_pos hdir] at hc
      obtain ⟨b, _, hb⟩ := List.mem_flatMap.mp hc
      rcases List.mem_append.mp hb with h | h
      · simp only [List.mem_cons, List.mem_singleton, List.not_mem_nil, or_false] at h
        rcases h with h | h | h | h | h <;> rw [h] <;>
          first
          | exact (by decide : MOV ≠ CLKSYNC)
          | exact (by decide : MOVMODE ≠ CLKSYNC)
          | exact (by decide : CURSRC ≠ CLKSYNC)
          | exact (by decide : FRAMETIME ≠ CLKSYNC)
          | exact (by decide : DISPLAYO ≠ CLKSYNC)
      · by_cases hb3 : b = 3
        · simp [hb3] at h
        · rw [if_pos hb3] at h
          rw [List.mem_singleton.mp h]
          exact (by decide : SHDN ≠ CLKSYNC)
    · rw [if_neg hdir] at hc
      simp at hc
  · intro c hc
    split_ifs at hc
    · rcases List.mem_cons.mp hc with h | h
      · rw [h]
      · obtain ⟨_, _, rfl⟩ := List.mem_map.mp h; rfl
    · rcases List.mem_cons.mp hc with h | h
      · rw [h]
      · obtain ⟨_, _, rfl⟩ := List.mem_map.mp h; rfl
    · simp at hc
  · simp only [List.nil_append]
    rfl

theorem addrOf_injective (self : Beam) (hB : self.BEAM = 0) (a b : Nat) (ha : a < 4) (hb : b < 4)
    (h : self.addrOf a = self.addrOf b) : a = b := by
  unfold Beam.addrOf at h
  rw [hB] at h
  interval_cases a <;> interval_cases b <;> first | rfl | (exact absurd h (by decide))

/-! ## Auxiliary lemmas: cascading start -/

theorem playLoop_cons (status : Nat) (reads : List Nat) (self : Beam) :
    playLoop (status :: reads) self =
      if (self.checkStatus status).ret ≠ 1 then
        (playLoop reads (self.checkStatus status).beam).map
          (fun t => { t with started := (self.checkStatus status).started.toList ++ t.started })
      else some { started := (self.checkStatus status).started.toList,
                  beam := (self.checkStatus status).beam } := rfl

theorem checkStatus_idle (self : Beam) (status : Nat)
    (hm : ¬ ((status >>> 2 : Nat) : Int)
        = (self._beamCount : Int) - (self.activeBeams : Int) + 1) :
    self.checkStatus status
      = { readIndex := (self.activeBeams : Int) - 1, started := none, ret := 0, beam := self } := by
  simp only [Beam.checkStatus, hm, if_false]

theorem checkStatus_last (self : Beam) (status : Nat)
    (hm : ((status >>> 2 : Nat) : Int)
        = (self._beamCount : Int) - (self.activeBeams : Int) + 1)
    (ha : (self.activeBeams + 255) % 256 ≤ 1) :
    self.checkStatus status
      = { readIndex := (self.activeBeams : Int) - 1,
          started := some ((((self.activeBeams + 255) % 256 : Nat) : Int) - 1), ret := 1,
          beam := { self with activeBeams := self._beamCount } } := by
  simp only [Beam.checkStatus, hm, if_true, ha]

theorem checkStatus_next (self : Beam) (status : Nat)
    (hm : ((status >>> 2 : Nat) : Int)
        = (self._beamCount : Int) - (self.activeBeams : Int) + 1)
    (ha : ¬ (self.activeBeams + 255) % 256 ≤ 1) :
    self.checkStatus status
      = { readIndex := (self.activeBeams : Int) - 1,
          started := some ((((self.activeBeams + 255) % 256 : Nat) : Int) - 1), ret := 0,
          beam := { self with activeBeams := (self.activeBeams + 255) % 256 } } := by
  simp only [Beam.checkStatus, hm, if_true, ha, if_false]

/-- The chip indices `a - 2, a - 3, ..., 0` the polling loop starts. -/
theorem playLoop_started : ∀ (reads : List Nat) (self : Beam) (t : PlayResult),
    2 ≤ self.activeBeams → self.activeBeams ≤ 255 →
    playLoop reads self = some t →
      t.started = List.map (fun (n : Nat) => (n : Int)) (List.range (self.activeBeams - 1)).reverse ∧
      t.beam = { self with activeBeams := self._beamCount } := by
  intro reads
  induction reads with
  | nil => intro self t _ _ h; simp [playLoop] at h
  | cons status reads ih =>
    intro self t h2 h255 h
    obtain ⟨a, ha⟩ : ∃ a, self.activeBeams = a + 2 := ⟨self.activeBeams - 2, by omega⟩
    have hdec : (self.activeBeams + 255) % 256 = a + 1 := by omega
    rw [playLoop_cons] at h
    by_cases hm : ((status >>> 2 : Nat) : Int)
        = (self._beamCount : Int) - (self.activeBeams : Int) + 1
    · by_cases ha0 : a = 0
      · subst ha0
        rw [checkStatus_last self status hm (by omega)] at h
        simp only [ne_eq, not_true_eq_false, if_false, Option.some.injEq] at h
        subst h
        refine ⟨?_, rfl⟩
        simp only [hdec]
        rw [ha]
        rfl
      · rw [checkStatus_next self status hm (by omega)] at h
        simp only [ne_eq] at h
        rw [if_pos (by decide)] at h
        cases hp : playLoop reads { self with activeBeams := (self.activeBeams + 255) % 256 } with
        | none => rw [hp] at h; simp at h
        | some t' =>
          rw [hp] at h
          simp only [Option.map_some', Option.some.injEq] at h
          subst h
          have := ih _ t' (by simp only []; omega) (by simp only []; omega) hp
          simp only [] at this
          refine ⟨?_, this.2⟩
          simp only [this.1, hdec, Option.toList]
          rw [ha]
          have e : a + 2 - 1 = (a + 1 - 1) + 1 := by omega
          rw [e, List.range_succ (a + 1 - 1)]
          simp
    · rw [checkStatus_idle self status hm] at h
      simp only [ne_eq] at h
      rw [if_pos (by decide)] at h
      cases hp : playLoop reads self with
      | none => rw [hp] at h; simp at h
      | some t' =>
        rw [hp] at h
        simp only [Option.map_some', Option.some.injEq] at h
        subst h
        have := ih self t' h2 h255 hp
        simpa [Option.toList] using this

/-- The first chip `play` starts. -/
theorem play_first (self : Beam) (reads : List Nat) (p : PlayResult)
    (h : self.play reads = some p) : p.started.head? = some self.firstStart := by
  unfold Beam.play at h
  simp only [] at h
  split_ifs at h
  · cases hp : playLoop reads self with
    | none => rw [hp] at h; simp at h
    | some t =>
      rw [hp] at h
      simp only [Option.map_some', Option.some.injEq] at h
      subst h
      rfl
  · simp only [Option.some.injEq] at h
    subst h
    rfl

/-! ## Auxiliary lemmas: register transactions -/

theorem sendWriteRun_failures : ∀ (statuses : List Nat) (e : Nat),
    (∀ s ∈ statuses, s ≠ 0) → ∀ (k : Nat) (out : WriteOutcome),
    (sendWriteRun e statuses)[k]? = some out →
      out.errCount = e + k + 1 ∧ (out.reset = true ↔ 50 < e + k) ∧ out.dataWritten = false := by
  intro statuses
  induction statuses with
  | nil => intro e _ k out h; simp [sendWriteRun] at h
  | cons s rest ih =>
    intro e hfail k out h
    have hs : s ≠ 0 := hfail s (by simp)
    cases k with
    | zero =>
      simp only [sendWriteRun, List.getElem?_cons_zero, Option.some.injEq] at h
      subst h
      simp [sendWriteCmd, hs]
    | succ k =>
      simp only [sendWriteRun, List.getElem?_cons_succ] at h
      have := ih _ (fun x hx => hfail x (by simp [hx])) k out h
      simp only [sendWriteCmd, hs, if_false] at this
      refine ⟨by omega, ?_, this.2.2⟩
      rw [this.2.1]
      omega

theorem waitLoop_ends : ∀ (polls : List (Bool × Nat)),
    (∃ s ∈ polls, s.1 = true ∨ 250 ≤ s.2) → ∃ n, waitLoop polls = some n := by
  intro polls
  induction polls with
  | nil => intro h; obtain ⟨s, hs, _⟩ := h; simp at hs
  | cons p rest ih =>
    intro h
    obtain ⟨avail, elapsed⟩ := p
    by_cases hc : ¬ avail ∧ elapsed < 250
    · obtain ⟨s, hs, hend⟩ := h
      have hrest : s ∈ rest := by
        rcases List.mem_cons.mp hs with heq | hmem
        · subst heq
          rcases hend with h1 | h2
          · exact absurd h1 (by simpa using hc.1)
          · exact absurd hc.2 (by simp only [] at h2; omega)
        · exact hmem
      obtain ⟨n, hn⟩ := ih ⟨s, hrest, hend⟩
      exact ⟨n + 1, by simp only [waitLoop, if_pos hc, hn, Option.map_some']⟩
    · exact ⟨0, by simp only [waitLoop, if_neg hc]⟩

/-! ## Auxiliary lemmas: physical slots and the register array -/

theorem flushTargetFrame_calls (self : Beam) (frame : Nat) :
    (flushTargetFrame self frame).1.calls
      = (List.range self._beamCount).map (fun b => (self.addrOf b, frame % 256)) := by
  simp only [flushTargetFrame]

/-- Every frame the loop of `printFrame` flushes is written at a slot below 36. -/
theorem printFrameLoop_slots (font : Font) (k : Nat) : ∀ (text : List Nat) (st : LoopState),
    ∀ fl ∈ (printFrameLoop font k text st).flushes, ∀ call ∈ fl.calls, call.2 < 36 := by
  intro text
  induction text with
  | nil => intro st fl hfl; simp [printFrameLoop] at hfl
  | cons c rest ih =>
    intro st fl hfl
    by_cases hf : st.frame < 36
    · have hflush : ∀ (beam : Beam), ∀ call ∈ (flushTargetFrame beam st.frame).1.calls,
          call.2 < 36 := by
        intro beam call hcall
        rw [flushTargetFrame_calls] at hcall
        obtain ⟨b, _, rfl⟩ := List.mem_map.mp hcall
        exact Nat.lt_of_le_of_lt (Nat.mod_le _ _) hf
      cases hr : resolveCharFrame c with
      | none =>
        rw [printFrameLoop_cons_none font k c rest st hf hr] at hfl
        exact ih st fl hfl
      | some row =>
        rw [printFrameLoop_cons_some font k c rest st row hf hr] at hfl
        split_ifs at hfl
        · simp only [List.mem_singleton] at hfl
          rw [hfl]
          exact hflush _
        · simp only [List.mem_cons] at hfl
          rcases hfl with h | h
          · rw [h]
            exact hflush _
          · exact ih _ fl h
        · exact ih _ fl hfl
    · rw [printFrameLoop_stop font k _ st hf] at hfl
      simp at hfl

/-- Every slot the loop of `draw` writes is at most the last index plus
`_beamCount - 1`. -/
theorem drawLoop_slots (frameList : Nat → Nat → Nat) : ∀ (fuel i : Nat) (self : Beam),
    ∀ dfr ∈ (drawLoop frameList fuel i self).1, ∀ call ∈ dfr.calls,
      call.2 + 1 ≤ i + fuel + (self._beamCount - 1) := by
  intro fuel
  induction fuel with
  | zero => intro i self dfr hd; simp [drawLoop] at hd
  | succ fuel ih =>
    intro i self dfr hd call hcall
    simp only [drawLoop] at hd
    rcases List.mem_cons.mp hd with heq | hmem
    · rw [heq] at hcall
      obtain ⟨b, _, rfl⟩ := List.mem_map.mp hcall
      have := Nat.mod_le (i + (self._beamCount - 1 - b)) 256
      simp only []
      omega
    · have := ih (i + 1) _ dfr hmem call hcall
      simp only [] at this
      omega

theorem packColumns_length (cs cscolumn : List Nat) (h : cs.length = 12) :
    (packColumns cs cscolumn).length = 12 := by
  rw [packColumns_eq cs cscolumn h]
  simp

theorem flushFrame_cs (self : Beam) (frame : Nat) (h : self.cs.length = 12) :
    (flushFrame self frame).2.cs = List.replicate 12 0 := by
  simp only [flushFrame]
  exact clearLoop_fst _ _ (packColumns_length _ _ h)

theorem flushTargetFrame_cs (self : Beam) (frame : Nat) (h : self.cs.length = 12) :
    (flushTargetFrame self frame).2.cs = List.replicate 12 0 := by
  simp only [flushTargetFrame]
  exact clearLoop_fst _ _ (packColumns_length _ _ h)

theorem renderChar_cs (fontptr : List Nat) (st : LoopState)
    (h : st.beam.cs = List.replicate 12 0) :
    (renderChar fontptr st).2.beam.cs = List.replicate 12 0 := by
  have hl : st.beam.cs.length = 12 := by rw [h]; rfl
  by_cases h1 : (fillLoop st.beam.cscolumn st.cscount fontptr).2.1 > 23
  · by_cases h2 : (fillLoop st.beam.cscolumn st.cscount fontptr).2.2.headD 0xFF ≠ 0xFF
    · simp only [renderChar]
      rw [if_pos h1, if_pos h2]
      dsimp only
      exact flushFrame_cs _ _ hl
    · simp only [renderChar]
      rw [if_pos h1, if_neg h2]
      dsimp only
      exact flushFrame_cs _ _ hl
  · simp only [renderChar]
    rw [if_neg h1]
    exact h

theorem printBody_cs (fontptr : List Nat) (atEnd : Bool) (st : LoopState)
    (h : st.beam.cs = List.replicate 12 0) :
    (printBody fontptr atEnd st).2.beam.cs = List.replicate 12 0 := by
  have h1 := renderChar_cs fontptr st h
  unfold printBody
  simp only []
  cases atEnd with
  | false => exact h1
  | true =>
    simp only [if_true]
    exact flushFrame_cs _ _ (by rw [h1]; rfl)

theorem printLoop_cs (font : Font) : ∀ (text : List Nat) (st : LoopState),
    st.beam.cs = List.replicate 12 0 →
    (printLoop font text st).2.beam.cs = List.replicate 12 0 := by
  intro text
  induction text with
  | nil => intro st h; exact h
  | cons c rest ih =>
    intro st h
    by_cases hf : st.frame < 36
    · cases hr : resolveChar c with
      | none => rw [printLoop_cons_none font c rest st hf hr]; exact ih st h
      | some row =>
        rw [printLoop_cons_some font c rest st row hf hr]
        exact ih _ (printBody_cs (font row) rest.isEmpty st h)
    · rw [printLoop_stop font _ st hf]; exact h

theorem setPrintDefaults_cs (self : Beam)
    (mode startFrame numFrames numLoops frameDelay scrollDir fadeMode : Nat) :
    (self.setPrintDefaults mode startFrame numFrames numLoops frameDelay scrollDir
      fadeMode).2.cs = self.cs := by
  rw [setPrintDefaults_beam]

theorem printFrameLoop_cs (font : Font) (k : Nat) : ∀ (text : List Nat) (st : LoopState),
    st.beam.cs = List.replicate 12 0 →
    (printFrameLoop font k text st).beam.cs = List.replicate 12 0 := by
  intro text
  induction text with
  | nil => intro st h; exact h
  | cons c rest ih =>
    intro st h
    have hl : st.beam.cs.length = 12 := by rw [h]; rfl
    by_cases hf : st.frame < 36
    · cases hr : resolveCharFrame c with
      | none => rw [printFrameLoop_cons_none font k c rest st hf hr]; exact ih st h
      | some row =>
        rw [printFrameLoop_cons_some font k c rest st row hf hr]
        split_ifs
        · simp only []
          rw [setPrintDefaults_cs]
          exact flushTargetFrame_cs _ _ hl
        · exact ih _ (flushTargetFrame_cs _ _ hl)
        · exact ih _ h
    · rw [printFrameLoop_stop font k _ st hf]; exact h

/-- The loop of `draw` leaves `cs[]` zero and converts every bitmap into zero
registers. -/
theorem drawLoop_clean (frameList : Nat → Nat → Nat) : ∀ (fuel i : Nat) (self : Beam),
    self.cs = List.replicate 12 0 →
    (drawLoop frameList fuel i self).2.cs = List.replicate 12 0 ∧
    ∀ dfr ∈ (drawLoop frameList fuel i self).1,
      dfr.cs = convertFrame self.segmentmask (frameList dfr.index) (List.replicate 12 0) := by
  intro fuel
  induction fuel with
  | zero => intro i self h; exact ⟨h, fun dfr hd => by simp [drawLoop] at hd⟩
  | succ fuel ih =>
    intro i self h
    obtain ⟨h1, h2⟩ := ih (i + 1)
      { self with cs := List.replicate 12 0,
                  _lastFrameWrite := (i + self._beamCount + 255) % 256 } rfl
    simp only [drawLoop]
    refine ⟨h1, fun dfr hd => ?_⟩
    rcases List.mem_cons.mp hd with heq | hmem
    · rw [heq, h]
    · exact h2 dfr hmem

theorem writeFrame_zero (addr f : Nat) :
    ∀ c ∈ writeFrame (List.replicate 12 0) addr f, c.subregdata = 0 := by
  intro c hc
  simp only [writeFrame, List.mem_flatMap, List.mem_range] at hc
  obtain ⟨j, hj, hmem⟩ := hc
  have hz : (List.replicate 12 0).getD j 0 = 0 := by
    interval_cases j <;> rfl
  rw [hz] at hmem
  simp only [List.mem_cons, List.mem_singleton, List.not_mem_nil, or_false] at hmem
  rcases hmem with h | h <;> rw [h] <;> rfl

theorem checkStatus_cs (self : Beam) (status : Nat) :
    (self.checkStatus status).beam.cs = self.cs := by
  unfold Beam.checkStatus
  simp only []
  split_ifs <;> rfl

theorem playLoop_cs : ∀ (reads : List Nat) (self : Beam) (t : PlayResult),
    playLoop reads self = some t → t.beam.cs = self.cs := by
  intro reads
  induction reads with
  | nil => intro self t h; simp [playLoop] at h
  | cons status reads ih =>
    intro self t h
    rw [playLoop_cons] at h
    split_ifs at h
    · cases hp : playLoop reads (self.checkStatus status).beam with
      | none => rw [hp] at h; simp at h
      | some t' =>
        rw [hp] at h
        simp only [Option.map_some', Option.some.injEq] at h
        subst h
        exact (ih _ t' hp).trans (checkStatus_cs self status)
    · simp only [Option.some.injEq] at h
      subst h
      exact checkStatus_cs self status

/-! ## Claims -/

/-- C1 (print, wrap-continuation). For every string of printable ASCII bytes
(32..126) and every font table whose glyphs are at most 24 columns wide, when
the accumulator is all zero at entry and the glyph stream needs fewer than 36
frames, the 24-column buffers of the frames `print` flushes, concatenated in
flush order, are the glyph column stream of the string followed only by zero
columns. -/
theorem print_wrap_continuation (self : Beam) (font : Font) (text : List Nat)
    (hprintable : ∀ c ∈ text, 32 ≤ c ∧ c ≤ 126)
    (hfont : ∀ row, (glyphColumns (font row)).length ≤ 24)
    (hacc : self.cscolumn = List.replicate 25 0)
    (hframes : ((glyphStream font text).length + 23) / 24 < 36) :
    ∃ k, flushedColumns (self.print font text).flushes
      = glyphStream font text ++ List.replicate k 0 := by
  rw [print_flushes]
  cases text with
  | nil => exact ⟨0, rfl⟩
  | cons c rest =>
    have hlast : ∀ h : c :: rest ≠ [], resolveChar ((c :: rest).getLast h) ≠ none :=
      fun h => resolveChar_printable _ (hprintable _ (List.getLast_mem h))
    have hle := glyphStream_dropLast_le font (c :: rest)
    have h := printLoop_columns font hfont (c :: rest) _ []
      (accumulating_zero self 0 hacc) hlast (by simp only [List.length_nil]; omega) (by simp)
    exact ⟨_, by simpa using h.1⟩

/-- Witness for C1: the text "Hello World" with `sampleFont` on one chip. -/
theorem print_wrap_continuation_witness :
    (∀ c ∈ sampleText, 32 ≤ c ∧ c ≤ 126) ∧
    (Beam.newGroup Beam.zeroed 1).begin.cscolumn = List.replicate 25 0 ∧
    ((glyphStream sampleFont sampleText).length + 23) / 24 < 36 ∧
    ∃ k, flushedColumns ((Beam.newGroup Beam.zeroed 1).begin.print sampleFont sampleText).flushes
      = glyphStream sampleFont sampleText ++ List.replicate k 0 :=
  ⟨by decide, by decide, by decide,
   print_wrap_continuation (Beam.newGroup Beam.zeroed 1).begin sampleFont sampleText
     (by decide) (fun _ => Nat.le_of_ble_eq_true rfl) (by decide) (by decide)⟩

/-- Counterexample to C2 as stated: six glyphs of four columns sum to exactly 24
columns, yet the concatenated column data of the flushed frames is not the
glyph stream (a second, blank frame follows it). -/
theorem print_exact_multiple_counterexample :
    (glyphStream sampleFont (List.replicate 6 65)).length = 24 ∧
    flushedColumns ((Beam.newGroup Beam.zeroed 1).begin.print sampleFont
        (List.replicate 6 65)).flushes
      ≠ glyphStream sampleFont (List.replicate 6 65) := by
  decide

/-- C2, amended (print, glyph-wrap at exact multiples). For any non-empty string
whose last byte is not the skipped lead byte 0xC3 and whose glyph columns sum to
exactly `24 * m` with `m < 36` (glyphs at most 24 columns wide, accumulator zero
at entry), `print` flushes `m + 1` frames, and the concatenation of their column
data is the full glyph column stream followed by one blank frame of 24 zero
columns. -/
theorem print_exact_multiple (self : Beam) (font : Font) (text : List Nat)
    (hfont : ∀ row, (glyphColumns (font row)).length ≤ 24)
    (hacc : self.cscolumn = List.replicate 25 0)
    (hne : text ≠ []) (hlast : text.getLast hne ≠ 0xC3)
    (m : Nat) (hm : (glyphStream font text).length = 24 * m) (hlt : m < 36) :
    flushedColumns (self.print font text).flushes
        = glyphStream font text ++ List.replicate 24 0 ∧
    (self.print font text).flushes.length = m + 1 := by
  rw [print_flushes]
  have hle := glyphStream_dropLast_le font text
  have h := printLoop_columns font hfont text _ []
    (accumulating_zero self 0 hacc)
    (fun h => fun hn => hlast ((resolveChar_eq_none _).mp hn))
    (by simp only [List.length_nil]; omega) hne
  rw [hm] at h
  simp only [List.length_nil, Nat.zero_add, Nat.mul_mod_right, Nat.sub_zero, List.nil_append] at h
  refine ⟨h.1, ?_⟩
  rw [h.2]
  omega

/-- Witness for the amended C2: six glyphs of four columns, `m = 1`. -/
theorem print_exact_multiple_witness :
    (glyphStream sampleFont (List.replicate 6 65)).length = 24 * 1 ∧
    flushedColumns ((Beam.newGroup Beam.zeroed 1).begin.print sampleFont
        (List.replicate 6 65)).flushes
      = glyphStream sampleFont (List.replicate 6 65) ++ List.replicate 24 0 ∧
    ((Beam.newGroup Beam.zeroed 1).begin.print sampleFont
        (List.replicate 6 65)).flushes.length = 1 + 1 :=
  ⟨by decide,
   print_exact_multiple (Beam.newGroup Beam.zeroed 1).begin sampleFont (List.replicate 6 65)
     (fun _ => Nat.le_of_ble_eq_true rfl) (by decide) (by decide) (by decide) 1 (by decide)
     (by decide)⟩

/-- C3 (print, end-of-string flush), the code on the failing inputs. For the
text "A" followed by the lead byte 0xC3, with an "A" glyph of fewer than 24
columns and a zero accumulator at entry, `print` flushes no frame at all: the
columns of the glyph are still in the accumulator when the call ends, whereas
for the text "A" alone the end-of-string flush writes them, padded with zero
columns. -/
theorem print_trailing_lead_byte (self : Beam) (font : Font)
    (hacc : self.cscolumn = List.replicate 25 0)
    (hwidth : (glyphColumns (font 33)).length < 24) :
    (self.print font [65, 0xC3]).flushes = [] ∧
    (self.print font [65, 0xC3]).beam.cscolumn
      = glyphColumns (font 33) ++ List.replicate (25 - (glyphColumns (font 33)).length) 0 ∧
    flushedColumns (self.print font [65]).flushes
      = glyphColumns (font 33) ++ List.replicate (24 - (glyphColumns (font 33)).length) 0 := by
  have hinv := accumulating_zero self 0 hacc
  obtain ⟨pend', hinv', hcols, _, hlen⟩ :=
    renderChar_spec (font 33) _ [] hinv (by omega)
  have hloop : printLoop font [65, 0xC3]
      { beam := { self with cs := List.replicate 12 0 }, frame := 0, cscount := 0 }
      = renderChar (font 33)
          { beam := { self with cs := List.replicate 12 0 }, frame := 0, cscount := 0 } := by
    rw [printLoop_cons_some font 65 [0xC3] _ 33 (show (0 : Nat) < 36 by decide) (by decide),
      printLoop_skip_last]
    simp [printBody]
  have hnone : (renderChar (font 33)
      { beam := { self with cs := List.replicate 12 0 }, frame := 0, cscount := 0 }).1 = [] := by
    apply List.eq_nil_of_length_eq_zero
    simp only [List.length_nil] at hlen
    omega
  have hpend : pend' = glyphColumns (font 33) := by
    rw [hnone] at hcols
    simpa [flushedColumns] using hcols
  refine ⟨?_, ?_, ?_⟩
  · rw [print_flushes, hloop, hnone]
  · rw [print_beam_cscolumn, hloop, hinv'.2.2, hpend]
  · rw [print_flushes]
    have hfont1 : ∀ g : List Nat, g.length < 24 → g.length % 24 = g.length :=
      fun g hg => Nat.mod_eq_of_lt hg
    have hend := printBody_end_spec (font 33) _ [] hinv (by omega)
    rw [printLoop_cons_some font 65 [] _ 33 (show (0 : Nat) < 36 by decide) (by decide)]
    simp only [List.isEmpty_nil, printLoop, List.append_nil]
    rw [hend.1]
    simp [hfont1 _ hwidth]

/-- Witness for C3: four-column glyphs on one chip. -/
theorem print_trailing_lead_byte_witness :
    (Beam.newGroup Beam.zeroed 1).begin.cscolumn = List.replicate 25 0 ∧
    (glyphColumns (sampleFont 33)).length < 24 ∧
    ((Beam.newGroup Beam.zeroed 1).begin.print sampleFont [65, 0xC3]).flushes = [] :=
  ⟨by decide, by decide,
   (print_trailing_lead_byte (Beam.newGroup Beam.zeroed 1).begin sampleFont (by decide)
     (by decide)).1⟩

/-- C4 (print, frame capacity), the code on the failing inputs. Whenever the
last byte of the text selects a glyph, is reached before 36 frames are complete
and its columns complete the 36th frame (at least 864 columns in all), the
rendering loop flushes 37 frames: the end-of-string flush follows the 36th
full-frame flush with `frame = 36` and is written to chip `b` at slot
`36 + (_beamCount - b)`. -/
theorem print_thirty_seventh_frame (self : Beam) (font : Font) (text : List Nat)
    (hfont : ∀ row, (glyphColumns (font row)).length ≤ 24)
    (hacc : self.cscolumn = List.replicate 25 0)
    (hne : text ≠ []) (hlast : text.getLast hne ≠ 0xC3)
    (hpre : (glyphStream font text.dropLast).length < 864)
    (hfull : 864 ≤ (glyphStream font text).length) :
    (self.print font text).flushes.length = 37 ∧
    ∃ fl, (self.print font text).flushes[36]? = some fl ∧ fl.frame = 36 ∧
      fl.calls = (List.range self._beamCount).map
        (fun b => (self.addrOf b, (36 + (self._beamCount - b)) % 256)) := by
  rw [print_flushes]
  have hge := glyphStream_dropLast_ge font hfont text
  have h := printLoop_columns font hfont text _ []
    (accumulating_zero self 0 hacc)
    (fun h => fun hn => hlast ((resolveChar_eq_none _).mp hn))
    (by simp only [List.length_nil]; omega) hne
  have hlen : (printLoop font text
      { beam := { self with cs := List.replicate 12 0 }, frame := 0, cscount := 0 }).1.length
      = 37 := by
    rw [h.2]
    simp only [List.length_nil]
    omega
  refine ⟨hlen, ?_⟩
  have hk : 36 < (printLoop font text
      { beam := { self with cs := List.replicate 12 0 }, frame := 0, cscount := 0 }).1.length := by
    omega
  refine ⟨_, List.getElem?_eq_getElem hk, ?_⟩
  have hf := printLoop_frames font text _ 36 _ (List.getElem?_eq_getElem hk)
  refine ⟨by simpa using hf.1, ?_⟩
  rw [hf.2.2]
  simp [Beam.addrOf]

set_option maxRecDepth 100000 in
/-- Witness for C4: 216 times the letter "A" with four-column glyphs fill
exactly 36 frames, and `print` flushes 37. -/
theorem print_thirty_seventh_frame_witness :
    (glyphStream sampleFont (List.replicate 216 65).dropLast).length < 864 ∧
    864 ≤ (glyphStream sampleFont (List.replicate 216 65)).length ∧
    ((Beam.newGroup Beam.zeroed 1).begin.print sampleFont (List.replicate 216 65)).flushes.length
      = 37 :=
  ⟨by decide, by decide,
   (print_thirty_seventh_frame (Beam.newGroup Beam.zeroed 1).begin sampleFont
     (List.replicate 216 65) (fun _ => Nat.le_of_ble_eq_true rfl) (by decide) (by decide)
     (by decide) (by decide) (by decide)).1⟩

/-- Counterexample to C5 as stated: with `cscolumn[0] = 0x20` and
`cscolumn[1] = 0` the packed register 0 is `0x20`, while the masked formula of
the claim gives 0. -/
theorem packColumns_overwide :
    (packColumns (List.replicate 12 0) overwideColumns).getD 0 0 = 0x20 ∧
    ((overwideColumns.getD 0 0 &&& 0x1F) ||| ((overwideColumns.getD 1 0 &&& 0x1F) <<< 5)) = 0 := by
  decide

/-- C5, amended (glyph-column encoding). For any column byte values and every
`j < 12`, the register produced at a flush is
`cscolumn[2j] ||| (cscolumn[2j+1] <<< 5)`, without masking; when both columns of
the pair are below 32 this is
`(cscolumn[2j] &&& 0x1F) ||| ((cscolumn[2j+1] &&& 0x1F) <<< 5)`: the first column
is bits [4:0], the second column is everything from bit 5 up (bits [9:5]), and
no other bit is set. -/
theorem packColumns_register (cs cscolumn : List Nat) (hcs : cs.length = 12)
    (hbyte : ∀ c ∈ cscolumn, c < 256) (j : Nat) (hj : j < 12) :
    (packColumns cs cscolumn).getD j 0 =
        cscolumn.getD (2 * j) 0 ||| (cscolumn.getD (2 * j + 1) 0 <<< 5) ∧
    (cscolumn.getD (2 * j) 0 < 32 → cscolumn.getD (2 * j + 1) 0 < 32 →
      (packColumns cs cscolumn).getD j 0 =
          (cscolumn.getD (2 * j) 0 &&& 0x1F) ||| ((cscolumn.getD (2 * j + 1) 0 &&& 0x1F) <<< 5) ∧
      (packColumns cs cscolumn).getD j 0 &&& 0x1F = cscolumn.getD (2 * j) 0 ∧
      (packColumns cs cscolumn).getD j 0 >>> 5 = cscolumn.getD (2 * j + 1) 0) := by
  have hb : ∀ i, cscolumn.getD i 0 < 256 := by
    intro i
    rw [List.getD_eq_getElem?_getD]
    cases h : cscolumn[i]? with
    | none => simp
    | some v =>
      have := List.getElem?_mem h
      simpa using hbyte v this
  have h0 := hb (2 * j)
  have h1 := hb (2 * j + 1)
  have e : (packColumns cs cscolumn).getD j 0 =
      cscolumn.getD (2 * j) 0 ||| (cscolumn.getD (2 * j + 1) 0 <<< 5) := by
    rw [packColumns_getD cs cscolumn hcs j hj, Nat.mul_comm j 2]
    apply Nat.mod_eq_of_lt
    have : cscolumn.getD (2 * j + 1) 0 <<< 5 < 2 ^ 16 := by
      rw [Nat.shiftLeft_eq]; omega
    exact Nat.or_lt_two_pow (by omega) this
  refine ⟨e, ?_⟩
  intro l0 l1
  have e0 : cscolumn.getD (2 * j) 0 &&& 0x1F = cscolumn.getD (2 * j) 0 :=
    Nat.and_pow_two_sub_one_of_lt_two_pow (n := 5) l0
  have e1 : cscolumn.getD (2 * j + 1) 0 &&& 0x1F = cscolumn.getD (2 * j + 1) 0 :=
    Nat.and_pow_two_sub_one_of_lt_two_pow (n := 5) l1
  rw [e0, e1, e]
  generalize cscolumn.getD (2 * j) 0 = a at *
  generalize cscolumn.getD (2 * j + 1) 0 = b at *
  refine ⟨rfl, ?_, ?_⟩
  · apply Nat.eq_of_testBit_eq
    intro i
    rw [show (0x1F : Nat) = 2 ^ 5 - 1 from rfl]
    simp only [Nat.testBit_and, Nat.testBit_or, Nat.testBit_shiftLeft,
      Nat.testBit_two_pow_sub_one]
    by_cases h5 : i < 5
    · have : ¬ (i ≥ 5) := by omega
      simp [h5, this]
    · have hp : 2 ^ 5 ≤ 2 ^ i := Nat.pow_le_pow_right (by decide) (by omega)
      have : a.testBit i = false := Nat.testBit_lt_two_pow (Nat.lt_of_lt_of_le l0 hp)
      simp [h5, this]
  · apply Nat.eq_of_testBit_eq
    intro i
    simp only [Nat.testBit_shiftRight, Nat.testBit_or, Nat.testBit_shiftLeft]
    have hp : 2 ^ 5 ≤ 2 ^ (5 + i) := Nat.pow_le_pow_right (by decide) (by omega)
    have : a.testBit (5 + i) = false := Nat.testBit_lt_two_pow (Nat.lt_of_lt_of_le l0 hp)
    have g : 5 + i ≥ 5 := by omega
    have e5 : 5 + i - 5 = i := by omega
    simp [this, g, e5]

/-- Witness for the amended C5: register 1 of six `sampleFont` glyphs. -/
theorem packColumns_register_witness :
    (List.replicate 12 0).length = 12 ∧ (∀ c ∈ sampleColumns, c < 256) ∧ 1 < 12 ∧
    sampleColumns.getD (2 * 1) 0 < 32 ∧ sampleColumns.getD (2 * 1 + 1) 0 < 32 ∧
    (packColumns (List.replicate 12 0) sampleColumns).getD 1 0 &&& 0x1F
      = sampleColumns.getD (2 * 1) 0 ∧
    (packColumns (List.replicate 12 0) sampleColumns).getD 1 0 >>> 5
      = sampleColumns.getD (2 * 1 + 1) 0 :=
  ⟨by decide, by decide, by decide, by decide, by decide,
   ((packColumns_register (List.replicate 12 0) sampleColumns (by decide) (by decide) 1
      (by decide)).2 (by decide) (by decide)).2⟩

/-- Counterexample to C6 as stated: with `cscolumn[0] = 0x20` and
`cscolumn[1] = 0`, field [9:5] of the register reassembled from the wire bytes
is 1, not the original second column reduced to five bits (0). -/
theorem wire_fields_overwide :
    fieldHigh (wireRegister (writeFrame (packColumns (List.replicate 12 0) overwideColumns) 0x36 1) 0)
      = 1 ∧ overwideColumns.getD 1 0 &&& 0x1F = 0 := by
  decide

/-- C6, amended (encoding round-trip over the wire). For any column buffer and
every `j < 12`, reassembling the two bytes `writeFrame` sends for register `j`
and unpacking: field [4:0] is column `2j` reduced to its low five bits; field
[9:5] is `(column 2j >>> 5) ||| column 2j+1` reduced to five bits, which is
column `2j+1` reduced to its low five bits whenever column `2j` is below 32. -/
theorem wire_fields (cs cscolumn : List Nat) (hcs : cs.length = 12) (addr f j : Nat)
    (hj : j < 12) :
    fieldLow (wireRegister (writeFrame (packColumns cs cscolumn) addr f) j) =
        cscolumn.getD (2 * j) 0 &&& 0x1F ∧
    fieldHigh (wireRegister (writeFrame (packColumns cs cscolumn) addr f) j) =
        ((cscolumn.getD (2 * j) 0 >>> 5) ||| cscolumn.getD (2 * j + 1) 0) &&& 0x1F ∧
    (cscolumn.getD (2 * j) 0 < 32 →
      fieldHigh (wireRegister (writeFrame (packColumns cs cscolumn) addr f) j) =
        cscolumn.getD (2 * j + 1) 0 &&& 0x1F) := by
  rw [writeFrame_wireRegister _ _ _ _ hj, packColumns_getD cs cscolumn hcs j hj, Nat.mul_comm j 2]
  have hh := high_field (cscolumn.getD (2 * j) 0) (cscolumn.getD (2 * j + 1) 0)
  refine ⟨low_field _ _, hh, ?_⟩
  intro l0
  unfold fieldHigh
  rw [hh]
  have : cscolumn.getD (2 * j) 0 >>> 5 = 0 := by
    rw [Nat.shiftRight_eq_div_pow]; omega
  rw [this, Nat.zero_or]

/-- Witness for the amended C6: register 1 of six `sampleFont` glyphs, written
to chip 0x36 at slot 1. -/
theorem wire_fields_witness :
    (List.replicate 12 0).length = 12 ∧ 1 < 12 ∧ sampleColumns.getD (2 * 1) 0 < 32 ∧
    fieldHigh (wireRegister (writeFrame (packColumns (List.replicate 12 0) sampleColumns) 0x36 1) 1)
      = sampleColumns.getD (2 * 1 + 1) 0 &&& 0x1F :=
  ⟨by decide, by decide, by decide,
   (wire_fields (List.replicate 12 0) sampleColumns (by decide) 0x36 1 1 (by decide)).2.2
     (by decide)⟩

/-- C7 (convertFrame is a bit-transpose). After `begin()` (segment mask `s` is
`1 <<< (7 - s)`, register array all zero), for every source bitmap and every
register `k < 12`: bit `r` of register `k` is `pixel r (2k)` and bit `5 + r` is
`pixel r (2k+1)` for `r < 5`, every bit from 10 up is zero, and the register
array equals the glyph-column encoding of the 24 columns of the bitmap. -/
theorem convertFrame_bit_transpose (self : Beam) (hseg : self.segmentmask.length = 8)
    (currentFrame : Nat → Nat) :
    (∀ k, k < 12 → ∀ r, r < 5 →
      ((convertFrame self.begin.segmentmask currentFrame self.begin.cs).getD k 0).testBit r
          = pixel currentFrame r (2 * k) ∧
      ((convertFrame self.begin.segmentmask currentFrame self.begin.cs).getD k 0).testBit (5 + r)
          = pixel currentFrame r (2 * k + 1)) ∧
    (∀ k, k < 12 → ∀ j, 10 ≤ j →
      ((convertFrame self.begin.segmentmask currentFrame self.begin.cs).getD k 0).testBit j
          = false) ∧
    convertFrame self.begin.segmentmask currentFrame self.begin.cs
      = packColumns (List.replicate 12 0) (bitmapColumns currentFrame) := by
  have hm : self.begin.segmentmask = [128, 64, 32, 16, 8, 4, 2, 1] :=
    initSegmentmask_eq self.segmentmask hseg
  have hc : self.begin.cs = List.replicate 12 0 := rfl
  rw [hm, hc]
  refine ⟨?_, ?_, ?_⟩
  · intro k hk r hr
    rw [convertFrame_testBit currentFrame k r hk, convertFrame_testBit currentFrame k (5 + r) hk]
    have h1 : ¬ (5 + r < 5) := by omega
    have h2 : 5 + r < 10 := by omega
    have h3 : 5 + r - 5 = r := by omega
    simp [hr, h1, h2, h3]
  · intro k hk j hj
    rw [convertFrame_testBit currentFrame k j hk]
    have h1 : ¬ (j < 5) := by omega
    have h2 : ¬ (j < 10) := by omega
    simp [h1, h2]
  · apply List.ext_getElem
    · rw [convertFrame_length, packColumns_eq _ _ (by simp)]
      simp
    · intro k h1 h2
      have hk : k < 12 := by
        rw [convertFrame_length] at h1
        simpa using h1
      have e1 := List.getD_eq_getElem (convertFrame [128, 64, 32, 16, 8, 4, 2, 1] currentFrame
        (List.replicate 12 0)) 0 h1
      have e2 := List.getD_eq_getElem (packColumns (List.replicate 12 0)
        (bitmapColumns currentFrame)) 0 h2
      rw [← e1, ← e2]
      apply Nat.eq_of_testBit_eq
      intro j
      rw [convertFrame_testBit currentFrame k j hk, packColumns_bitmap_testBit currentFrame k j hk]

/-- Witness for C7: `sampleBitmap` converted right after `begin()`. -/
theorem convertFrame_bit_transpose_witness :
    Beam.zeroed.segmentmask.length = 8 ∧
    convertFrame Beam.zeroed.begin.segmentmask sampleBitmap Beam.zeroed.begin.cs
      = packColumns (List.replicate 12 0) (bitmapColumns sampleBitmap) :=
  ⟨by decide, (convertFrame_bit_transpose Beam.zeroed (by decide) sampleBitmap).2.2⟩

/-- C8 (chip offset formulas). For every group size `G` in [1,4] and chip index
`b < G`: the `f`-th frame flushed by `print` carries `frame = f` and is written
to chip `b` (address `BEAM[b]`) at physical slot `f + (G - b)`; `draw` writes
animation frame `f < 36` to chip `b` at physical slot `f + (G - 1 - b)`. -/
theorem chip_offsets (G b : Nat) (hG : 1 ≤ G ∧ G ≤ 4) (hb : b < G) :
    (∀ (self : Beam) (font : Font) (text : List Nat) (f : Nat) (fl : Flush),
      self._beamCount = G → (self.print font text).flushes[f]? = some fl →
        fl.frame = f ∧ fl.calls[b]? = some (self.addrOf b, f + (G - b))) ∧
    (∀ (self : Beam) (frameList : Nat → Nat → Nat) (f : Nat),
      self._beamCount = G → f < 36 →
        ∃ dfr, (self.draw frameList).frames[f]? = some dfr ∧ dfr.index = f ∧
          dfr.calls[b]? = some (self.addrOf b, f + (G - 1 - b))) := by
  constructor
  · intro self font text f fl hself hfl
    rw [print_flushes] at hfl
    obtain ⟨h1, h2, h3⟩ := printLoop_frames font text _ f fl hfl
    simp only [Nat.zero_add] at h1 h3
    refine ⟨h1, ?_⟩
    rw [h3]
    have hb' : b < self._beamCount := by omega
    have hmod : (f + (self._beamCount - b)) % 256 = f + (G - b) := by
      rw [hself]; exact Nat.mod_eq_of_lt (by omega)
    rw [List.getElem?_map, List.getElem?_range hb']
    simp only [Option.map_some', hmod, Beam.addrOf]
  · intro self frameList f hself hf
    obtain ⟨dfr, h1, h2, h3⟩ := drawLoop_frames frameList 36 0 self f hf
    refine ⟨dfr, h1, by omega, ?_⟩
    rw [h3]
    have hb' : b < self._beamCount := by omega
    have hmod : (0 + f + (self._beamCount - 1 - b)) % 256 = f + (G - 1 - b) := by
      rw [hself, Nat.zero_add]; exact Nat.mod_eq_of_lt (by omega)
    rw [List.getElem?_map, List.getElem?_range hb']
    simp only [Option.map_some', hmod]

/-- Witness for C8: the text "AB" on a group of two chips; the first frame goes
to chip 1 at slot `0 + (2 - 1)`. -/
theorem chip_offsets_witness :
    (1 ≤ 2 ∧ 2 ≤ 4) ∧ 1 < 2 ∧
    ((Beam.newGroup Beam.zeroed 2).begin.print sampleFont [65, 66]).flushes[0]?
      = some sampleFlush ∧
    sampleFlush.frame = 0 ∧
    sampleFlush.calls[1]? = some ((Beam.newGroup Beam.zeroed 2).begin.addrOf 1, 0 + (2 - 1)) :=
  ⟨by decide, by decide, by decide,
   (chip_offsets 2 1 (by decide) (by decide)).1 (Beam.newGroup Beam.zeroed 2).begin sampleFont
     [65, 66] 0 sampleFlush rfl (by decide)⟩

/-- C9 (current-source mapping), the code at the failing input. On a group of
two chips the configuration push that ends `print` and `draw`
(`setPrintDefaults`) writes 0x20 to the current-source register of both chips,
while `display()` writes 0x15. -/
theorem cursrc_group_of_two (mem : Beam) (font : Font) (text : List Nat)
    (frameList : Nat → Nat → Nat) :
    (((Beam.newGroup mem 2).begin.print font text).config.filter
        (fun c => c.subreg = CURSRC)).map (fun c => c.subregdata) = [0x20, 0x20] ∧
    (((Beam.newGroup mem 2).begin.draw frameList).config.filter
        (fun c => c.subreg = CURSRC)).map (fun c => c.subregdata) = [0x20, 0x20] ∧
    ((Beam.newGroup mem 2).begin.display.filter
        (fun c => c.subreg = CURSRC)).map (fun c => c.subregdata) = [0x15, 0x15] := by
  refine ⟨?_, ?_, rfl⟩
  · exact setPrintDefaults_cursrc _ SCROLL 0 6 7 5 0 (Or.inr rfl)
      ((printLoop_beam font text _).1.trans rfl)
  · exact setPrintDefaults_cursrc _ MOVIE 1 20 7 2 0 (Or.inl rfl)
      ((drawLoop_beam frameList 36 0 _).1.trans rfl)

/-- C10 (group-size construction), the code at the failing input. The
multi-chip constructor called with `numberOfBeams = 4` yields group size 1 and
active-chip counter 1: the guard `4 <= numberOfBeams` sends 4 to the fallback;
sizes 1 to 3 are kept. -/
theorem newGroup_four (mem : Beam) :
    (Beam.newGroup mem 4)._beamCount = 1 ∧ (Beam.newGroup mem 4).activeBeams = 1 ∧
    (Beam.newGroup mem 3)._beamCount = 3 ∧ (Beam.newGroup mem 2)._beamCount = 2 ∧
    (Beam.newGroup mem 1)._beamCount = 1 :=
  ⟨rfl, rfl, rfl, rfl, rfl⟩

/-- C11 (address substitution). For every `beamAddress`, the single-address
constructor selects chip address `beamAddress` when it is one of the four
entries of `BEAM_ADDRESS` and the primary address 0x36 otherwise, with group
size 1; every index at which its search loop reads the address table is below
the table length 4. -/
theorem newSingle_address (mem : Beam) (syncMode beamAddress : Nat) :
    (Beam.newSingle mem syncMode beamAddress).addrOf 0
      = (if beamAddress ∈ BEAM_ADDRESS then beamAddress else 0x36) ∧
    (Beam.newSingle mem syncMode beamAddress)._beamCount = 1 ∧
    (∀ b ∈ findAddressReads beamAddress BEAM_ADDRESS.length 0, b < BEAM_ADDRESS.length) := by
  refine ⟨?_, rfl, ?_⟩
  · by_cases h0 : beamAddress = 0x36
    · subst h0; rfl
    by_cases h1 : beamAddress = 0x34
    · subst h1; rfl
    by_cases h2 : beamAddress = 0x30
    · subst h2; rfl
    by_cases h3 : beamAddress = 0x37
    · subst h3; rfl
    have e0 : ¬ (0x36 = beamAddress) := fun h => h0 h.symm
    have e1 : ¬ (0x34 = beamAddress) := fun h => h1 h.symm
    have e2 : ¬ (0x30 = beamAddress) := fun h => h2 h.symm
    have e3 : ¬ (0x37 = beamAddress) := fun h => h3 h.symm
    simp [Beam.newSingle, findAddress, BEAM_ADDRESS, Beam.addrOf, h0, h1, h2, h3, e0, e1, e2, e3]
  · intro b hb
    simp only [BEAM_ADDRESS, List.length_cons, List.length_nil, findAddressReads] at hb ⊢
    split_ifs at hb <;> simp at hb <;> omega

/-- C12 (invalid configuration is a no-op). A speed outside [1,15] passed to
`setSpeed`, a loop count outside [1,7] passed to `setLoops`, a direction other
than LEFT/RIGHT passed to `setScroll` and a mode other than MOVIE/SCROLL passed
to `setMode` each leave the whole object unchanged and issue no register
write. -/
theorem invalid_configuration_noop (self : Beam) (speed loops direction fade mode : Nat)
    (hspeed : speed < 1 ∨ 15 < speed) (hloops : loops < 1 ∨ 7 < loops)
    (hdir : direction ≠ RIGHT ∧ direction ≠ LEFT) (hmode : mode ≠ MOVIE ∧ mode ≠ SCROLL) :
    self.setSpeed speed = ([], self) ∧ self.setLoops loops = ([], self) ∧
    self.setScroll direction fade = ([], self) ∧ self.setMode mode = ([], self) := by
  refine ⟨?_, ?_, ?_, ?_⟩
  · rw [Beam.setSpeed, if_pos hspeed]
  · rw [Beam.setLoops, if_pos hloops]
  · rw [Beam.setScroll, if_pos hdir]
  · rw [Beam.setMode, if_pos hmode]

/-- Witness for C12: speed 16, loop count 0, direction 2 and mode PICTURE on a
group of two chips. -/
theorem invalid_configuration_noop_witness :
    (16 < 1 ∨ 15 < 16) ∧ (0 < 1 ∨ 7 < 0) ∧ (2 ≠ RIGHT ∧ 2 ≠ LEFT) ∧
    (PICTURE ≠ MOVIE ∧ PICTURE ≠ SCROLL) ∧
    (Beam.newGroup Beam.zeroed 2).begin.setSpeed 16 = ([], (Beam.newGroup Beam.zeroed 2).begin) ∧
    (Beam.newGroup Beam.zeroed 2).begin.setLoops 0 = ([], (Beam.newGroup Beam.zeroed 2).begin) ∧
    (Beam.newGroup Beam.zeroed 2).begin.setScroll 2 1 = ([], (Beam.newGroup Beam.zeroed 2).begin) ∧
    (Beam.newGroup Beam.zeroed 2).begin.setMode PICTURE
      = ([], (Beam.newGroup Beam.zeroed 2).begin) :=
  ⟨by decide, by decide, by decide, by decide,
   invalid_configuration_noop (Beam.newGroup Beam.zeroed 2).begin 16 0 2 1 PICTURE
     (by decide) (by decide) (by decide) (by decide)⟩

/-- C13 (character resolution in print and printFrame). For every byte `c` the
character selection of `print` and that of `printFrame` both agree with the
resolution laid down in the specification (`resolveCharSpec`): with
`u = toupper c`, row `u - 32` when `32 ≤ u ≤ 96`, otherwise no glyph for the
lead byte 0xC3, rows 65 to 68 for the accented trail bytes and row 0 for every
other byte. A byte and its `toupper` image resolve alike, and both rendering
loops pass over a lead byte 0xC3 without any effect. -/
theorem char_resolution (c : Nat) :
    resolveChar c = resolveCharSpec c ∧
    resolveCharFrame c = resolveCharSpec c ∧
    resolveChar (toupper c) = resolveChar c ∧
    (∀ (font : Font) (rest : List Nat) (st : LoopState),
      printLoop font (0xC3 :: rest) st = printLoop font rest st) ∧
    (∀ (font : Font) (k : Nat) (rest : List Nat) (st : LoopState),
      printFrameLoop font k (0xC3 :: rest) st = printFrameLoop font k rest st) := by
  refine ⟨resolveChar_eq_spec c, ?_, resolveChar_toupper c, ?_, ?_⟩
  · rw [resolveCharFrame_eq, resolveChar_eq_spec]
  · intro font rest st
    by_cases hf : st.frame < 36
    · exact printLoop_cons_none font _ rest st hf (by decide)
    · rw [printLoop_stop font _ st hf, printLoop_stop font _ st hf]
  · intro font k rest st
    by_cases hf : st.frame < 36
    · rw [printFrameLoop, if_pos hf]
      rfl
    · rw [printFrameLoop_stop font k _ st hf, printFrameLoop_stop font k _ st hf]

/-- Counterexample to C14 as stated: with target frame index 0 and a text of 48
glyph columns, `printFrame` on a single chip writes two frames, at slots 0 and
1, and does not take the early return. -/
theorem printFrame_zero_target :
    24 ≤ (glyphStream sampleFont (List.replicate 12 65)).length ∧
    ((sampleSingle.printFrame sampleFont 0 (List.replicate 12 65)).flushes.map
        (fun fl => fl.calls)) = [[(0x36, 0)], [(0x36, 1)]] ∧
    (sampleSingle.printFrame sampleFont 0 (List.replicate 12 65)).returnedEarly = false := by
  decide

/-- C14, amended (printFrame renders only the target frame). For every target
frame index `k` with `1 ≤ k < 36` and every text with at least 24 glyph columns
(register array of 12 entries, accumulator of at least 24), `printFrame`
flushes exactly one frame: its frame index is `k`, its column data is the first
24 glyph columns of the text, its registers are those columns packed two per
register, it is written to every chip of the group at slot `k` and to no other
slot, and the call takes the early return right after it. With target index 0
`printFrame` never takes the early return and makes no configuration push,
whatever the text. -/
theorem printFrame_target (self : Beam) (font : Font) (k : Nat) (text : List Nat)
    (hk : 1 ≤ k ∧ k < 36) (hcs : self.cs.length = 12) (hacc : 24 ≤ self.cscolumn.length)
    (htext : 24 ≤ (glyphStream font text).length) :
    (∃ fl, (self.printFrame font k text).flushes = [fl] ∧ fl.frame = k ∧
      fl.columns = (glyphStream font text).take 24 ∧
      fl.cs = packColumns (List.replicate 12 0) ((glyphStream font text).take 24) ∧
      fl.calls = (List.range self._beamCount).map (fun b => (self.addrOf b, k)) ∧
      fl.cmds = (List.range self._beamCount).flatMap (fun b =>
        writeFrame (packColumns (List.replicate 12 0) ((glyphStream font text).take 24))
          (self.addrOf b) k) ∧
      (self.printFrame font k text).returnedEarly = true) ∧
    ∀ other : List Nat,
      (self.printFrame font 0 other).returnedEarly = false ∧
      (self.printFrame font 0 other).config = [] := by
  refine ⟨?_, fun other => printFrameLoop_zero font other _⟩
  obtain ⟨fl, h1, h2, h3, h4, h5, acc, h6, h7⟩ := printFrameLoop_target font k (by omega) hk.2 text
    { beam := self, frame := k, cscount := 0 } [] rfl rfl (by decide) hacc rfl
    (by simpa using htext)
  simp only [List.nil_append] at h3
  have hcsv : fl.cs = packColumns (List.replicate 12 0) ((glyphStream font text).take 24) := by
    rw [h6, packColumns_take _ acc hcs, h7, h3]
  refine ⟨fl, h1, h2, h3, hcsv, h4, ?_, h5⟩
  rw [Flush.cmds, h4, hcsv, List.flatMap_map]

/-- Witness for the amended C14: target frame 5 and seven glyphs of four
columns on a group of two chips. -/
theorem printFrame_target_witness :
    (1 ≤ 5 ∧ 5 < 36) ∧ sampleGroup.cs.length = 12 ∧ 24 ≤ sampleGroup.cscolumn.length ∧
    24 ≤ (glyphStream sampleFont (List.replicate 7 65)).length ∧
    ∃ fl, (sampleGroup.printFrame sampleFont 5 (List.replicate 7 65)).flushes = [fl] ∧
      fl.frame = 5 ∧
      fl.columns = (glyphStream sampleFont (List.replicate 7 65)).take 24 ∧
      fl.cs = packColumns (List.replicate 12 0)
        ((glyphStream sampleFont (List.replicate 7 65)).take 24) ∧
      fl.calls = (List.range sampleGroup._beamCount).map (fun b => (sampleGroup.addrOf b, 5)) ∧
      fl.cmds = (List.range sampleGroup._beamCount).flatMap (fun b =>
        writeFrame (packColumns (List.replicate 12 0)
          ((glyphStream sampleFont (List.replicate 7 65)).take 24)) (sampleGroup.addrOf b) 5) ∧
      (sampleGroup.printFrame sampleFont 5 (List.replicate 7 65)).returnedEarly = true :=
  ⟨by decide, by decide, by decide, by decide,
   (printFrame_target sampleGroup sampleFont 5 (List.replicate 7 65) (by decide) (by decide)
     (by decide) (by decide)).1⟩

/-- C15 (render calls start from a reset accumulator), the code on the failing
input. `printFrame(1, "AB")` on a single chip flushes nothing and leaves its
eight columns in the accumulator; a following `print("A")` then flushes a frame
whose column data starts with those eight columns, whereas `print("A")` from a
zero accumulator flushes the four columns of the glyph and zeros. The two
calls write to the same slots, with different register contents. -/
theorem print_stale_accumulator :
    (sampleSingle.printFrame sampleFont 1 [65, 66]).flushes = [] ∧
    ((sampleSingle.printFrame sampleFont 1 [65, 66]).beam.print sampleFont [65]).flushes.map
        (fun fl => fl.columns)
      = [[0x1F, 0x05, 0x1F, 0x00, 0x1F, 0x05, 0x1F, 0x00] ++ List.replicate 16 0] ∧
    (sampleSingle.print sampleFont [65]).flushes.map (fun fl => fl.columns)
      = [[0x1F, 0x05, 0x1F, 0x00] ++ List.replicate 20 0] ∧
    ((sampleSingle.printFrame sampleFont 1 [65, 66]).beam.print sampleFont [65]).flushes.map
        (fun fl => fl.calls)
      = (sampleSingle.print sampleFont [65]).flushes.map (fun fl => fl.calls) ∧
    ((sampleSingle.printFrame sampleFont 1 [65, 66]).beam.print sampleFont [65]).flushes.map
        (fun fl => fl.cs)
      ≠ (sampleSingle.print sampleFont [65]).flushes.map (fun fl => fl.cs) := by
  decide

/-- C16 (cascading start), the code on all inputs. For a group of `G` chips,
`2 ≤ G ≤ 4`, with the active-chip counter equal to `G` at entry, whenever
`play` returns it has written the start value to the chip `play` starts first
and then to the chips `G - 2, G - 3, ..., 0`, whatever the direction, and the
counter is `G` again. For direction LEFT that is every chip of the group; for
any other direction chip 0 is started twice and chip `G - 1` is never
started. -/
theorem play_cascade (self : Beam) (reads : List Nat) (r : PlayResult)
    (hG : 2 ≤ self._beamCount ∧ self._beamCount ≤ 4) (hactive : self.activeBeams = self._beamCount)
    (hret : self.play reads = some r) :
    r.started = self.firstStart ::
        List.map (fun (n : Nat) => (n : Int)) (List.range (self._beamCount - 1)).reverse ∧
    r.beam.activeBeams = self._beamCount ∧
    (self._scrollDir = LEFT → ∀ b, b < self._beamCount → (b : Int) ∈ r.started) ∧
    (self._scrollDir ≠ LEFT → ((self._beamCount - 1 : Nat) : Int) ∉ r.started) := by
  unfold Beam.play at hret
  simp only [] at hret
  rw [if_pos (by omega)] at hret
  cases hp : playLoop reads self with
  | none => rw [hp] at hret; simp at hret
  | some t =>
    rw [hp] at hret
    simp only [Option.map_some', Option.some.injEq] at hret
    subst hret
    obtain ⟨hs, hb⟩ := playLoop_started reads self t (by omega) (by omega) hp
    rw [hactive] at hs
    refine ⟨by simp only [hs], by rw [hb], fun hdir b hb => ?_, fun hdir => ?_⟩
    · simp only [hs, Beam.firstStart, hdir, if_true, List.mem_cons, List.mem_map,
        List.mem_reverse, List.mem_range]
      by_cases hlast : b = self._beamCount - 1
      · left; omega
      · right; exact ⟨b, by omega, rfl⟩
    · simp only [hs, Beam.firstStart, hdir, if_false, List.mem_cons, List.mem_map,
        List.mem_reverse, List.mem_range, not_or, not_exists, not_and]
      refine ⟨by omega, fun n hn => by omega⟩

/-- Witness for C16: a group of two chips scrolling RIGHT, the first status
read reporting frame 1. Chip 0 is started twice, chip 1 never. -/
theorem play_cascade_witness :
    (2 ≤ sampleGroup._beamCount ∧ sampleGroup._beamCount ≤ 4) ∧
    sampleGroup.activeBeams = sampleGroup._beamCount ∧
    sampleGroup._scrollDir ≠ LEFT ∧
    (sampleGroup.play [4]).map (fun r => r.started) = some [0, 0] ∧
    ((sampleGroup._beamCount - 1 : Nat) : Int) ∉
      ({ started := [0, 0], beam := sampleGroup } : PlayResult).started :=
  ⟨by decide, by decide, by decide, by decide,
   (play_cascade sampleGroup [4] { started := [0, 0], beam := sampleGroup }
     (by decide) (by decide) rfl).2.2.2 (by decide)⟩

/-- Counterexample to C17 as stated: in the leftward configuration push of a
group of two chips the last chip, index 1, is written the standby value
0x02. -/
theorem standby_last_chip :
    sampleGroup._beamCount = 2 ∧
    ({ addr := sampleGroup.addrOf (2 - 1), ramsection := CTRL, subreg := SHDN,
       subregdata := 0x02 } : WriteCmd) ∈ (sampleGroup.setPrintDefaults SCROLL 0 6 7 5 LEFT 0).1 := by
  decide

/-- C17, amended (standby shutdown). In the leftward configuration push of
`setPrintDefaults`, for every group size `G` in [1,4], the writes to the
shutdown register are, in chip-index order, one write of the standby value 0x02
to `BEAM[b]` for each chip index `b < G` with `b ≠ 3`, and no other. For
`G < 4` that is every chip of the group, the last one included; for `G = 4` it
is the chips 0, 1 and 2. When the object is addressed from the start of the
address table, chip `b` is written 0x02 if and only if `b ≠ 3`. -/
theorem standby_shutdown (self : Beam)
    (mode startFrame numFrames numLoops frameDelay fadeMode : Nat)
    (hmode : mode = MOVIE ∨ mode = SCROLL)
    (hG : 1 ≤ self._beamCount ∧ self._beamCount ≤ 4) :
    (self.setPrintDefaults mode startFrame numFrames numLoops frameDelay LEFT fadeMode).1.filter
        (fun c => c.subreg = SHDN)
      = ((List.range self._beamCount).filter (fun b => b ≠ 3)).map
          (fun b => { addr := self.addrOf b, ramsection := CTRL, subreg := SHDN,
                      subregdata := 0x02 }) ∧
    (self._beamCount < 4 →
      (self.setPrintDefaults mode startFrame numFrames numLoops frameDelay LEFT fadeMode).1.filter
          (fun c => c.subreg = SHDN)
        = (List.range self._beamCount).map
            (fun b => { addr := self.addrOf b, ramsection := CTRL, subreg := SHDN,
                        subregdata := 0x02 })) ∧
    (self._beamCount = 4 →
      (self.setPrintDefaults mode startFrame numFrames numLoops frameDelay LEFT fadeMode).1.filter
          (fun c => c.subreg = SHDN)
        = (List.range 3).map
            (fun b => { addr := self.addrOf b, ramsection := CTRL, subreg := SHDN,
                        subregdata := 0x02 })) ∧
    (self.BEAM = 0 → ∀ b, b < self._beamCount →
      (({ addr := self.addrOf b, ramsection := CTRL, subreg := SHDN, subregdata := 0x02 } : WriteCmd)
          ∈ (self.setPrintDefaults mode startFrame numFrames numLoops frameDelay LEFT fadeMode).1
        ↔ b ≠ 3)) := by
  have hlist := setPrintDefaults_shdn self mode startFrame numFrames numLoops frameDelay fadeMode hmode
  refine ⟨hlist, fun hlt => ?_, fun h4 => ?_, fun hB b hb => ?_⟩
  · rw [hlist, List.filter_eq_self.mpr]
    intro b hb
    have := List.mem_range.mp hb
    simp only [ne_eq, decide_not, Bool.not_eq_eq_eq_not, Bool.not_true, decide_eq_false_iff_not]
    omega
  · rw [hlist, h4]
    rfl
  · have hmem : ∀ c : WriteCmd, c.subreg = SHDN →
        (c ∈ (self.setPrintDefaults mode startFrame numFrames numLoops frameDelay LEFT fadeMode).1
          ↔ c ∈ (self.setPrintDefaults mode startFrame numFrames numLoops frameDelay LEFT
              fadeMode).1.filter (fun c => c.subreg = SHDN)) := by
      intro c hc
      rw [List.mem_filter]
      simp [hc]
    rw [hmem _ rfl, hlist, List.mem_map]
    constructor
    · rintro ⟨b', hb', heq⟩
      have hfil := List.mem_filter.mp hb'
      have hlt := List.mem_range.mp hfil.1
      have hadd : self.addrOf b' = self.addrOf b := congrArg WriteCmd.addr heq
      have := addrOf_injective self hB b' b (by omega) (by omega) hadd
      subst this
      simpa using hfil.2
    · intro hne
      exact ⟨b, List.mem_filter.mpr ⟨List.mem_range.mpr hb, by simpa using hne⟩, rfl⟩

/-- Witness for the amended C17: the push that ends `print`, on the
single-address object for 0x37, the fourth table address. Its one chip has
index 0 and is written 0x02. -/
theorem standby_shutdown_witness :
    (SCROLL = MOVIE ∨ SCROLL = SCROLL) ∧
    (1 ≤ sampleBeamD._beamCount ∧ sampleBeamD._beamCount ≤ 4) ∧
    sampleBeamD._beamCount < 4 ∧
    (sampleBeamD.setPrintDefaults SCROLL 0 6 7 5 LEFT 0).1.filter (fun c => c.subreg = SHDN)
      = [{ addr := 0x37, ramsection := CTRL, subreg := SHDN, subregdata := 0x02 }] :=
  ⟨by decide, by decide, by decide,
   ((standby_shutdown sampleBeamD SCROLL 0 6 7 5 0 (by decide) (by decide)).2.1
      (by decide)).trans (by decide)⟩

/-- C18 (clock sync roles). In every configuration push of `setPrintDefaults`
in group mode with `G ≥ 2` chips, the writes to the clock-sync register are the
source value 0x02 to one chip, index `G - 1` for direction LEFT and index 0
otherwise, followed by the follower value 0x01 to each other chip of the group
once; the source chip is the chip `play` starts first after the push. With
`G ≤ 1` or outside group mode no clock-sync register is written. -/
theorem clock_sync_roles (self : Beam)
    (mode startFrame numFrames numLoops frameDelay scrollDir fadeMode : Nat)
    (hmode : mode = MOVIE ∨ mode = SCROLL) :
    (self._gblMode = 1 → 2 ≤ self._beamCount →
      (self.setPrintDefaults mode startFrame numFrames numLoops frameDelay scrollDir
          fadeMode).1.filter (fun c => c.subreg = CLKSYNC)
        = ({ addr := self.addrOf (if scrollDir = LEFT then self._beamCount - 1 else 0),
             ramsection := CTRL, subreg := CLKSYNC, subregdata := 0x02 } : WriteCmd) ::
          ((List.range self._beamCount).filter
              (fun b => b ≠ (if scrollDir = LEFT then self._beamCount - 1 else 0))).map
            (fun b => { addr := self.addrOf b, ramsection := CTRL, subreg := CLKSYNC,
                        subregdata := 0x01 }) ∧
      (self.setPrintDefaults mode startFrame numFrames numLoops frameDelay scrollDir
          fadeMode).2.firstStart
        = ((if scrollDir = LEFT then self._beamCount - 1 else 0 : Nat) : Int) ∧
      ∀ (reads : List Nat) (p : PlayResult),
        (self.setPrintDefaults mode startFrame numFrames numLoops frameDelay scrollDir
            fadeMode).2.play reads = some p →
          p.started.head? = some (((if scrollDir = LEFT then self._beamCount - 1 else 0 : Nat) : Int))) ∧
    (self._beamCount ≤ 1 ∨ self._gblMode ≠ 1 →
      (self.setPrintDefaults mode startFrame numFrames numLoops frameDelay scrollDir
          fadeMode).1.filter (fun c => c.subreg = CLKSYNC) = []) := by
  have hplay : ∀ (reads : List Nat) (p : PlayResult),
      (self.setPrintDefaults mode startFrame numFrames numLoops frameDelay scrollDir
          fadeMode).2.play reads = some p →
        p.started.head? = some (self.setPrintDefaults mode startFrame numFrames numLoops
          frameDelay scrollDir fadeMode).2.firstStart := fun reads p h => play_first _ reads p h
  rw [setPrintDefaults_clksync self mode startFrame numFrames numLoops frameDelay scrollDir
    fadeMode hmode]
  rw [setPrintDefaults_beam] at hplay ⊢
  refine ⟨fun hgbl hG => ?_, fun h => ?_⟩
  · obtain ⟨n, hn⟩ : ∃ n, self._beamCount = n + 1 := ⟨self._beamCount - 1, by omega⟩
    rw [if_pos ⟨hgbl, by omega⟩]
    by_cases hdir : scrollDir = LEFT
    · simp only [hdir, if_true, Beam.firstStart, hn, Nat.add_sub_cancel]
      simp only [hdir, if_true, Beam.firstStart, hn, Nat.add_sub_cancel] at hplay
      rw [range_filter_ne_last]
      have hcast : ((n + 1 : Nat) : Int) - 1 = (n : Int) := by push_cast; omega
      rw [hcast] at hplay ⊢
      exact ⟨rfl, rfl, hplay⟩
    · simp only [hdir, if_false, Beam.firstStart, hn, Nat.add_sub_cancel]
      simp only [hdir, if_false, Beam.firstStart, hn] at hplay
      rw [range_filter_ne_zero, List.map_map]
      exact ⟨rfl, rfl, fun reads p h => (hplay reads p h).trans rfl⟩
  · rw [if_neg]
    omega

/-- Witness for C18: a push for direction RIGHT on a group of two chips. -/
theorem clock_sync_roles_witness :
    (SCROLL = MOVIE ∨ SCROLL = SCROLL) ∧ sampleGroup._gblMode = 1 ∧ 2 ≤ sampleGroup._beamCount ∧
    (sampleGroup.setPrintDefaults SCROLL 0 6 7 5 RIGHT 0).1.filter (fun c => c.subreg = CLKSYNC)
      = [{ addr := 0x36, ramsection := CTRL, subreg := CLKSYNC, subregdata := 0x02 },
         { addr := 0x34, ramsection := CTRL, subreg := CLKSYNC, subregdata := 0x01 }] :=
  ⟨by decide, by decide, by decide,
   ((clock_sync_roles sampleGroup SCROLL 0 6 7 5 RIGHT 0 (by decide)).1
      (by decide) (by decide)).1.trans (by decide)⟩

/-- Counterexample to C19 as stated: in a run of 52 failing calls of
`sendWriteCmd` from a zero failure counter, none of the first 51 calls, the
50th included, invokes the transport reset; the 52nd does. -/
theorem write_failure_fiftieth :
    (sendWriteRun 0 (List.replicate 52 1)).map (fun out => out.reset)
      = List.replicate 51 false ++ [true] := by
  decide

/-- C19, amended (write-failure threshold). In a run of consecutive
`sendWriteCmd` calls whose section-select write fails, from a zero failure
counter, the call at position `k` (counted from 0) invokes the transport reset
if and only if `51 ≤ k`, that is from the 52nd consecutive failure on, and
leaves the counter at `k + 1`; a successful section-select write sets the
counter to zero, writes the data byte and invokes no reset. -/
theorem write_failure_threshold (statuses : List Nat) (hfail : ∀ s ∈ statuses, s ≠ 0)
    (k : Nat) (out : WriteOutcome) (hk : (sendWriteRun 0 statuses)[k]? = some out) :
    (out.reset = true ↔ 51 ≤ k) ∧ out.errCount = k + 1 ∧
    ∀ e, sendWriteCmd e 0 = { errCount := 0, dataWritten := true, reset := false } := by
  obtain ⟨h1, h2, _⟩ := sendWriteRun_failures statuses 0 hfail k out hk
  refine ⟨?_, by omega, fun e => rfl⟩
  rw [h2]
  omega

/-- Witness for the amended C19: the 52nd call of a run of 52 failures. -/
theorem write_failure_threshold_witness :
    (∀ s ∈ List.replicate 52 1, s ≠ 0) ∧
    (sendWriteRun 0 (List.replicate 52 1))[51]?
      = some { errCount := 52, dataWritten := false, reset := true } ∧
    (({ errCount := 52, dataWritten := false, reset := true } : WriteOutcome).reset = true
      ↔ 51 ≤ 51) :=
  ⟨by decide, by decide,
   (write_failure_threshold (List.replicate 52 1) (by decide) 51
     { errCount := 52, dataWritten := false, reset := true } (by decide)).1⟩

/-- C20 (degraded read). With the bus as an oracle whose wait loop comes to an
end (data becomes available or 250 ms pass), `sendReadCmd` returns a byte: 0
with exactly one transport reset when no data is available after the wait, and
the received byte with no reset when data is available. The result carries no
error signal. -/
theorem degraded_read (bus : ReadOracle)
    (hwait : ∃ s ∈ bus.polls, s.1 = true ∨ 250 ≤ s.2) :
    ∃ out, sendReadCmd bus = some out ∧ out.value < 256 ∧
      (bus.available = false → out.value = 0 ∧ out.resets = 1) ∧
      (bus.available = true → out.value = bus.received % 256 ∧ out.resets = 0) := by
  obtain ⟨n, hn⟩ := waitLoop_ends bus.polls hwait
  cases ha : bus.available with
  | false =>
    refine ⟨{ value := 0, resets := 1 }, ?_, by decide, fun _ => ⟨rfl, rfl⟩, fun h => by simp at h⟩
    simp [sendReadCmd, hn, ha]
  | true =>
    refine ⟨{ value := bus.received % 256, resets := 0 }, ?_, Nat.mod_lt _ (by decide),
      fun h => by simp at h, fun _ => ⟨rfl, rfl⟩⟩
    simp [sendReadCmd, hn, ha]

/-- Witness for C20: a bus on which no data arrives within 250 ms. -/
theorem degraded_read_witness :
    (∃ s ∈ timeoutBus.polls, s.1 = true ∨ 250 ≤ s.2) ∧
    ∃ out, sendReadCmd timeoutBus = some out ∧ out.value < 256 ∧
      (timeoutBus.available = false → out.value = 0 ∧ out.resets = 1) ∧
      (timeoutBus.available = true → out.value = timeoutBus.received % 256 ∧ out.resets = 0) :=
  ⟨⟨(false, 250), by decide, by decide⟩,
   degraded_read timeoutBus ⟨(false, 250), by decide, by decide⟩⟩

/-- C21 (physical slots stay in range), the code on the failing inputs. For
every group size `G` in [1,4]: every slot `printFrame` passes to `writeFrame` is
below 36; `draw` passes slots up to `34 + G`, and its last animation frame,
index 35, goes to chip 0 at slot `34 + G`, which is 36 or more as soon as
`G ≥ 2`; `print` writes the frame with number `36 - G` to chip 0 at slot 36
whenever the text is long enough for that frame to be flushed. -/
theorem physical_slots (self : Beam) (hG : 1 ≤ self._beamCount ∧ self._beamCount ≤ 4) :
    (∀ (font : Font) (k : Nat) (text : List Nat),
      ∀ fl ∈ (self.printFrame font k text).flushes, ∀ call ∈ fl.calls, call.2 < 36) ∧
    (∀ (frameList : Nat → Nat → Nat),
      (∀ dfr ∈ (self.draw frameList).frames, ∀ call ∈ dfr.calls,
        call.2 ≤ 34 + self._beamCount) ∧
      ∃ dfr, (self.draw frameList).frames[35]? = some dfr ∧
        dfr.calls[0]? = some (self.addrOf 0, 34 + self._beamCount)) ∧
    (∀ (font : Font) (text : List Nat),
      (∀ row, (glyphColumns (font row)).length ≤ 24) →
      self.cscolumn = List.replicate 25 0 →
      (∀ h : text ≠ [], resolveChar (text.getLast h) ≠ none) → text ≠ [] →
      (glyphStream font text.dropLast).length < 864 →
      24 * (36 - self._beamCount) ≤ (glyphStream font text).length →
      ∃ fl, (self.print font text).flushes[36 - self._beamCount]? = some fl ∧
        fl.calls[0]? = some (self.addrOf 0, 36)) := by
  refine ⟨fun font k text => printFrameLoop_slots font k text _, fun frameList => ⟨?_, ?_⟩, ?_⟩
  · intro dfr hd call hcall
    have := drawLoop_slots frameList 36 0 self dfr hd call hcall
    omega
  · obtain ⟨dfr, h1, _, h3⟩ := drawLoop_frames frameList 36 0 self 35 (by decide)
    refine ⟨dfr, h1, ?_⟩
    rw [h3, List.getElem?_map, List.getElem?_range (by omega)]
    simp only [Option.map_some', Nat.zero_add, Nat.sub_zero]
    rw [Nat.mod_eq_of_lt (by omega)]
    congr 2
    omega
  · intro font text hfont hacc hlast hne hpre hlen
    rw [print_flushes]
    have h := printLoop_columns font hfont text _ []
      (accumulating_zero self 0 hacc) hlast (by simp only [List.length_nil]; omega) hne
    have hk : 36 - self._beamCount < (printLoop font text
        { beam := { self with cs := List.replicate 12 0 }, frame := 0, cscount := 0 }).1.length := by
      rw [h.2]
      simp only [List.length_nil]
      omega
    refine ⟨_, List.getElem?_eq_getElem hk, ?_⟩
    have hf := printLoop_frames font text _ (36 - self._beamCount) _ (List.getElem?_eq_getElem hk)
    rw [hf.2.2, List.getElem?_map, List.getElem?_range (by simp only []; omega)]
    simp only [Option.map_some', Nat.zero_add, Nat.sub_zero, Beam.addrOf]
    rw [Nat.mod_eq_of_lt (by omega)]
    congr 2
    omega

/-- Witness for C21: `draw` on a group of two chips writes its last animation
frame to the first chip at slot 36. -/
theorem physical_slots_witness :
    (1 ≤ sampleGroup._beamCount ∧ sampleGroup._beamCount ≤ 4) ∧
    ∃ dfr, (sampleGroup.draw (fun _ => sampleBitmap)).frames[35]? = some dfr ∧
      dfr.calls[0]? = some (0x36, 36) :=
  ⟨by decide,
   ((physical_slots sampleGroup (by decide)).2.1 (fun _ => sampleBitmap)).2⟩

/-- C22 (frame-time control byte composition). When the stored direction and
fade flag are each 0 or 1, for every speed `s` in [1,15] `setSpeed` stores `s`
as the frame delay and writes one and the same byte to the frame-time register
of each of the `G` chips, once per chip: its bits 3..0 are `s`, bit 4 is 0 if
the mode is MOVIE and 1 otherwise, bit 5 is 0, bit 6 is the direction and bit 7
the fade flag. For every loop count `n` in [1,7] `setLoops` writes the byte
`(n <<< 5) ||| 0x0B` to the display-option register of each chip. -/
theorem frame_time_byte (self : Beam) (s n : Nat)
    (hdir : self._scrollDir ≤ 1) (hfade : self._fadeMode ≤ 1)
    (hs : 1 ≤ s ∧ s ≤ 15) (hn : 1 ≤ n ∧ n ≤ 7) :
    (∃ byte, byte < 256 ∧
      (self.setSpeed s).1 = (List.range self._beamCount).map (fun b =>
        { addr := self.addrOf b, ramsection := CTRL, subreg := FRAMETIME, subregdata := byte }) ∧
      byte % 16 = s ∧
      byte.testBit 4 = decide (self._beamMode ≠ MOVIE) ∧
      byte.testBit 5 = false ∧
      byte.testBit 6 = decide (self._scrollDir = 1) ∧
      byte.testBit 7 = decide (self._fadeMode = 1)) ∧
    (self.setSpeed s).2._frameDelay = s ∧
    (self.setLoops n).1 = (List.range self._beamCount).map (fun b =>
      { addr := self.addrOf b, ramsection := CTRL, subreg := DISPLAYO,
        subregdata := (n <<< 5) ||| 0x0B }) := by
  obtain ⟨hs1, hs2⟩ := hs
  obtain ⟨hn1, hn2⟩ := hn
  have hsp : ¬ (s < 1 ∨ 15 < s) := by omega
  have hlp : ¬ (n < 1 ∨ 7 < n) := by omega
  refine ⟨⟨(self._fadeMode <<< 7 ||| self._scrollDir <<< 6 ||| 0 <<< 5
      ||| (if self._beamMode = MOVIE then 0 else 1) <<< 4 ||| s) % 256,
    Nat.mod_lt _ (by decide), ?_, ?_⟩, ?_, ?_⟩
  · rw [Beam.setSpeed, if_neg hsp]
    rfl
  · generalize self._scrollDir = d at hdir
    generalize self._fadeMode = f at hfade
    by_cases hmv : self._beamMode = MOVIE
    · have hd : decide (self._beamMode ≠ MOVIE) = false := by simp [hmv]
      rw [hd, if_pos hmv]
      interval_cases d <;> interval_cases f <;> interval_cases s <;> decide
    · have hd : decide (self._beamMode ≠ MOVIE) = true := by simp [hmv]
      rw [hd, if_neg hmv]
      interval_cases d <;> interval_cases f <;> interval_cases s <;> decide
  · rw [Beam.setSpeed, if_neg hsp]
  · rw [Beam.setLoops, if_neg hlp]
    simp only []
    have : (n <<< 5 ||| 0 <<< 4 ||| 0x0B) % 256 = (n <<< 5) ||| 0x0B := by
      interval_cases n <;> decide
    rw [this]
    rfl

/-- Witness for C22: speed 5 and loop count 7 on a group of two chips. -/
theorem frame_time_byte_witness :
    sampleGroup._scrollDir ≤ 1 ∧ sampleGroup._fadeMode ≤ 1 ∧ (1 ≤ 5 ∧ 5 ≤ 15) ∧ (1 ≤ 7 ∧ 7 ≤ 7) ∧
    (sampleGroup.setSpeed 5).2._frameDelay = 5 ∧
    (sampleGroup.setSpeed 5).1.map (fun c => c.subregdata) = [0x15, 0x15] ∧
    (sampleGroup.setLoops 7).1.map (fun c => c.subregdata) = [0xEB, 0xEB] :=
  ⟨by decide, by decide, by decide, by decide,
   (frame_time_byte sampleGroup 5 7 (by decide) (by decide) (by decide) (by decide)).2.1,
   by decide, by decide⟩

/-- C23 (register array is clean between operations). If `cs[]` is all zero on
entry, it is all zero in the object that `print`, `printFrame`, `draw`, `play`
(when it returns), `setScroll`, `setSpeed`, `setLoops`, `setMode` and
`checkStatus` leave behind, for every input. Hence every frame written from
`cs[]` at entry is all zero, the writes of `initBeam` and of the clearing loop
at the start of `print` are those made from a zero register array, and every
bitmap of `draw` is converted into zero registers. -/
theorem cs_clean (self : Beam) (hcs : self.cs = List.replicate 12 0) :
    (∀ (font : Font) (text : List Nat), (self.print font text).beam.cs = List.replicate 12 0) ∧
    (∀ (font : Font) (k : Nat) (text : List Nat),
      (self.printFrame font k text).beam.cs = List.replicate 12 0) ∧
    (∀ frameList : Nat → Nat → Nat, (self.draw frameList).beam.cs = List.replicate 12 0) ∧
    (∀ (reads : List Nat) (r : PlayResult), self.play reads = some r →
      r.beam.cs = List.replicate 12 0) ∧
    (∀ direction fade : Nat, (self.setScroll direction fade).2.cs = List.replicate 12 0) ∧
    (∀ speed : Nat, (self.setSpeed speed).2.cs = List.replicate 12 0) ∧
    (∀ loops : Nat, (self.setLoops loops).2.cs = List.replicate 12 0) ∧
    (∀ mode : Nat, (self.setMode mode).2.cs = List.replicate 12 0) ∧
    (∀ status : Nat, (self.checkStatus status).beam.cs = List.replicate 12 0) ∧
    (∀ (addr f : Nat), ∀ c ∈ writeFrame self.cs addr f, c.subregdata = 0) ∧
    (∀ (font : Font) (text : List Nat),
      (self.print font text).setup
        = (List.range self._beamCount).flatMap
            (fun b => initializeBeam (List.replicate 12 0) (self.addrOf b)) ++
          (List.range 36).flatMap (fun i => (List.range self._beamCount).flatMap
            (fun b => writeFrame (List.replicate 12 0) (self.addrOf b) i))) ∧
    (∀ (frameList : Nat → Nat → Nat), ∀ dfr ∈ (self.draw frameList).frames,
      dfr.cs = convertFrame self.segmentmask (frameList dfr.index) (List.replicate 12 0)) := by
  refine ⟨?_, ?_, ?_, ?_, ?_, ?_, ?_, ?_, ?_, ?_, ?_, ?_⟩
  · intro font text
    simp only [Beam.print]
    rw [setPrintDefaults_cs]
    exact printLoop_cs font text _ rfl
  · intro font k text
    exact printFrameLoop_cs font k text _ hcs
  · intro frameList
    simp only [Beam.draw]
    rw [setPrintDefaults_cs]
    exact (drawLoop_clean frameList 36 0 self hcs).1
  · intro reads r hr
    unfold Beam.play at hr
    simp only [] at hr
    split_ifs at hr
    · cases hp : playLoop reads self with
      | none => rw [hp] at hr; simp at hr
      | some t =>
        rw [hp] at hr
        simp only [Option.map_some', Option.some.injEq] at hr
        subst hr
        exact (playLoop_cs reads self t hp).trans hcs
    · simp only [Option.some.injEq] at hr
      subst hr
      exact hcs
  · intro direction fade
    unfold Beam.setScroll
    split_ifs <;> exact hcs
  · intro speed
    unfold Beam.setSpeed
    split_ifs <;> exact hcs
  · intro loops
    unfold Beam.setLoops
    split_ifs <;> exact hcs
  · intro mode
    unfold Beam.setMode
    split_ifs <;> exact hcs
  · intro status
    unfold Beam.checkStatus
    simp only []
    split_ifs <;> exact hcs
  · intro addr f
    rw [hcs]
    exact writeFrame_zero addr f
  · intro font text
    simp only [Beam.print, Beam.initBeam, hcs, Beam.addrOf]
  · intro frameList
    exact (drawLoop_clean frameList 36 0 self hcs).2

/-- Witness for C23: `print` of "Hello World" on a group of two chips after
`begin()`. -/
theorem cs_clean_witness :
    sampleGroup.cs = List.replicate 12 0 ∧
    (sampleGroup.print sampleFont sampleText).beam.cs = List.replicate 12 0 :=
  ⟨by decide, (cs_clean sampleGroup (by decide)).1 sampleFont sampleText⟩

/-- C24 (checkStatus stays inside the group), the code on all inputs. For a
group of `G` chips, `1 ≤ G ≤ 4`, and an active-chip counter in [1,G] at entry:
the chip index `checkStatus` reads the status from lies in [0,G) and the
counter is in [1,G] again on return; the chip index it starts lies in [0,G)
when the counter is at least 2 at entry; with the counter at 1 and a status
whose frame number equals `G`, the index it starts is -1. -/
theorem checkStatus_indices (self : Beam) (status : Nat)
    (hG : 1 ≤ self._beamCount ∧ self._beamCount ≤ 4)
    (ha : 1 ≤ self.activeBeams ∧ self.activeBeams ≤ self._beamCount) :
    (0 ≤ (self.checkStatus status).readIndex ∧
      (self.checkStatus status).readIndex < (self._beamCount : Int)) ∧
    (1 ≤ (self.checkStatus status).beam.activeBeams ∧
      (self.checkStatus status).beam.activeBeams ≤ self._beamCount) ∧
    (2 ≤ self.activeBeams → ∀ idx, (self.checkStatus status).started = some idx →
      0 ≤ idx ∧ idx < (self._beamCount : Int)) ∧
    (self.activeBeams = 1 → status >>> 2 = self._beamCount →
      (self.checkStatus status).started = some (-1)) := by
  obtain ⟨a, ha1⟩ : ∃ a, self.activeBeams = a + 1 := ⟨self.activeBeams - 1, by omega⟩
  have hdec : (self.activeBeams + 255) % 256 = a := by omega
  by_cases hm : ((status >>> 2 : Nat) : Int)
      = (self._beamCount : Int) - (self.activeBeams : Int) + 1
  · by_cases hlast : (self.activeBeams + 255) % 256 ≤ 1
    · rw [checkStatus_last self status hm hlast]
      simp only [hdec, Option.some.injEq]
      refine ⟨by omega, by omega, fun h2 idx hidx => by omega, fun h1 _ => ?_⟩
      have : a = 0 := by omega
      subst this
      rfl
    · rw [checkStatus_next self status hm hlast]
      simp only [hdec, Option.some.injEq]
      refine ⟨by omega, by omega, fun h2 idx hidx => by omega, fun h1 _ => by omega⟩
  · rw [checkStatus_idle self status hm]
    simp only []
    refine ⟨by omega, by omega, fun _ idx hidx => by simp at hidx, fun h1 hs => ?_⟩
    exfalso
    apply hm
    rw [hs, h1]
    push_cast
    omega

/-- Witness for C24: a single chip, status byte 4 (frame number 1). The start
value is written through index -1, in front of the address table. -/
theorem checkStatus_indices_witness :
    (1 ≤ sampleSingle._beamCount ∧ sampleSingle._beamCount ≤ 4) ∧
    (1 ≤ sampleSingle.activeBeams ∧ sampleSingle.activeBeams ≤ sampleSingle._beamCount) ∧
    sampleSingle.activeBeams = 1 ∧ 4 >>> 2 = sampleSingle._beamCount ∧
    (sampleSingle.checkStatus 4).started = some (-1) ∧
    sampleSingle.startCmd (-1)
      = { addr := 0, ramsection := CTRL, subreg := SHDN, subregdata := 0x03 } :=
  ⟨by decide, by decide, by decide, by decide,
   (checkStatus_indices sampleSingle 4 (by decide) (by decide)).2.2.2 (by decide) (by decide),
   by decide⟩


end BeamDriver
